import Mathlib

/-!
# Collective-communication engine of the util provider (util_coll.c, ofi_coll.h)

A shallow embedding of the address-set algebra, the context-id allocator, the
collective tag layout, the schedule compiler and the progress engine, followed by
theorems about that embedding. The theorems named `C<i>_...` state the properties
C1, C2, ... of the engine's specification.

Conventions of the embedding:
* machine integers are `Nat` or `Int` with the wrap-around written out;
* a C array is the `List` of its allocated slots, a read or write outside of it
  (and any other undefined behaviour, or a failed `assert`) makes the function
  return `none`;
* a `void *` buffer is an abstract address (`Ptr`), memory maps addresses to
  buffer contents.
-/

namespace UtilColl

/-! ## Definitions -/

/-! ### Constants -/

def OFI_WORLD_CONTEXT_ID : Nat := 0

def OFI_CONTEXT_ID_SIZE : Nat := 4

/-- The collective flag `(1ULL << 63)`. -/
def OFI_COLL_TAG_FLAG : Nat := 1 <<< 63

/-- Modelled from the spec: the return codes are declared in rdma/fi_errno.h, which is
not among the sources; success is 0 and the error kinds InvalidArg, NotSupported and
OutOfMemory are the errno values EINVAL, ENOSYS and ENOMEM, returned negated. -/
def FI_SUCCESS : Int := 0

/-- Modelled from the spec: InvalidArg (see `FI_SUCCESS`). -/
def FI_EINVAL : Int := 22

/-- Modelled from the spec: NotSupported (see `FI_SUCCESS`). -/
def FI_ENOSYS : Int := 38

/-- Modelled from the spec: OutOfMemory (see `FI_SUCCESS`). -/
def FI_ENOMEM : Int := 12

/-- All ones in 64 bits, the value of `(uint64_t) -1`. -/
def UINT64_MAX : Nat := 2 ^ 64 - 1

/-! ### Address sets -/

/-- The fields of `struct util_av_set` the set algebra reads and writes: the identity of
the address vector, the allocated array and the number of slots in use. -/
structure util_av_set where
  av : Nat
  fi_addr_array : List Nat
  fi_addr_count : Nat
deriving DecidableEq

/-- The addresses a set holds: the first `fi_addr_count` slots, in order. -/
def util_av_set.addrs (s : util_av_set) : List Nat :=
  s.fi_addr_array.take s.fi_addr_count

/-- The scan `for (; j < hi; j++) if (arr[j] == a) break;` with `fuel = hi - j`
iterations left: the value of `j` when the loop is left. -/
def av_scan (arr : List Nat) (a : Nat) : Nat → Nat → Option Nat
  | 0, j => some j
  | fuel + 1, j =>
    match arr[j]? with
    | none => none
    | some x => if x = a then some j else av_scan arr a fuel (j + 1)

/-- The outer loop of `ofi_av_set_union` from index `i` on, `fuel` iterations left;
`dst_count` is `dst_av_set->fi_addr_count`, which the loop never updates. -/
def ofi_av_set_union_loop (src_arr : List Nat) (dst_count : Nat) :
    Nat → Nat → List Nat → Nat → Option (List Nat × Nat)
  | 0, _, arr, temp_count => some (arr, temp_count)
  | fuel + 1, i, arr, temp_count =>
    match src_arr[i]? with
    | none => none
    | some a =>
      match av_scan arr a (dst_count - 0) 0 with
      | none => none
      | some j =>
        if j = dst_count then
          if temp_count < arr.length then
            ofi_av_set_union_loop src_arr dst_count fuel (i + 1)
              (arr.set temp_count a) (temp_count + 1)
          else none
        else ofi_av_set_union_loop src_arr dst_count fuel (i + 1) arr temp_count

/-- The function `ofi_av_set_union`: the return code and the new `dst`. -/
def ofi_av_set_union (dst src : util_av_set) : Option (Int × util_av_set) :=
  if src.av ≠ dst.av then none
  else
    match ofi_av_set_union_loop src.fi_addr_array dst.fi_addr_count src.fi_addr_count 0
        dst.fi_addr_array dst.fi_addr_count with
    | none => none
    | some (arr, temp_count) =>
      some (FI_SUCCESS, ⟨dst.av, arr, temp_count⟩)

/-- The outer loop of `ofi_av_set_intersect`; the inner scan starts at `temp`. -/
def ofi_av_set_intersect_loop (src_arr : List Nat) (dst_count : Nat) :
    Nat → Nat → List Nat → Nat → Option (List Nat × Nat)
  | 0, _, arr, temp => some (arr, temp)
  | fuel + 1, i, arr, temp =>
    match src_arr[i]? with
    | none => none
    | some a =>
      match av_scan arr a (dst_count - temp) temp with
      | none => none
      | some j =>
        if j < dst_count then
          match arr[j]? with
          | none => none
          | some x =>
            if temp < arr.length then
              ofi_av_set_intersect_loop src_arr dst_count fuel (i + 1)
                (arr.set temp x) (temp + 1)
            else none
        else ofi_av_set_intersect_loop src_arr dst_count fuel (i + 1) arr temp

/-- The function `ofi_av_set_intersect`. -/
def ofi_av_set_intersect (dst src : util_av_set) : Option (Int × util_av_set) :=
  if src.av ≠ dst.av then none
  else
    match ofi_av_set_intersect_loop src.fi_addr_array dst.fi_addr_count src.fi_addr_count 0
        dst.fi_addr_array 0 with
    | none => none
    | some (arr, temp) => some (FI_SUCCESS, ⟨dst.av, arr, temp⟩)

/-- The outer loop of `ofi_av_set_diff`; the inner scan runs over `[0, temp)` and a
match stores `arr[j]` into slot `--temp`. -/
def ofi_av_set_diff_loop (src_arr : List Nat) :
    Nat → Nat → List Nat → Nat → Option (List Nat × Nat)
  | 0, _, arr, temp => some (arr, temp)
  | fuel + 1, i, arr, temp =>
    match src_arr[i]? with
    | none => none
    | some a =>
      match av_scan arr a (temp - 0) 0 with
      | none => none
      | some j =>
        if j < temp then
          match arr[j]? with
          | none => none
          | some x =>
            if temp - 1 < arr.length then
              ofi_av_set_diff_loop src_arr fuel (i + 1) (arr.set (temp - 1) x) (temp - 1)
            else none
        else ofi_av_set_diff_loop src_arr fuel (i + 1) arr temp

/-- The function `ofi_av_set_diff`. -/
def ofi_av_set_diff (dst src : util_av_set) : Option (Int × util_av_set) :=
  if src.av ≠ dst.av then none
  else
    match ofi_av_set_diff_loop src.fi_addr_array src.fi_addr_count 0
        dst.fi_addr_array dst.fi_addr_count with
    | none => none
    | some (arr, temp) => some (FI_SUCCESS, ⟨dst.av, arr, temp⟩)

/-- The function `ofi_av_set_insert`: the scan for `addr` over the slots in use, then the
store into slot `fi_addr_count++`. -/
def ofi_av_set_insert (set : util_av_set) (addr : Nat) : Option (Int × util_av_set) :=
  match av_scan set.fi_addr_array addr (set.fi_addr_count - 0) 0 with
  | none => none
  | some i =>
    if i < set.fi_addr_count then some (-FI_EINVAL, set)
    else if set.fi_addr_count < set.fi_addr_array.length then
      some (FI_SUCCESS,
        ⟨set.av, set.fi_addr_array.set set.fi_addr_count addr, set.fi_addr_count + 1⟩)
    else none

/-- The function `ofi_av_set_remove`: the scan for `addr` over the slots in use; at the
first match the slot takes the content of slot `--fi_addr_count`. -/
def ofi_av_set_remove (set : util_av_set) (addr : Nat) : Option (Int × util_av_set) :=
  match av_scan set.fi_addr_array addr (set.fi_addr_count - 0) 0 with
  | none => none
  | some i =>
    if i < set.fi_addr_count then
      match set.fi_addr_array[set.fi_addr_count - 1]? with
      | none => none
      | some last =>
        some (FI_SUCCESS, ⟨set.av, set.fi_addr_array.set i last, set.fi_addr_count - 1⟩)
    else some (-FI_EINVAL, set)

/-! ### Context ids -/

/-- The function `util_coll_init_cid`: every word becomes `-1`, then bit 0 of word 0 is
cleared (`cid[0] &= ~0x1ULL`). -/
def util_coll_init_cid (cid : List Nat) : List Nat :=
  let filled := (List.range OFI_CONTEXT_ID_SIZE).foldl (fun c i => c.set i UINT64_MAX) cid
  filled.set 0 (filled.getD 0 0 &&& (UINT64_MAX - 1))

/-- The loop `while (!(tmp & 0x1)) { tmp >>= 1; pos++; }` of `util_coll_join_comp`;
it needs at most 63 iterations on a non-zero 64-bit word. -/
def join_comp_scan : Nat → Nat → Nat → Option Nat
  | 0, _, _ => none
  | fuel + 1, tmp, pos =>
    if tmp &&& 1 = 0 then join_comp_scan fuel (tmp >>> 1) (pos + 1) else some pos

/-- The value `(1 << pos)` as it enters the 64-bit xor: `1` is an `int`, so the shift is
defined only while the result fits an `int`. -/
def int_one_shl (pos : Nat) : Option Nat :=
  if pos < 31 then some (1 <<< pos) else none

/-- One iteration of the `for (iter ...)` loop of `util_coll_join_comp`, on the pair
(process bitmap, `lsb_set_pos`). -/
def join_comp_iter (cid_buf : List Nat) (st : List Nat × Nat) (iter : Nat) :
    Option (List Nat × Nat) :=
  match cid_buf[iter]? with
  | none => none
  | some word =>
    if word ≠ 0 then
      match join_comp_scan 64 word 0, st.1[iter]? with
      | some pos, some g =>
        match int_one_shl pos with
        | none => none
        | some bit => some (st.1.set iter (g ^^^ bit), st.2 + pos)
      | _, _ => none
    else some (st.1, st.2 + 8 * 8)

/-- What `util_coll_join_comp` leaves behind: the process bitmap and the `cid` and `seq`
it stores into `state->mc`. -/
structure join_comp_result where
  util_coll_cid : List Nat
  cid : Nat
  seq : Nat
deriving DecidableEq

/-- The function `util_coll_join_comp` on the process bitmap `util_coll_cid` and the
reduced bitmap `state->data.cid_buf`; the `assert` on `lsb_set_pos` is checked, the
`cid` field is 16 bits wide. The event-queue write and the release of the state are
not part of the result. -/
def util_coll_join_comp (util_coll_cid cid_buf : List Nat) : Option join_comp_result :=
  match (List.range OFI_CONTEXT_ID_SIZE).foldlM (join_comp_iter cid_buf) (util_coll_cid, 0) with
  | none => none
  | some (g, lsb_set_pos) =>
    if lsb_set_pos < OFI_CONTEXT_ID_SIZE * 8 then some ⟨g, lsb_set_pos % 2 ^ 16, 0⟩
    else none

/-- Whether bit `i` of a bitmap of 64-bit words is set. -/
def cid_bit (bitmap : List Nat) (i : Nat) : Bool :=
  (bitmap.getD (i / 64) 0).testBit (i % 64)

/-- The index of the lowest set bit of a bitmap of 64-bit words, when there is one
(`bit index = 64 * word + position within the word`). -/
def lowest_set_bit (bitmap : List Nat) : Option Nat :=
  (List.range (64 * bitmap.length)).find? (fun i => cid_bit bitmap i)

/-! ### Collective tags -/

/-- The conversion of an integer to `uint32_t`. -/
def to_uint32 (x : Int) : Nat := (x % 2 ^ 32).toNat

/-- The conversion of a 32-bit pattern to `int`. -/
def to_int (x : Nat) : Int :=
  if x % 2 ^ 32 < 2 ^ 31 then ((x % 2 ^ 32 : Nat) : Int) else ((x % 2 ^ 32 : Nat) : Int) - 2 ^ 32

/-- The function `util_coll_form_tag` on two `uint32_t` arguments. -/
def util_coll_form_tag (coll_id rank : Nat) : Nat :=
  let src_rank := rank % 2 ^ 32
  let tag := coll_id % 2 ^ 32
  let tag := tag ||| ((src_rank <<< 32) % 2 ^ 64)
  OFI_COLL_TAG_FLAG ||| tag

/-! ### Work items and the group handle -/

/-- A `void *` buffer: an abstract address. -/
abbrev Ptr := Nat

inductive coll_work_type
  | UTIL_COLL_SEND
  | UTIL_COLL_RECV
  | UTIL_COLL_REDUCE
  | UTIL_COLL_COPY
  | UTIL_COLL_COMP
deriving DecidableEq

inductive util_coll_op_type
  | UTIL_COLL_JOIN_OP
  | UTIL_COLL_BARRIER_OP
  | UTIL_COLL_ALLREDUCE_OP
  | UTIL_COLL_BROADCAST_OP
deriving DecidableEq

/-- The value `NO_BARRIER` of `enum barrier_type`. -/
def NO_BARRIER : Int := 0

/-- The value `BARRIER` of `enum barrier_type`. -/
def BARRIER : Int := 1

/-- The fields of `struct util_coll_hdr` apart from the two list links. -/
structure util_coll_hdr where
  type : coll_work_type
  tag : Nat
  is_barrier : Int
deriving DecidableEq

/-- The completion callbacks a state can point to (`util_coll_comp_fn_t`). -/
inductive util_coll_comp_fn
  | util_coll_join_comp
  | util_coll_barrier_comp
deriving DecidableEq

/-- The work items: `struct util_coll_xfer_item` (the union of `src_rank` and
`dest_rank` is the field `rank`), `struct util_coll_copy_item`,
`struct util_coll_reduce_item` and `struct util_coll_state` (`data` is the address of
its `cid_buf`, `comp_fn` is `none` for a null pointer). -/
inductive work_item
  | xfer_item (hdr : util_coll_hdr) (buf : Ptr) (count : Int) (rank : Int) (datatype : Nat)
  | copy_item (hdr : util_coll_hdr) (in_buf out_buf : Ptr) (count : Int) (datatype : Nat)
  | reduce_item (hdr : util_coll_hdr) (in_buf inout_buf : Ptr) (count : Int)
      (datatype : Nat) (op : Nat)
  | coll_state (hdr : util_coll_hdr) (type : util_coll_op_type) (context : Ptr)
      (data : Ptr) (comp_fn : Option util_coll_comp_fn)
deriving DecidableEq

/-- The header every work item starts with. -/
def work_item.hdr : work_item → util_coll_hdr
  | .xfer_item hdr _ _ _ _ => hdr
  | .copy_item hdr _ _ _ _ => hdr
  | .reduce_item hdr _ _ _ _ _ => hdr
  | .coll_state hdr _ _ _ _ => hdr

/-- The fields of `struct util_coll_mc` the engine uses; `cid` and `seq` are 16 bits
wide, `my_rank` is an `int` (`-1` when the endpoint is not a member). -/
structure util_coll_mc where
  av_set : util_av_set
  barrier_list : List work_item
  deferred_list : List work_item
  pending_xfer_list : List work_item
  my_rank : Int
  cid : Nat
  seq : Nat
deriving DecidableEq

/-- The process-wide data of the collectives: the context-id bitmap `util_coll_cid` and
the group handles that have been allocated and not freed yet. -/
structure coll_process where
  util_coll_cid : List Nat
  live : List util_coll_mc
deriving DecidableEq

/-- The function `util_coll_close` on the live handle at position `i`: the handle is
freed and `FI_SUCCESS` returned. -/
def util_coll_close (p : coll_process) (i : Nat) : Int × coll_process :=
  (FI_SUCCESS, { p with live := p.live.eraseIdx i })

/-- The function `util_coll_get_next_id`: `cid << 16 | coll_mc->seq++` in 32 bits. -/
def util_coll_get_next_id (coll_mc : util_coll_mc) : Nat × util_coll_mc :=
  let cid := coll_mc.cid % 2 ^ 16
  let seq := coll_mc.seq % 2 ^ 16
  (((cid <<< 16) % 2 ^ 32) ||| seq, { coll_mc with seq := (seq + 1) % 2 ^ 16 })

/-! ### Schedule compiler -/

/-- The function `util_coll_sched_send`; `dest` is a `uint32_t`, `calloc` is taken to
succeed (so the `-FI_ENOMEM` return is not reached). -/
def util_coll_sched_send (coll_mc : util_coll_mc) (dest : Nat) (buf : Ptr) (count : Int)
    (datatype : Nat) (coll_id : Nat) (is_barrier : Int) : Int × util_coll_mc :=
  let xfer_item := work_item.xfer_item
    ⟨.UTIL_COLL_SEND, util_coll_form_tag coll_id (to_uint32 coll_mc.my_rank), is_barrier⟩
    buf count (to_int dest) datatype
  (FI_SUCCESS, { coll_mc with deferred_list := coll_mc.deferred_list ++ [xfer_item] })

/-- The function `util_coll_sched_recv`. -/
def util_coll_sched_recv (coll_mc : util_coll_mc) (src : Nat) (buf : Ptr) (count : Int)
    (datatype : Nat) (coll_id : Nat) (is_barrier : Int) : Int × util_coll_mc :=
  let xfer_item := work_item.xfer_item
    ⟨.UTIL_COLL_RECV, util_coll_form_tag coll_id src, is_barrier⟩
    buf count (to_int src) datatype
  (FI_SUCCESS, { coll_mc with deferred_list := coll_mc.deferred_list ++ [xfer_item] })

/-- The function `util_coll_sched_reduce`. -/
def util_coll_sched_reduce (coll_mc : util_coll_mc) (in_buf inout_buf : Ptr) (count : Int)
    (datatype : Nat) (op : Nat) (is_barrier : Int) : Int × util_coll_mc :=
  let reduce_item := work_item.reduce_item ⟨.UTIL_COLL_REDUCE, 0, is_barrier⟩
    in_buf inout_buf count datatype op
  (FI_SUCCESS, { coll_mc with deferred_list := coll_mc.deferred_list ++ [reduce_item] })

/-- The function `util_coll_sched_copy`. -/
def util_coll_sched_copy (coll_mc : util_coll_mc) (in_buf out_buf : Ptr) (count : Int)
    (datatype : Nat) (is_barrier : Int) : Int × util_coll_mc :=
  let copy_item := work_item.copy_item ⟨.UTIL_COLL_COPY, 0, is_barrier⟩
    in_buf out_buf count datatype
  (FI_SUCCESS, { coll_mc with deferred_list := coll_mc.deferred_list ++ [copy_item] })

/-- The largest power of two that is at most `n ≥ 1`, by halving `n` (`fuel ≥ n`
suffices). -/
def pof2_below : Nat → Nat → Nat
  | 0, _ => 1
  | fuel + 1, n => if n < 2 then 1 else 2 * pof2_below fuel (n / 2)

/-- Modelled from the spec: `rounddown_power_of_two` is declared in a header that is not
among the sources; the spec has `p = largest power of two ≤ n`. -/
def rounddown_power_of_two (n : Nat) : Nat := pof2_below n n

/-- The loop `while (mask < pof2)` of `util_coll_allreduce`, `fuel` iterations allowed
(`none` when they do not suffice). The `int` arithmetic is exact for the group sizes
considered (below `2 ^ 30`). -/
def util_coll_allreduce_loop (send_buf recv_buf : Ptr) (count : Int) (datatype op : Nat)
    (coll_id : Nat) (rem pof2 my_new_id : Int) :
    Nat → Int → util_coll_mc → Option (Int × util_coll_mc)
  | 0, mask, coll_mc => if mask < pof2 then none else some (FI_SUCCESS, coll_mc)
  | fuel + 1, mask, coll_mc =>
    if mask < pof2 then
      let new_dest := Int.xor my_new_id mask
      let dest := if new_dest < rem then new_dest * 2 + 1 else new_dest + rem
      let r1 := util_coll_sched_recv coll_mc (to_uint32 dest) recv_buf count datatype
        coll_id NO_BARRIER
      if r1.1 ≠ 0 then some r1 else
      let r2 := util_coll_sched_send r1.2 (to_uint32 dest) send_buf count datatype
        coll_id BARRIER
      if r2.1 ≠ 0 then some r2 else
      if dest < coll_mc.my_rank then
        let r3 := util_coll_sched_reduce r2.2 recv_buf send_buf count datatype op BARRIER
        if r3.1 ≠ 0 then some r3 else
        util_coll_allreduce_loop send_buf recv_buf count datatype op coll_id rem pof2
          my_new_id fuel (mask * 2) r3.2
      else
        let r3 := util_coll_sched_reduce r2.2 send_buf recv_buf count datatype op BARRIER
        if r3.1 ≠ 0 then some r3 else
        let r4 := util_coll_sched_copy r3.2 recv_buf send_buf count datatype BARRIER
        if r4.1 ≠ 0 then some r4 else
        util_coll_allreduce_loop send_buf recv_buf count datatype op coll_id rem pof2
          my_new_id fuel (mask * 2) r4.2
    else some (FI_SUCCESS, coll_mc)

/-- The last part of `util_coll_allreduce`: the reversal phase of the low pairs. -/
def util_coll_allreduce_tail (send_buf : Ptr) (count : Int) (datatype : Nat)
    (coll_id : Nat) (rem : Int) (coll_mc : util_coll_mc) : Int × util_coll_mc :=
  if coll_mc.my_rank < 2 * rem then
    if Int.tmod coll_mc.my_rank 2 ≠ 0 then
      util_coll_sched_send coll_mc (to_uint32 (coll_mc.my_rank - 1)) send_buf count
        datatype coll_id BARRIER
    else
      util_coll_sched_recv coll_mc (to_uint32 (coll_mc.my_rank + 1)) send_buf count
        datatype coll_id BARRIER
  else (FI_SUCCESS, coll_mc)

/-- The function `util_coll_allreduce`: the return code and the group handle with the
schedule appended to its deferred list. -/
def util_coll_allreduce (coll_mc : util_coll_mc) (send_buf recv_buf : Ptr) (count : Int)
    (datatype op : Nat) : Option (Int × util_coll_mc) :=
  let id := util_coll_get_next_id coll_mc
  let coll_id := id.1
  let mc0 := id.2
  let pof2 : Int := rounddown_power_of_two mc0.av_set.fi_addr_count
  let rem : Int := (mc0.av_set.fi_addr_count : Int) - pof2
  let head : Int × util_coll_mc × Int :=
    if mc0.my_rank < 2 * rem then
      if Int.tmod mc0.my_rank 2 = 0 then
        let r := util_coll_sched_send mc0 (to_uint32 (mc0.my_rank + 1)) send_buf count
          datatype coll_id BARRIER
        (r.1, r.2, -1)
      else
        let r := util_coll_sched_recv mc0 (to_uint32 (mc0.my_rank - 1)) recv_buf count
          datatype coll_id BARRIER
        if r.1 ≠ 0 then (r.1, r.2, 0) else
        let r2 := util_coll_sched_reduce r.2 recv_buf send_buf count datatype op BARRIER
        (r2.1, r2.2, Int.tdiv mc0.my_rank 2)
    else (FI_SUCCESS, mc0, mc0.my_rank - rem)
  if head.1 ≠ 0 then some (head.1, head.2.1) else
  let mc1 := head.2.1
  let my_new_id := head.2.2
  let body : Option (Int × util_coll_mc) :=
    if my_new_id ≠ -1 then
      util_coll_allreduce_loop send_buf recv_buf count datatype op coll_id rem pof2
        my_new_id pof2.toNat 1 mc1
    else some (FI_SUCCESS, mc1)
  match body with
  | none => none
  | some (ret, mc2) =>
    if ret ≠ 0 then some (ret, mc2)
    else some (util_coll_allreduce_tail send_buf count datatype coll_id rem mc2)

/-! ### Progress engine -/

/-- Modelled from the spec: the values of `enum fi_op` are declared in a header that is
not among the sources; the supported reductions are the range MIN..BXOR. -/
def FI_MIN : Nat := 0

/-- Modelled from the spec: the last supported reduction (see `FI_MIN`). -/
def FI_BXOR : Nat := 9

/-- Modelled from the spec: bitwise AND, inside the range MIN..BXOR (see `FI_MIN`). -/
def FI_BAND : Nat := 7

/-- Modelled from the spec: the sum, inside the range MIN..BXOR (see `FI_MIN`). -/
def FI_SUM : Nat := 2

/-- What the engine acts on besides the group handle: the memory of the process and the
states whose completion callback has been invoked, oldest first. The call
`state->comp_fn(state)` is recorded here; what the two callbacks do is the subject of
`util_coll_join_comp` and `util_coll_barrier_comp`. -/
structure coll_env (α : Type) where
  mem : Ptr → α
  comp_calls : List work_item

/-- The function `util_coll_proc_reduce_item`; `handlers` stands for the table
`ofi_atomic_write_handlers[op][datatype]`, applied to the contents of `inout_buf` and
of `in_buf` and to `count`, giving the new contents of `inout_buf`. -/
def util_coll_proc_reduce_item {α : Type} (handlers : Nat → Nat → Int → α → α → α)
    (in_buf inout_buf : Ptr) (count : Int) (datatype op : Nat) (env : coll_env α) :
    Int × coll_env α :=
  if FI_MIN ≤ op ∧ op ≤ FI_BXOR then
    let value := handlers op datatype count (env.mem inout_buf) (env.mem in_buf)
    (FI_SUCCESS, { env with mem := Function.update env.mem inout_buf value })
  else (-FI_ENOSYS, env)

/-- The loop of `util_coll_process_work_items` over the deferred list; the result is
the return code, the three lists (deferred, pending-transfer, barrier) and the
environment. An item whose `type` does not fit its structure gives `none`. -/
def process_work_items_loop {α : Type} (handlers : Nat → Nat → Int → α → α → α) :
    List work_item → List work_item → List work_item → coll_env α →
    Option (Int × List work_item × List work_item × List work_item × coll_env α)
  | [], pending, barrier, env => some (FI_SUCCESS, [], pending, barrier, env)
  | entry :: deferred, pending, barrier, env =>
    let is_barrier := entry.hdr.is_barrier
    let after : Option (Int × List work_item × List work_item × coll_env α) :=
      match entry.hdr.type, entry with
      | .UTIL_COLL_SEND, _ => some (0, pending ++ [entry], barrier ++ [entry], env)
      | .UTIL_COLL_RECV, _ => some (0, pending ++ [entry], barrier ++ [entry], env)
      | .UTIL_COLL_REDUCE, .reduce_item _ in_buf inout_buf count datatype op =>
        let r := util_coll_proc_reduce_item handlers in_buf inout_buf count datatype op env
        some (r.1, pending, barrier, r.2)
      | .UTIL_COLL_COPY, .copy_item _ in_buf out_buf _ _ =>
        some (0, pending, barrier,
          { env with mem := Function.update env.mem out_buf (env.mem in_buf) })
      | .UTIL_COLL_COMP, .coll_state _ _ _ _ comp_fn =>
        match comp_fn with
        | some _ => some (0, pending, barrier,
            { env with comp_calls := env.comp_calls ++ [entry] })
        | none => some (0, pending, barrier, env)
      | _, _ => none
    match after with
    | none => none
    | some (ret, pending1, barrier1, env1) =>
      if ret ≠ 0 then some (ret, deferred, pending1, barrier1, env1)
      else if is_barrier ≠ 0 then some (FI_SUCCESS, deferred, pending1, barrier1, env1)
      else process_work_items_loop handlers deferred pending1 barrier1 env1

/-- The function `util_coll_process_work_items`. -/
def util_coll_process_work_items {α : Type} (handlers : Nat → Nat → Int → α → α → α)
    (coll_mc : util_coll_mc) (env : coll_env α) : Option (Int × util_coll_mc × coll_env α) :=
  match process_work_items_loop handlers coll_mc.deferred_list coll_mc.pending_xfer_list
      coll_mc.barrier_list env with
  | none => none
  | some (ret, deferred, pending, barrier, env1) =>
    let mc1 := { coll_mc with deferred_list := deferred, pending_xfer_list := pending }
    some (ret, { mc1 with barrier_list := barrier }, env1)

/-- The function `util_coll_schedule`. -/
def util_coll_schedule {α : Type} (handlers : Nat → Nat → Int → α → α → α)
    (coll_mc : util_coll_mc) (env : coll_env α) : Option (Int × util_coll_mc × coll_env α) :=
  if coll_mc.barrier_list = [] then
    match util_coll_process_work_items handlers coll_mc env with
    | none => none
    | some (ret, mc1, env1) => if ret ≠ 0 then some (ret, mc1, env1)
                               else some (FI_SUCCESS, mc1, env1)
  else some (FI_SUCCESS, coll_mc, env)

/-- The message handed to `fi_tsendmsg` or `fi_trecvmsg`: peer address, tag, buffer and
the element count and datatype its length is computed from. -/
structure fi_msg_tagged where
  addr : Nat
  tag : Nat
  iov_base : Ptr
  count : Int
  datatype : Nat
deriving DecidableEq

/-- A transfer the transport has accepted. -/
inductive submission
  | tsend (msg : fi_msg_tagged)
  | trecv (msg : fi_msg_tagged)
deriving DecidableEq

/-- The loop of `util_coll_process_pending` over the pending-transfer list;
`fi_tsendmsg` and `fi_trecvmsg` give the return code of the transport for a message.
The result is the return code, the pending-transfer list and the accepted transfers,
oldest first. -/
def process_pending_loop (fi_tsendmsg fi_trecvmsg : fi_msg_tagged → Int)
    (fi_addr_array : List Nat) :
    List work_item → List submission → Option (Int × List work_item × List submission)
  | [], done => some (FI_SUCCESS, [], done)
  | entry :: pending, done =>
    let is_barrier := entry.hdr.is_barrier
    let after : Option (Int × List work_item × List submission) :=
      match entry.hdr.type, entry with
      | .UTIL_COLL_SEND, .xfer_item hdr buf count rank datatype =>
        if rank < 0 then none else
        match fi_addr_array[rank.toNat]? with
        | none => none
        | some addr =>
          let msg : fi_msg_tagged := ⟨addr, hdr.tag, buf, count, datatype⟩
          let err := fi_tsendmsg msg
          if err ≠ 0 then some (err, entry :: pending, done)
          else some (0, pending, done ++ [.tsend msg])
      | .UTIL_COLL_RECV, .xfer_item hdr buf count rank datatype =>
        if rank < 0 then none else
        match fi_addr_array[rank.toNat]? with
        | none => none
        | some addr =>
          let msg : fi_msg_tagged := ⟨addr, hdr.tag, buf, count, datatype⟩
          let err := fi_trecvmsg msg
          if err ≠ 0 then some (err, pending, done)
          else some (0, pending, done ++ [.trecv msg])
      | .UTIL_COLL_SEND, _ => none
      | .UTIL_COLL_RECV, _ => none
      | _, _ => some (0, pending, done)
    match after with
    | none => none
    | some (err, pending1, done1) =>
      if err ≠ 0 then some (err, pending1, done1)
      else if is_barrier ≠ 0 then some (FI_SUCCESS, pending1, done1)
      else process_pending_loop fi_tsendmsg fi_trecvmsg fi_addr_array pending done1

/-- The function `util_coll_process_pending`. -/
def util_coll_process_pending (fi_tsendmsg fi_trecvmsg : fi_msg_tagged → Int)
    (coll_mc : util_coll_mc) : Option (Int × util_coll_mc × List submission) :=
  match process_pending_loop fi_tsendmsg fi_trecvmsg coll_mc.av_set.fi_addr_array
      coll_mc.pending_xfer_list [] with
  | none => none
  | some (ret, pending, done) => some (ret, { coll_mc with pending_xfer_list := pending }, done)

/-- The function `ofi_coll_handle_comp`: the first item of the barrier list that carries
the tag is unlinked and freed, then `util_coll_schedule` runs (its return code is
dropped). -/
def ofi_coll_handle_comp {α : Type} (handlers : Nat → Nat → Int → α → α → α) (tag : Nat)
    (coll_mc : util_coll_mc) (env : coll_env α) : Option (util_coll_mc × coll_env α) :=
  let barrier := coll_mc.barrier_list.eraseP (fun item => decide (item.hdr.tag = tag))
  let mc1 := { coll_mc with barrier_list := barrier }
  match util_coll_schedule handlers mc1 env with
  | none => none
  | some (_, mc2, env2) => some (mc2, env2)

/-! ### A group of ranks over a tagged transport -/

/-- A message the transport has accepted from a sender and not yet delivered; the
address of rank `k` is `k`. The payload is the content of the send buffer at the time
of the submission (the sender leaves the buffer alone until the send has completed). -/
structure wire_msg (α : Type) where
  src : Nat
  dst : Nat
  tag : Nat
  payload : α

/-- One process: its group handle, its environment, and what its endpoint has handed to
the transport: the receives not matched yet and the sends whose completion has not been
reported yet. -/
structure rank_state (α : Type) where
  mc : util_coll_mc
  env : coll_env α
  posted : List fi_msg_tagged
  sends : List fi_msg_tagged

/-- The ranks `0 .. n-1` of a group and the messages in flight between them. -/
structure coll_net (α : Type) where
  n : Nat
  ranks : Nat → rank_state α
  wire : List (wire_msg α)

/-- What can happen in a group: a progress tick at rank `k` (`util_coll_schedule`), a
call of `util_coll_process_pending` at rank `k`, the transport reporting to rank `k` the
completion of its accepted send number `i`, and the transport matching the message
number `i` in flight with the posted receive number `j` of rank `k`. -/
inductive net_event
  | progress (k : Nat)
  | pending (k : Nat)
  | send_done (k i : Nat)
  | deliver (i k j : Nat)
deriving DecidableEq

/-- The messages rank `k` puts in flight in one call of `util_coll_process_pending`. -/
def wire_of {α : Type} (k : Nat) (mem : Ptr → α) : List submission → List (wire_msg α)
  | [] => []
  | .tsend msg :: rest => ⟨k, msg.addr, msg.tag, mem msg.iov_base⟩ :: wire_of k mem rest
  | .trecv _ :: rest => wire_of k mem rest

/-- The receives among the accepted transfers. -/
def posted_of : List submission → List fi_msg_tagged
  | [] => []
  | .tsend _ :: rest => posted_of rest
  | .trecv msg :: rest => msg :: posted_of rest

/-- The sends among the accepted transfers. -/
def sends_of : List submission → List fi_msg_tagged
  | [] => []
  | .tsend msg :: rest => msg :: sends_of rest
  | .trecv _ :: rest => sends_of rest

/-- One event in a group whose transport accepts every submission; `none` when the
event cannot happen in this state. A delivery writes the payload into the buffer of the
receive and reports the completion to the receiver. -/
def net_step {α : Type} (handlers : Nat → Nat → Int → α → α → α) (net : coll_net α) :
    net_event → Option (coll_net α)
  | .progress k =>
    if k < net.n then
      match util_coll_schedule handlers (net.ranks k).mc (net.ranks k).env with
      | none => none
      | some (_, mc1, env1) =>
        some ⟨net.n, Function.update net.ranks k
          ⟨mc1, env1, (net.ranks k).posted, (net.ranks k).sends⟩, net.wire⟩
    else none
  | .pending k =>
    if k < net.n then
      match util_coll_process_pending (fun _ => 0) (fun _ => 0) (net.ranks k).mc with
      | none => none
      | some (_, mc1, done) =>
        some ⟨net.n, Function.update net.ranks k
          ⟨mc1, (net.ranks k).env, (net.ranks k).posted ++ posted_of done,
            (net.ranks k).sends ++ sends_of done⟩,
          net.wire ++ wire_of k (net.ranks k).env.mem done⟩
    else none
  | .send_done k i =>
    if k < net.n then
      match (net.ranks k).sends[i]? with
      | none => none
      | some msg =>
        match ofi_coll_handle_comp handlers msg.tag (net.ranks k).mc (net.ranks k).env with
        | none => none
        | some (mc1, env1) =>
          some ⟨net.n, Function.update net.ranks k
            ⟨mc1, env1, (net.ranks k).posted, (net.ranks k).sends.eraseIdx i⟩, net.wire⟩
    else none
  | .deliver i k j =>
    if k < net.n then
      match net.wire[i]?, (net.ranks k).posted[j]? with
      | some m, some q =>
        if m.dst = k ∧ m.src = q.addr ∧ m.tag = q.tag then
          let env := (net.ranks k).env
          let env0 : coll_env α := ⟨Function.update env.mem q.iov_base m.payload, env.comp_calls⟩
          match ofi_coll_handle_comp handlers q.tag (net.ranks k).mc env0 with
          | none => none
          | some (mc1, env1) =>
            some ⟨net.n, Function.update net.ranks k
              ⟨mc1, env1, (net.ranks k).posted.eraseIdx j, (net.ranks k).sends⟩,
              net.wire.eraseIdx i⟩
        else none
      | _, _ => none
    else none

/-- A run: the events happen one after the other. -/
def net_run {α : Type} (handlers : Nat → Nat → Int → α → α → α) :
    List net_event → coll_net α → Option (coll_net α)
  | [], net => some net
  | ev :: rest, net =>
    match net_step handlers net ev with
    | none => none
    | some net1 => net_run handlers rest net1

/-- Rank `k` of a group of `n` after it has compiled one all-reduce: the group's
address set is `0 .. n-1`, its lists hold nothing else, `mem` is the memory of the
process, and nothing has been handed to the transport. -/
def allreduce_rank {α : Type} (n cid seq : Nat) (send_buf recv_buf : Ptr) (count : Int)
    (datatype op : Nat) (mem : Ptr → α) (k : Nat) : Option (rank_state α) :=
  let coll_mc : util_coll_mc := ⟨⟨0, List.range n, n⟩, [], [], [], (k : Int), cid, seq⟩
  match util_coll_allreduce coll_mc send_buf recv_buf count datatype op with
  | none => none
  | some (ret, mc1) => if ret = 0 then some ⟨mc1, ⟨mem, []⟩, [], []⟩ else none

/-- The group of `n` ranks in which every rank has compiled the same all-reduce and
nothing is in flight; `mem0 k` is the memory of rank `k`. -/
def allreduce_net {α : Type} (n cid seq : Nat) (send_buf recv_buf : Ptr) (count : Int)
    (datatype op : Nat) (mem0 : Nat → Ptr → α) : Option (coll_net α) :=
  if (List.range n).all (fun k =>
      (allreduce_rank n cid seq send_buf recv_buf count datatype op (mem0 k) k).isSome) then
    some ⟨n, fun k =>
      match allreduce_rank n cid seq send_buf recv_buf count datatype op (mem0 k) k with
      | some r => r
      | none => ⟨⟨⟨0, [], 0⟩, [], [], [], (k : Int), cid, seq⟩, ⟨mem0 k, []⟩, [], []⟩, []⟩
  else none

/-- The schedule has finished at every rank: its three lists are empty. -/
def net_finished {α : Type} (net : coll_net α) : Prop :=
  ∀ k, k < net.n → (net.ranks k).mc.deferred_list = [] ∧
    (net.ranks k).mc.pending_xfer_list = [] ∧ (net.ranks k).mc.barrier_list = []

/-- The reduction `x 0 ⊕ x 1 ⊕ ... ⊕ x (n-1)` of the inputs of `n ≥ 1` ranks. -/
def reduce_all {α : Type} (f : α → α → α) (x : Nat → α) (n : Nat) : α :=
  (List.range (n - 1)).foldl (fun acc i => f acc (x (i + 1))) (x 0)

/-! ### The all-reduce schedule in closed form -/

/-- A Send item for the rank `dest`. -/
def send_item (tag : Nat) (is_barrier : Int) (buf : Ptr) (count : Int) (dest : Nat)
    (datatype : Nat) : work_item :=
  .xfer_item ⟨.UTIL_COLL_SEND, tag, is_barrier⟩ buf count (dest : Int) datatype

/-- A Recv item for the rank `src`. -/
def recv_item (tag : Nat) (is_barrier : Int) (buf : Ptr) (count : Int) (src : Nat)
    (datatype : Nat) : work_item :=
  .xfer_item ⟨.UTIL_COLL_RECV, tag, is_barrier⟩ buf count (src : Int) datatype

/-- A group handle with items appended to its deferred list. -/
def mc_append (mc : util_coll_mc) (items : List work_item) : util_coll_mc :=
  { mc with deferred_list := mc.deferred_list ++ items }

/-- The virtual rank a rank contributes to, `r` being the number of low pairs: both
members of a low pair feed the virtual rank of the odd one. -/
def vrank (r k : Nat) : Nat := if k < 2 * r then k / 2 else k - r

/-- The rank that acts for a virtual rank (`dest` in `util_coll_allreduce`). -/
def real_rank (r v : Nat) : Nat := if v < r then 2 * v + 1 else v + r

/-- The items of the exchange round with `mask = 2 ^ i` at rank `k`, virtual rank `v`. -/
def round_items (coll_id : Nat) (send_buf recv_buf : Ptr) (count : Int) (datatype op : Nat)
    (r k v i : Nat) : List work_item :=
  [recv_item (util_coll_form_tag coll_id (real_rank r (v ^^^ 2 ^ i))) NO_BARRIER recv_buf count
      (real_rank r (v ^^^ 2 ^ i)) datatype,
    send_item (util_coll_form_tag coll_id k) BARRIER send_buf count
      (real_rank r (v ^^^ 2 ^ i)) datatype] ++
  if real_rank r (v ^^^ 2 ^ i) < k then
    [.reduce_item ⟨.UTIL_COLL_REDUCE, 0, BARRIER⟩ recv_buf send_buf count datatype op]
  else
    [.reduce_item ⟨.UTIL_COLL_REDUCE, 0, BARRIER⟩ send_buf recv_buf count datatype op,
      .copy_item ⟨.UTIL_COLL_COPY, 0, BARRIER⟩ recv_buf send_buf count datatype]

/-- The items of `j` exchange rounds, from the round with `mask = 2 ^ i` on. -/
def rounds_items (coll_id : Nat) (send_buf recv_buf : Ptr) (count : Int) (datatype op : Nat)
    (r k v : Nat) : Nat → Nat → List work_item
  | _, 0 => []
  | i, j + 1 => round_items coll_id send_buf recv_buf count datatype op r k v i ++
      rounds_items coll_id send_buf recv_buf count datatype op r k v (i + 1) j

/-- The items one all-reduce appends at rank `k` of `n`. -/
def allreduce_items (coll_id : Nat) (send_buf recv_buf : Ptr) (count : Int)
    (datatype op : Nat) (n k : Nat) : List work_item :=
  if k < 2 * (n - 2 ^ Nat.log2 n) then
    if k % 2 = 0 then
      [send_item (util_coll_form_tag coll_id k) BARRIER send_buf count (k + 1) datatype,
        recv_item (util_coll_form_tag coll_id (k + 1)) BARRIER send_buf count (k + 1) datatype]
    else
      [recv_item (util_coll_form_tag coll_id (k - 1)) BARRIER recv_buf count (k - 1) datatype,
        .reduce_item ⟨.UTIL_COLL_REDUCE, 0, BARRIER⟩ recv_buf send_buf count datatype op] ++
      rounds_items coll_id send_buf recv_buf count datatype op (n - 2 ^ Nat.log2 n) k (k / 2)
        0 (Nat.log2 n) ++
      [send_item (util_coll_form_tag coll_id k) BARRIER send_buf count (k - 1) datatype]
  else
    rounds_items coll_id send_buf recv_buf count datatype op (n - 2 ^ Nat.log2 n) k
      (k - (n - 2 ^ Nat.log2 n)) 0 (Nat.log2 n)

/-! ### The values an all-reduce computes -/

/-- The content of `send_buf` at the rank acting for virtual rank `v` when the exchange
rounds start: a low pair has combined its two inputs. -/
def virt_input {α : Type} (f : α → α → α) (x : Nat → α) (r v : Nat) : α :=
  if v < r then f (x (2 * v + 1)) (x (2 * v)) else x (v + r)

/-- The content of `send_buf` at the rank acting for virtual rank `v` after `i` exchange
rounds. -/
def sval {α : Type} (f : α → α → α) (x : Nat → α) (r : Nat) : Nat → Nat → α
  | 0, v => virt_input f x r v
  | i + 1, v =>
    if real_rank r (v ^^^ 2 ^ i) < real_rank r v then
      f (sval f x r i v) (sval f x r i (v ^^^ 2 ^ i))
    else f (sval f x r i (v ^^^ 2 ^ i)) (sval f x r i v)

/-- The payload of the message rank `a` sends to rank `b` in an all-reduce of `n` ranks
with inputs `x`. -/
def payload_of {α : Type} (f : α → α → α) (x : Nat → α) (n a b : Nat) : α :=
  if a < 2 * (n - 2 ^ Nat.log2 n) ∧ a % 2 = 0 then x a
  else if a < 2 * (n - 2 ^ Nat.log2 n) ∧ b + 1 = a then
    sval f x (n - 2 ^ Nat.log2 n) (Nat.log2 n) (a / 2)
  else sval f x (n - 2 ^ Nat.log2 n)
    (Nat.log2 (vrank (n - 2 ^ Nat.log2 n) a ^^^ vrank (n - 2 ^ Nat.log2 n) b))
    (vrank (n - 2 ^ Nat.log2 n) a)

/-- Rank `k` of `n` takes part in the exchange rounds (it is not the even member of a low
pair), there is at least one round, and its partner in the last round has a higher
rank: the last Reduce of such a rank stores into `recv_buf`. -/
def recv_holds_result (n k : Nat) : Prop :=
  (2 * (n - 2 ^ Nat.log2 n) ≤ k ∨ k % 2 = 1) ∧ 1 ≤ Nat.log2 n ∧
    k < real_rank (n - 2 ^ Nat.log2 n)
      (vrank (n - 2 ^ Nat.log2 n) k ^^^ 2 ^ (Nat.log2 n - 1))

/-! ### Schedules the engine runs correctly -/

/-- The judgement `shaped handlers n pv k M l F`: the deferred list `l` of rank `k` is a
sequence of single barrier items (Reduce, Copy, Send, Recv) and of pairs of a
non-barrier Recv and a barrier Send with different tags; every Send finds in its
buffer the payload `pv k dest` when memory is `M` and every Recv stores `pv src k`;
executed in order from memory `M` the list leaves memory `F`. -/
inductive shaped {α : Type} (handlers : Nat → Nat → Int → α → α → α) (n : Nat)
    (pv : Nat → Nat → α) (k : Nat) : (Ptr → α) → List work_item → (Ptr → α) → Prop
  | nil (M : Ptr → α) : shaped handlers n pv k M [] M
  | reduce {M F : Ptr → α} {l : List work_item} (hdr : util_coll_hdr)
      (in_buf inout_buf : Ptr) (count : Int) (datatype op : Nat) :
      hdr.type = .UTIL_COLL_REDUCE → hdr.is_barrier ≠ 0 → FI_MIN ≤ op → op ≤ FI_BXOR →
      shaped handlers n pv k
        (Function.update M inout_buf (handlers op datatype count (M inout_buf) (M in_buf)))
        l F →
      shaped handlers n pv k M (.reduce_item hdr in_buf inout_buf count datatype op :: l) F
  | copy {M F : Ptr → α} {l : List work_item} (hdr : util_coll_hdr)
      (in_buf out_buf : Ptr) (count : Int) (datatype : Nat) :
      hdr.type = .UTIL_COLL_COPY → hdr.is_barrier ≠ 0 →
      shaped handlers n pv k (Function.update M out_buf (M in_buf)) l F →
      shaped handlers n pv k M (.copy_item hdr in_buf out_buf count datatype :: l) F
  | send {M F : Ptr → α} {l : List work_item} (tag : Nat) (is_barrier : Int) (buf : Ptr)
      (count : Int) (dest datatype : Nat) :
      is_barrier ≠ 0 → dest < n → M buf = pv k dest →
      shaped handlers n pv k M l F →
      shaped handlers n pv k M (send_item tag is_barrier buf count dest datatype :: l) F
  | recv {M F : Ptr → α} {l : List work_item} (tag : Nat) (is_barrier : Int) (buf : Ptr)
      (count : Int) (src datatype : Nat) :
      is_barrier ≠ 0 → src < n →
      shaped handlers n pv k (Function.update M buf (pv src k)) l F →
      shaped handlers n pv k M (recv_item tag is_barrier buf count src datatype :: l) F
  | pair {M F : Ptr → α} {l : List work_item} (rtag : Nat) (rbuf : Ptr) (rcount : Int)
      (src rdatatype stag : Nat) (is_barrier : Int) (sbuf : Ptr) (scount : Int)
      (dest sdatatype : Nat) :
      rtag ≠ stag → is_barrier ≠ 0 → src < n → dest < n → M sbuf = pv k dest →
      shaped handlers n pv k (Function.update M rbuf (pv src k)) l F →
      shaped handlers n pv k M
        (recv_item rtag 0 rbuf rcount src rdatatype ::
          send_item stag is_barrier sbuf scount dest sdatatype :: l) F

/-- The states a rank goes through while the engine runs a shaped schedule that leaves
memory `F`: nothing outstanding; one Send or one Recv drained and not yet submitted, or
submitted and not yet completed; a Recv and a Send drained together and not yet
submitted, or both submitted. -/
inductive local_ok {α : Type} (handlers : Nat → Nat → Int → α → α → α) (n : Nat)
    (pv : Nat → Nat → α) (k : Nat) (F : Ptr → α) : rank_state α → Prop
  | idle (s : rank_state α) :
      s.mc.av_set.fi_addr_array = List.range n →
      s.mc.pending_xfer_list = [] → s.mc.barrier_list = [] → s.posted = [] → s.sends = [] →
      shaped handlers n pv k s.env.mem s.mc.deferred_list F → local_ok handlers n pv k F s
  | send_pending (s : rank_state α) (tag : Nat) (is_barrier : Int) (buf : Ptr) (count : Int)
      (dest datatype : Nat) :
      s.mc.av_set.fi_addr_array = List.range n →
      s.mc.pending_xfer_list = [send_item tag is_barrier buf count dest datatype] →
      s.mc.barrier_list = [send_item tag is_barrier buf count dest datatype] →
      s.posted = [] → s.sends = [] → dest < n → s.env.mem buf = pv k dest →
      shaped handlers n pv k s.env.mem s.mc.deferred_list F → local_ok handlers n pv k F s
  | send_out (s : rank_state α) (tag : Nat) (is_barrier : Int) (buf : Ptr) (count : Int)
      (dest datatype : Nat) :
      s.mc.av_set.fi_addr_array = List.range n →
      s.mc.pending_xfer_list = [] →
      s.mc.barrier_list = [send_item tag is_barrier buf count dest datatype] →
      s.posted = [] → s.sends = [⟨dest, tag, buf, count, datatype⟩] →
      shaped handlers n pv k s.env.mem s.mc.deferred_list F → local_ok handlers n pv k F s
  | recv_pending (s : rank_state α) (tag : Nat) (is_barrier : Int) (buf : Ptr) (count : Int)
      (src datatype : Nat) :
      s.mc.av_set.fi_addr_array = List.range n →
      s.mc.pending_xfer_list = [recv_item tag is_barrier buf count src datatype] →
      s.mc.barrier_list = [recv_item tag is_barrier buf count src datatype] →
      s.posted = [] → s.sends = [] → src < n →
      shaped handlers n pv k (Function.update s.env.mem buf (pv src k)) s.mc.deferred_list F →
      local_ok handlers n pv k F s
  | recv_out (s : rank_state α) (tag : Nat) (is_barrier : Int) (buf : Ptr) (count : Int)
      (src datatype : Nat) :
      s.mc.av_set.fi_addr_array = List.range n →
      s.mc.pending_xfer_list = [] →
      s.mc.barrier_list = [recv_item tag is_barrier buf count src datatype] →
      s.posted = [⟨src, tag, buf, count, datatype⟩] → s.sends = [] →
      shaped handlers n pv k (Function.update s.env.mem buf (pv src k)) s.mc.deferred_list F →
      local_ok handlers n pv k F s
  | pair_pending (s : rank_state α) (rtag : Nat) (rbuf : Ptr) (rcount : Int)
      (src rdatatype stag : Nat) (is_barrier : Int) (sbuf : Ptr) (scount : Int)
      (dest sdatatype : Nat) :
      s.mc.av_set.fi_addr_array = List.range n →
      s.mc.pending_xfer_list = [recv_item rtag 0 rbuf rcount src rdatatype,
        send_item stag is_barrier sbuf scount dest sdatatype] →
      s.mc.barrier_list = [recv_item rtag 0 rbuf rcount src rdatatype,
        send_item stag is_barrier sbuf scount dest sdatatype] →
      s.posted = [] → s.sends = [] → rtag ≠ stag → src < n → dest < n →
      s.env.mem sbuf = pv k dest →
      shaped handlers n pv k (Function.update s.env.mem rbuf (pv src k)) s.mc.deferred_list F →
      local_ok handlers n pv k F s
  | pair_out (s : rank_state α) (rtag : Nat) (rbuf : Ptr) (rcount : Int)
      (src rdatatype stag : Nat) (is_barrier : Int) (sbuf : Ptr) (scount : Int)
      (dest sdatatype : Nat) :
      s.mc.av_set.fi_addr_array = List.range n →
      s.mc.pending_xfer_list = [] →
      s.mc.barrier_list = [recv_item rtag 0 rbuf rcount src rdatatype,
        send_item stag is_barrier sbuf scount dest sdatatype] →
      s.posted = [⟨src, rtag, rbuf, rcount, rdatatype⟩] →
      s.sends = [⟨dest, stag, sbuf, scount, sdatatype⟩] → rtag ≠ stag →
      shaped handlers n pv k (Function.update s.env.mem rbuf (pv src k)) s.mc.deferred_list F →
      local_ok handlers n pv k F s

/-- The invariant of a run: every rank is in one of the expected states for a schedule
whose final memory satisfies `post`, and every message in flight carries the payload
`pv src dst`. -/
def net_inv {α : Type} (handlers : Nat → Nat → Int → α → α → α) (n : Nat)
    (pv : Nat → Nat → α) (post : Nat → (Ptr → α) → Prop) (net : coll_net α) : Prop :=
  net.n = n ∧
  (∀ k, k < n → ∃ F, post k F ∧ local_ok handlers n pv k F (net.ranks k)) ∧
  ∀ m ∈ net.wire, m.payload = pv m.src m.dst

/-- The reduction, over a finite set of ranks, of their inputs: `none` for the empty
set. -/
def fold_ranks {α : Type} (f : α → α → α) [Std.Commutative f] [Std.Associative f]
    (x : Nat → α) (s : Finset Nat) : Option α :=
  s.fold (Option.liftOrGet f) none (fun k => some (x k))

/-- The ranks whose inputs the virtual rank `v` has combined after `i` exchange rounds,
in a group of `n` ranks with `r` low pairs. -/
def block (n r i v : Nat) : Finset Nat :=
  (Finset.range n).filter (fun k => vrank r k / 2 ^ i = v / 2 ^ i)

/-! ### The all-reduce of the spec's example -/

/-- Modelled from the spec: the entry of `ofi_atomic_write_handlers` for the op SUM on a
buffer of one element (the table is not among the sources); buffer contents are
natural numbers and the sums of the example stay in the range of the datatype. -/
def sum_handlers : Nat → Nat → Int → Nat → Nat → Nat :=
  fun _ _ _ inout_buf in_buf => inout_buf + in_buf

/-- Modelled from the spec: the code of the datatype `i32` of the example (the values of
`enum fi_datatype` are not among the sources). -/
def FI_INT32 : Nat := 4

/-- The memories of the four ranks of the example: the send buffer (address 100) of rank
`k` holds `k + 1`, every other buffer holds 0. -/
def example_mem : Nat → Ptr → Nat := fun k p => if p = 100 then k + 1 else 0

/-- A run of the example (four ranks, inputs 1, 2, 3, 4, op SUM, send buffer 100,
receive buffer 200) to the end: each rank drains, submits and completes its transfers
round by round. -/
def example_events : List net_event :=
  [.progress 0, .pending 0, .send_done 0 0, .progress 1, .pending 1, .send_done 1 0,
   .deliver 0 1 0, .deliver 0 0 0, .progress 0, .progress 0, .pending 0, .send_done 0 0,
   .progress 1, .pending 1, .send_done 1 0, .progress 2, .pending 2, .send_done 2 0,
   .progress 3, .pending 3, .send_done 3 0, .deliver 2 3 0, .deliver 2 2 0, .progress 2,
   .progress 2, .pending 2, .send_done 2 0, .deliver 0 2 0, .deliver 1 0 0, .progress 0,
   .progress 3, .pending 3, .send_done 3 0, .deliver 0 3 0, .deliver 0 1 0, .progress 1]

instance net_finished_decidable {α : Type} (net : coll_net α) : Decidable (net_finished net) := by
  unfold net_finished
  infer_instance

/-! ### Barrier -/

/-- Modelled from the spec: the code of the 64-bit unsigned datatype (the values of
`enum fi_datatype` are not among the sources). -/
def FI_UINT64 : Nat := 7

/-- Modelled from the spec: the flag `FI_COLLECTIVE` of a completion entry, declared in
a header that is not among the sources; its numeric value plays no role here. -/
def FI_COLLECTIVE : Nat := 1 <<< 6

/-- The arguments `util_coll_barrier_comp` passes to `ofi_cq_write` after the queue:
context, flags, length, buffer, data and tag. -/
structure cq_entry where
  op_context : Ptr
  flags : Nat
  len : Nat
  buf : Ptr
  data : Nat
  tag : Nat
deriving DecidableEq

/-- Modelled from the spec: what can be written to a completion queue, an ordinary
completion (`ofi_cq_write`, the only call in the sources) or a completion that reports
an error. -/
inductive cq_write
  | ofi_cq_write (entry : cq_entry)
  | ofi_cq_write_error (entry : cq_entry) (err : Int)
deriving DecidableEq

/-- The function `util_coll_state_init`: the state `calloc` returns (every field zero,
so `hdr.type` is the first value of its enumeration and `hdr.tag` is 0) with
`comp_fn = NULL`; `data` is the address of the state's `data` member. `calloc` is taken
to succeed, and the list of states of the endpoint is left out. -/
def util_coll_state_init (_coll_mc : util_coll_mc) (data : Ptr) : Int × work_item :=
  (FI_SUCCESS, .coll_state ⟨.UTIL_COLL_SEND, 0, 0⟩ .UTIL_COLL_JOIN_OP 0 data none)

/-- The function `util_coll_sched_comp`; `none` when `state` is not a
`struct util_coll_state`. -/
def util_coll_sched_comp (coll_mc : util_coll_mc) (op_type : util_coll_op_type) (ctx : Ptr)
    (state : work_item) (comp_fn : util_coll_comp_fn) : Option (Int × util_coll_mc) :=
  match state with
  | .coll_state hdr _ _ data _ =>
    let state1 := work_item.coll_state ⟨.UTIL_COLL_COMP, hdr.tag, 0⟩ op_type ctx data
      (some comp_fn)
    some (FI_SUCCESS, { coll_mc with deferred_list := coll_mc.deferred_list ++ [state1] })
  | _ => none

/-- The function `util_coll_barrier_comp`: the call of `ofi_cq_write` it makes
(`sizeof(state->data)` is the size of two arrays of `OFI_CONTEXT_ID_SIZE` 64-bit words);
`none` when `state` is not a `struct util_coll_state`. -/
def util_coll_barrier_comp (state : work_item) : Option cq_write :=
  match state with
  | .coll_state hdr _ context data _ =>
    some (.ofi_cq_write ⟨context, FI_COLLECTIVE, 2 * (OFI_CONTEXT_ID_SIZE * 8), data, 0, hdr.tag⟩)
  | _ => none

/-- The function `ofi_ep_barrier` on the group `coll_mc`; `data` is the address of the
`data` member of the state it allocates (`&barrier_state->data.cid_buf` is the same
address). -/
def ofi_ep_barrier {α : Type} (handlers : Nat → Nat → Int → α → α → α)
    (coll_mc : util_coll_mc) (env : coll_env α) (context data : Ptr) :
    Option (Int × util_coll_mc × coll_env α) :=
  let barrier_state := (util_coll_state_init coll_mc data).2
  match util_coll_allreduce coll_mc data data 1 FI_UINT64 FI_BAND with
  | none => none
  | some (ret, mc1) =>
    if ret ≠ 0 then some (ret, mc1, env)
    else
      match util_coll_sched_comp mc1 .UTIL_COLL_BARRIER_OP context barrier_state
          .util_coll_barrier_comp with
      | none => none
      | some (_, mc2) =>
        match util_coll_schedule handlers mc2 env with
        | none => none
        | some (_, mc3, env3) => some (FI_SUCCESS, mc3, env3)

/-! ### One process over a transport that may refuse -/

/-- The tag of an accepted transfer. -/
def submission.tag : submission → Nat
  | .tsend msg => msg.tag
  | .trecv msg => msg.tag

/-- One process: its group handle, its environment, and the transfers the transport has
accepted and not reported complete yet, oldest first. -/
structure engine_state (α : Type) where
  mc : util_coll_mc
  env : coll_env α
  outstanding : List submission

/-- What can happen to one process: a call of `util_coll_schedule`, a call of
`util_coll_process_pending` in which the transport answers a message with the given
return codes, and the completion of the accepted transfer number `i` (`data` is what a
receive has put into its buffer), reported through `ofi_coll_handle_comp`. -/
inductive engine_event (α : Type)
  | schedule
  | pending (fi_tsendmsg fi_trecvmsg : fi_msg_tagged → Int)
  | completion (i : Nat) (data : α)

/-- One event; `none` when it cannot happen in this state. -/
def engine_step {α : Type} (handlers : Nat → Nat → Int → α → α → α) (s : engine_state α) :
    engine_event α → Option (engine_state α)
  | .schedule =>
    match util_coll_schedule handlers s.mc s.env with
    | none => none
    | some (_, mc1, env1) => some ⟨mc1, env1, s.outstanding⟩
  | .pending fi_tsendmsg fi_trecvmsg =>
    match util_coll_process_pending fi_tsendmsg fi_trecvmsg s.mc with
    | none => none
    | some (_, mc1, done) => some ⟨mc1, s.env, s.outstanding ++ done⟩
  | .completion i data =>
    match s.outstanding[i]? with
    | none => none
    | some (.tsend msg) =>
      match ofi_coll_handle_comp handlers msg.tag s.mc s.env with
      | none => none
      | some (mc1, env1) => some ⟨mc1, env1, s.outstanding.eraseIdx i⟩
    | some (.trecv msg) =>
      let env0 : coll_env α := ⟨Function.update s.env.mem msg.iov_base data, s.env.comp_calls⟩
      match ofi_coll_handle_comp handlers msg.tag s.mc env0 with
      | none => none
      | some (mc1, env1) => some ⟨mc1, env1, s.outstanding.eraseIdx i⟩

/-- A run: the events happen one after the other. -/
def engine_run {α : Type} (handlers : Nat → Nat → Int → α → α → α) :
    List (engine_event α) → engine_state α → Option (engine_state α)
  | [], s => some s
  | ev :: rest, s =>
    match engine_step handlers s ev with
    | none => none
    | some s1 => engine_run handlers rest s1

/-- A transfer item: its `type` is Send or Recv. -/
def is_xfer (item : work_item) : Prop :=
  item.hdr.type = .UTIL_COLL_SEND ∨ item.hdr.type = .UTIL_COLL_RECV

/-- Deferred lists in chunks: every chunk is one barrier item (a transfer, a Reduce or a
Copy) or a transfer that is no barrier followed by a barrier transfer with another tag;
a Completion item may close the list. -/
inductive sched_ok : List work_item → Prop
  | nil : sched_ok []
  | comp (hdr : util_coll_hdr) (type : util_coll_op_type) (context data : Ptr)
      (comp_fn : Option util_coll_comp_fn) :
      hdr.type = .UTIL_COLL_COMP → sched_ok [.coll_state hdr type context data comp_fn]
  | reduce (hdr : util_coll_hdr) (in_buf inout_buf : Ptr) (count : Int) (datatype op : Nat)
      (rest : List work_item) :
      hdr.type = .UTIL_COLL_REDUCE → hdr.is_barrier ≠ 0 → sched_ok rest →
      sched_ok (.reduce_item hdr in_buf inout_buf count datatype op :: rest)
  | copy (hdr : util_coll_hdr) (in_buf out_buf : Ptr) (count : Int) (datatype : Nat)
      (rest : List work_item) :
      hdr.type = .UTIL_COLL_COPY → hdr.is_barrier ≠ 0 → sched_ok rest →
      sched_ok (.copy_item hdr in_buf out_buf count datatype :: rest)
  | xfer (item : work_item) (rest : List work_item) :
      is_xfer item → item.hdr.is_barrier ≠ 0 → sched_ok rest → sched_ok (item :: rest)
  | pair (first second : work_item) (rest : List work_item) :
      is_xfer first → first.hdr.is_barrier = 0 → is_xfer second →
      second.hdr.is_barrier ≠ 0 → first.hdr.tag ≠ second.hdr.tag → sched_ok rest →
      sched_ok (first :: second :: rest)

/-- What holds of one process in every state of a run on such a deferred list: the items
of the barrier list have different tags, the pending items are in the barrier list,
every outstanding transfer belongs to an item of the barrier list that is not pending
any more, and once a completion callback has been invoked the deferred list and the
barrier list are empty. -/
def engine_inv {α : Type} (s : engine_state α) : Prop :=
  sched_ok s.mc.deferred_list ∧
  (s.mc.barrier_list.map (fun item => item.hdr.tag)).Nodup ∧
  (s.mc.pending_xfer_list.map (fun item => item.hdr.tag)).Nodup ∧
  (∀ item, item ∈ s.mc.pending_xfer_list → item ∈ s.mc.barrier_list) ∧
  (s.outstanding.map submission.tag).Nodup ∧
  (∀ m, m ∈ s.outstanding → ∃ item, item ∈ s.mc.barrier_list ∧
    item.hdr.tag = m.tag ∧ item ∉ s.mc.pending_xfer_list) ∧
  (s.env.comp_calls ≠ [] → s.mc.deferred_list = [] ∧ s.mc.barrier_list = [])

/-- An item whose `type` fits its structure: the engine casts an item to the structure
its `type` names. -/
def well_typed : work_item → Prop
  | .xfer_item hdr _ _ _ _ => hdr.type = .UTIL_COLL_SEND ∨ hdr.type = .UTIL_COLL_RECV
  | .copy_item hdr _ _ _ _ => hdr.type = .UTIL_COLL_COPY
  | .reduce_item hdr _ _ _ _ _ => hdr.type = .UTIL_COLL_REDUCE
  | .coll_state hdr _ _ _ _ => hdr.type = .UTIL_COLL_COMP

/-- Modelled from the spec: the entry of `ofi_atomic_write_handlers` for the op bitwise
AND on a buffer of one 64-bit element (the table is not among the sources); buffer
contents are natural numbers. -/
def band_handlers : Nat → Nat → Int → Nat → Nat → Nat :=
  fun _ _ _ inout_buf in_buf => inout_buf &&& in_buf

/-! ### Counting the items of a schedule -/

instance is_xfer_decidable (item : work_item) : Decidable (is_xfer item) := by
  unfold is_xfer
  infer_instance

/-- A Send item for the rank `b`. -/
def is_send_to (b : Nat) : work_item → Bool
  | .xfer_item hdr _ _ rank _ => decide (hdr.type = .UTIL_COLL_SEND ∧ rank = (b : Int))
  | _ => false

/-- A Recv item from the rank `a`. -/
def is_recv_from (a : Nat) : work_item → Bool
  | .xfer_item hdr _ _ rank _ => decide (hdr.type = .UTIL_COLL_RECV ∧ rank = (a : Int))
  | _ => false

/-- The number of Send and Recv items of a list. -/
def xfer_count (items : List work_item) : Nat :=
  items.countP (fun item => decide (is_xfer item))

/-- The number of Recv items of a list with the given `is_barrier`. -/
def recv_count (is_barrier : Int) (items : List work_item) : Nat :=
  items.countP (fun item =>
    decide (item.hdr.type = .UTIL_COLL_RECV ∧ item.hdr.is_barrier = is_barrier))

/-- The ranks that run the exchange rounds in a group of `n`: all but the even ranks of
the low pairs (for which `util_coll_allreduce` sets `my_new_id = -1`). -/
def runs_rounds (n k : Nat) : Prop :=
  ¬ (k < 2 * (n - rounddown_power_of_two n) ∧ k % 2 = 0)

instance runs_rounds_decidable (n k : Nat) : Decidable (runs_rounds n k) := by
  unfold runs_rounds
  infer_instance

/-! ### What one drain of the deferred list is said to do -/

/-- After the spec's words: the prefix of a deferred list up to and including its first
item with `is_barrier` set (the whole list when there is none). -/
def spec_consumed (D : List work_item) : List work_item :=
  D.takeWhile (fun item => decide (item.hdr.is_barrier = 0)) ++
    (D.dropWhile (fun item => decide (item.hdr.is_barrier = 0))).take 1

/-- After the spec's words: what stays in the deferred list, in the same order. -/
def spec_remaining (D : List work_item) : List work_item :=
  (D.dropWhile (fun item => decide (item.hdr.is_barrier = 0))).drop 1

/-- After the spec's words: the Send and Recv items of a list, in order. -/
def spec_transfers (items : List work_item) : List work_item :=
  items.filter (fun item => decide (is_xfer item))

/-- After the spec's words: the consumed items that are no transfers are executed, in
order: a Reduce applies the handler of its op, a Copy copies its input buffer to its
output buffer, a Completion item has its callback invoked. -/
def spec_executed {α : Type} (handlers : Nat → Nat → Int → α → α → α) :
    List work_item → coll_env α → coll_env α
  | [], env => env
  | .reduce_item _ in_buf inout_buf count datatype op :: rest, env =>
    spec_executed handlers rest
      ⟨Function.update env.mem inout_buf
        (handlers op datatype count (env.mem inout_buf) (env.mem in_buf)), env.comp_calls⟩
  | .copy_item _ in_buf out_buf _ _ :: rest, env =>
    spec_executed handlers rest ⟨Function.update env.mem out_buf (env.mem in_buf), env.comp_calls⟩
  | .coll_state hdr type context data (some fn) :: rest, env =>
    spec_executed handlers rest
      ⟨env.mem, env.comp_calls ++ [.coll_state hdr type context data (some fn)]⟩
  | _ :: rest, env => spec_executed handlers rest env

/-! ### Completions reported more than once -/

/-- One event when the transport may report the completion of an accepted transfer more
than once: as `engine_step`, but a reported transfer stays in the list of accepted
transfers, so `completion i` can happen again for the same transfer. Every completion
is still the completion of a transfer the transport has accepted. -/
def redelivery_step {α : Type} (handlers : Nat → Nat → Int → α → α → α) (s : engine_state α) :
    engine_event α → Option (engine_state α)
  | .schedule =>
    match util_coll_schedule handlers s.mc s.env with
    | none => none
    | some (_, mc1, env1) => some ⟨mc1, env1, s.outstanding⟩
  | .pending fi_tsendmsg fi_trecvmsg =>
    match util_coll_process_pending fi_tsendmsg fi_trecvmsg s.mc with
    | none => none
    | some (_, mc1, done) => some ⟨mc1, s.env, s.outstanding ++ done⟩
  | .completion i data =>
    match s.outstanding[i]? with
    | none => none
    | some (.tsend msg) =>
      match ofi_coll_handle_comp handlers msg.tag s.mc s.env with
      | none => none
      | some (mc1, env1) => some ⟨mc1, env1, s.outstanding⟩
    | some (.trecv msg) =>
      let env0 : coll_env α := ⟨Function.update s.env.mem msg.iov_base data, s.env.comp_calls⟩
      match ofi_coll_handle_comp handlers msg.tag s.mc env0 with
      | none => none
      | some (mc1, env1) => some ⟨mc1, env1, s.outstanding⟩

/-- A run in which completions may be reported more than once. -/
def redelivery_run {α : Type} (handlers : Nat → Nat → Int → α → α → α) :
    List (engine_event α) → engine_state α → Option (engine_state α)
  | [], s => some s
  | ev :: rest, s =>
    match redelivery_step handlers s ev with
    | none => none
    | some s1 => redelivery_run handlers rest s1

/-! ## Theorems -/


/-! ### Address sets -/

theorem av_scan_spec (arr : List Nat) (a : Nat) :
    ∀ fuel j, j + fuel ≤ arr.length →
      ∃ j1, av_scan arr a fuel j = some j1 ∧ j ≤ j1 ∧ j1 ≤ j + fuel ∧
        (∀ i, j ≤ i → i < j1 → arr[i]? ≠ some a) ∧ (j1 < j + fuel → arr[j1]? = some a) := by
  intro fuel
  induction fuel with
  | zero =>
    intro j _
    exact ⟨j, rfl, le_refl _, le_refl _, fun i h1 h2 => absurd h2 (by omega),
      fun h => absurd h (by omega)⟩
  | succ fuel ih =>
    intro j hj
    have hlt : j < arr.length := by omega
    unfold av_scan
    rw [List.getElem?_eq_getElem hlt]
    by_cases hx : arr[j] = a
    · simp only [hx, if_true]
      refine ⟨j, rfl, le_refl _, by omega, fun i h1 h2 => absurd h2 (by omega), fun _ => ?_⟩
      rw [List.getElem?_eq_getElem hlt, hx]
    · simp only [hx, if_false]
      obtain ⟨j1, h1, h2, h3, h4, h5⟩ := ih (j + 1) (by omega)
      refine ⟨j1, h1, by omega, by omega, fun i hi1 hi2 => ?_, fun h => h5 (by omega)⟩
      by_cases hij : i = j
      · subst hij
        rw [List.getElem?_eq_getElem hlt]
        simpa using hx
      · exact h4 i (by omega) hi2

theorem mem_take_iff_index (arr : List Nat) (a c : Nat) :
    a ∈ arr.take c ↔ ∃ i, i < c ∧ arr[i]? = some a := by
  rw [List.mem_iff_getElem?]
  constructor
  · rintro ⟨i, hi⟩
    rw [List.getElem?_take] at hi
    by_cases h : i < c
    · exact ⟨i, h, by simpa [h] using hi⟩
    · simp [h] at hi
  · rintro ⟨i, hi, h⟩
    exact ⟨i, by rw [List.getElem?_take]; simpa [hi] using h⟩

/-- The scan over the first `c` slots ends at `c` exactly when `a` is not among them. -/
theorem av_scan_from_zero (arr : List Nat) (a c : Nat) (hc : c ≤ arr.length) :
    ∃ j, av_scan arr a (c - 0) 0 = some j ∧ j ≤ c ∧ (j = c ↔ a ∉ arr.take c) := by
  obtain ⟨j, h1, _, h3, h4, h5⟩ := av_scan_spec arr a c 0 (by omega)
  refine ⟨j, by simpa using h1, by omega, ?_⟩
  rw [mem_take_iff_index]
  constructor
  · rintro rfl ⟨i, hi, h⟩
    exact h4 i (Nat.zero_le _) hi h
  · intro hn
    by_contra hj
    exact hn ⟨j, by omega, h5 (by omega)⟩

theorem take_set_of_le (arr : List Nat) (m t a : Nat) (h : m ≤ t) :
    (arr.set t a).take m = arr.take m := by
  apply List.ext_getElem?
  intro i
  rw [List.getElem?_take, List.getElem?_take]
  by_cases hi : i < m
  · simp only [hi, if_true]
    rw [List.getElem?_set]
    simp [show t ≠ i by omega]
  · simp [hi]

theorem take_succ_set (arr : List Nat) (t a : Nat) (ht : t < arr.length) :
    (arr.set t a).take (t + 1) = arr.take t ++ [a] := by
  rw [List.take_succ, take_set_of_le arr t t a (le_refl _)]
  simp [ht]

theorem union_loop_spec (src_arr : List Nat) (c : Nat) :
    ∀ fuel i arr tc, i + fuel ≤ src_arr.length → c ≤ tc → c ≤ arr.length →
      tc + (((src_arr.drop i).take fuel).filter (fun a => decide (a ∉ arr.take c))).length
        ≤ arr.length →
      ∃ arr1, ofi_av_set_union_loop src_arr c fuel i arr tc = some (arr1,
          tc + (((src_arr.drop i).take fuel).filter (fun a => decide (a ∉ arr.take c))).length) ∧
        arr1.take (tc + (((src_arr.drop i).take fuel).filter
          (fun a => decide (a ∉ arr.take c))).length) =
          arr.take tc ++ ((src_arr.drop i).take fuel).filter (fun a => decide (a ∉ arr.take c)) := by
  intro fuel
  induction fuel with
  | zero =>
    intro i arr tc _ _ _ _
    exact ⟨arr, by simp [ofi_av_set_union_loop], by simp⟩
  | succ fuel ih =>
    intro i arr tc hi hc hca hroom
    have hlt : i < src_arr.length := by omega
    have hdrop : (src_arr.drop i).take (fuel + 1) =
        src_arr[i] :: (src_arr.drop (i + 1)).take fuel := by
      rw [List.drop_eq_getElem_cons hlt, List.take_succ_cons]
    rw [hdrop] at hroom ⊢
    obtain ⟨j, hj1, _, hj3⟩ := av_scan_from_zero arr src_arr[i] c hca
    unfold ofi_av_set_union_loop
    rw [List.getElem?_eq_getElem hlt]
    simp only [hj1]
    by_cases hmem : src_arr[i] ∈ arr.take c
    · have hjc : j ≠ c := fun h => (hj3.1 h) hmem
      rw [List.filter_cons] at hroom ⊢
      simp only [hmem, not_true_eq_false, decide_False, Bool.false_eq_true, if_false] at hroom ⊢
      simp only [hjc, if_false]
      exact ih (i + 1) arr tc (by omega) hc hca hroom
    · have hjc : j = c := hj3.2 hmem
      rw [List.filter_cons] at hroom ⊢
      simp only [hmem, not_false_eq_true, decide_True, if_true, List.length_cons] at hroom ⊢
      simp only [hjc, if_true]
      have htc : tc < arr.length := by omega
      simp only [htc, if_true]
      have hk : (arr.set tc src_arr[i]).take c = arr.take c := take_set_of_le arr c tc _ hc
      obtain ⟨arr1, h1, h2⟩ := ih (i + 1) (arr.set tc src_arr[i]) (tc + 1) (by omega) (by omega)
        (by rw [List.length_set]; exact hca) (by rw [hk, List.length_set]; omega)
      rw [hk] at h1 h2
      refine ⟨arr1, ?_, ?_⟩
      · rw [h1]; congr 2; omega
      · rw [show tc + ((List.filter (fun a => decide (a ∉ List.take c arr))
            (List.take fuel (List.drop (i + 1) src_arr))).length + 1) =
            tc + 1 + (List.filter (fun a => decide (a ∉ List.take c arr))
            (List.take fuel (List.drop (i + 1) src_arr))).length by omega, h2,
          take_succ_set arr tc _ htc]
        simp

/-- C7: for address sets over one address vector whose arrays hold their counts, when
`dst` has room for the result `ofi_av_set_union` returns success and leaves `dst`
holding its old addresses followed by the addresses of `src` that were absent from the
old `dst`, in the order of `src`. -/
theorem C7_union_appends_absent (dst src : util_av_set) (hav : src.av = dst.av)
    (hd : dst.fi_addr_count ≤ dst.fi_addr_array.length)
    (hs : src.fi_addr_count ≤ src.fi_addr_array.length)
    (hroom : dst.fi_addr_count + (src.addrs.filter (fun a => decide (a ∉ dst.addrs))).length
      ≤ dst.fi_addr_array.length) :
    ∃ dst1, ofi_av_set_union dst src = some (FI_SUCCESS, dst1) ∧
      dst1.addrs = dst.addrs ++ src.addrs.filter (fun a => decide (a ∉ dst.addrs)) ∧
      dst1.av = dst.av := by
  unfold util_av_set.addrs at hroom ⊢
  obtain ⟨arr1, h1, h2⟩ := union_loop_spec src.fi_addr_array dst.fi_addr_count
    src.fi_addr_count 0 dst.fi_addr_array dst.fi_addr_count (by omega) (le_refl _) hd
    (by simpa using hroom)
  simp only [List.drop_zero] at h1 h2
  refine ⟨⟨dst.av, arr1, _⟩, ?_, h2, rfl⟩
  unfold ofi_av_set_union
  simp only [hav, ne_eq, not_true_eq_false, if_false, h1]

/-- C7 at the sets of the spec: A = [a,b,c,d] with room for six, B = [b,c,e]. -/
theorem C7_union_appends_absent_witness :
    ∃ dst1, ofi_av_set_union ⟨0, [1, 2, 3, 4, 0, 0], 4⟩ ⟨0, [2, 3, 5], 3⟩
        = some (FI_SUCCESS, dst1) ∧
      dst1.addrs = [1, 2, 3, 4, 5] ∧ dst1.av = 0 :=
  C7_union_appends_absent ⟨0, [1, 2, 3, 4, 0, 0], 4⟩ ⟨0, [2, 3, 5], 3⟩ rfl (by decide)
    (by decide) (by decide)

/-- C8: on dst = [1,2,3] and src = [3,1] `ofi_av_set_intersect` leaves dst = [3],
while the addresses of the old dst that occur in src are [1,3]: the match of 3 is
stored over slot 0 and the 1 that stood there is gone. -/
theorem C8_intersect_drops_common_address :
    (ofi_av_set_intersect ⟨0, [1, 2, 3], 3⟩ ⟨0, [3, 1], 2⟩).map (fun r => (r.1, r.2.addrs))
        = some (FI_SUCCESS, [3]) ∧
      [1, 2, 3].filter (fun a => decide (a ∈ [3, 1])) = [1, 3] := by
  decide

/-- C9: on A = [1,2,3,4] and B = [2,3,5] (the sets [a,b,c,d] and [b,c,e] of the spec)
`ofi_av_set_diff` leaves dst = [1,2], while the addresses of A that do not occur in B
are [1,4]: a match stores the matched address into the tail slot instead of the tail
address into the matched slot. -/
theorem C9_diff_keeps_removed_address :
    (ofi_av_set_diff ⟨0, [1, 2, 3, 4], 4⟩ ⟨0, [2, 3, 5], 3⟩).map (fun r => (r.1, r.2.addrs))
        = some (FI_SUCCESS, [1, 2]) ∧
      [1, 2, 3, 4].filter (fun a => decide (a ∉ [2, 3, 5])) = [1, 4] := by
  decide

/-- C10 as stated fails on a set whose array is full: the address 3 is not in the set
`[1, 2]` held in an array of two slots, and `ofi_av_set_insert` does not return success
with the address appended: the store into slot `fi_addr_count` goes past the end of
the array, so the call has no defined result. -/
theorem C10_insert_into_full_array_has_no_result :
    3 ∉ util_av_set.addrs ⟨0, [1, 2], 2⟩ ∧
    (util_av_set.addrs ⟨0, [1, 2], 2⟩).Nodup ∧
    ofi_av_set_insert ⟨0, [1, 2], 2⟩ 3 = none ∧
    ¬ ∃ s, ofi_av_set_insert ⟨0, [1, 2], 2⟩ 3 = some (FI_SUCCESS, s) := by
  refine ⟨by decide, by decide, by decide, ?_⟩
  rintro ⟨s, hs⟩
  have h : ofi_av_set_insert ⟨0, [1, 2], 2⟩ 3 = none := by decide
  rw [h] at hs
  exact absurd hs (by simp)

/-- C10, amended: for an address set whose array holds its count, `ofi_av_set_insert`
returns `-FI_EINVAL` exactly when the address is already in the set, and then leaves the
set as it was; otherwise, when the array has a free slot, it returns success and the
set holds the old addresses followed by the new one. -/
theorem C10_insert_appends_or_rejects (set : util_av_set) (addr : Nat)
    (hc : set.fi_addr_count ≤ set.fi_addr_array.length) :
    ((∃ s, ofi_av_set_insert set addr = some (-FI_EINVAL, s)) ↔ addr ∈ set.addrs) ∧
    (addr ∈ set.addrs → ofi_av_set_insert set addr = some (-FI_EINVAL, set)) ∧
    (addr ∉ set.addrs → set.fi_addr_count < set.fi_addr_array.length →
      ∃ s, ofi_av_set_insert set addr = some (FI_SUCCESS, s) ∧
        s.addrs = set.addrs ++ [addr] ∧ s.fi_addr_count = set.fi_addr_count + 1) := by
  obtain ⟨j, hj1, hj2, hj3⟩ := av_scan_from_zero set.fi_addr_array addr set.fi_addr_count hc
  have hin : addr ∈ set.addrs → ofi_av_set_insert set addr = some (-FI_EINVAL, set) := by
    intro hm
    have hlt : j < set.fi_addr_count := by
      rcases Nat.lt_or_ge j set.fi_addr_count with h | h
      · exact h
      · exact absurd hm (hj3.1 (by omega))
    unfold ofi_av_set_insert
    simp only [hj1, hlt, if_true]
  have hout : addr ∉ set.addrs → ¬ j < set.fi_addr_count := by
    intro hm
    have := hj3.2 hm
    omega
  refine ⟨⟨?_, fun hm => ⟨set, hin hm⟩⟩, hin, ?_⟩
  · rintro ⟨s, hs⟩
    by_contra hm
    unfold ofi_av_set_insert at hs
    simp only [hj1, hout hm, if_false] at hs
    by_cases hroom : set.fi_addr_count < set.fi_addr_array.length
    · simp only [hroom, if_true, Option.some.injEq, Prod.mk.injEq] at hs
      have := hs.1
      simp [FI_SUCCESS, FI_EINVAL] at this
    · simp [hroom] at hs
  · intro hm hroom
    refine ⟨⟨set.av, set.fi_addr_array.set set.fi_addr_count addr, set.fi_addr_count + 1⟩,
      ?_, ?_, rfl⟩
    · unfold ofi_av_set_insert
      simp only [hj1, hout hm, if_false, hroom, if_true]
    · exact take_succ_set set.fi_addr_array set.fi_addr_count addr hroom

/-- C10, amended, at the set [1,2,3,4] in an array of six slots: inserting 3 is
rejected, inserting 7 appends it. -/
theorem C10_insert_appends_or_rejects_witness :
    ofi_av_set_insert ⟨0, [1, 2, 3, 4, 0, 0], 4⟩ 3 = some (-FI_EINVAL, ⟨0, [1, 2, 3, 4, 0, 0], 4⟩) ∧
    ∃ s, ofi_av_set_insert ⟨0, [1, 2, 3, 4, 0, 0], 4⟩ 7 = some (FI_SUCCESS, s) ∧
      s.addrs = [1, 2, 3, 4, 7] ∧ s.fi_addr_count = 5 :=
  ⟨(C10_insert_appends_or_rejects ⟨0, [1, 2, 3, 4, 0, 0], 4⟩ 3 (by decide)).2.1 (by decide),
   (C10_insert_appends_or_rejects ⟨0, [1, 2, 3, 4, 0, 0], 4⟩ 7 (by decide)).2.2 (by decide)
     (by decide)⟩

/-! ### Collective tags -/

theorem shl16_or (cid seq : Nat) (hc : cid < 2 ^ 16) (hs : seq < 2 ^ 16) :
    ((cid <<< 16) % 2 ^ 32) ||| seq = cid * 2 ^ 16 + seq := by
  rw [Nat.shiftLeft_eq, Nat.mod_eq_of_lt (by omega), Nat.mul_comm, Nat.mul_add_lt_is_or hs]

/-- The tag of a collective id below `2 ^ 32` and a rank below `2 ^ 31` as a sum. -/
theorem form_tag_eq (coll_id rank : Nat) (hc : coll_id < 2 ^ 32) (hr : rank < 2 ^ 31) :
    util_coll_form_tag coll_id rank = 2 ^ 63 + rank * 2 ^ 32 + coll_id := by
  unfold util_coll_form_tag OFI_COLL_TAG_FLAG
  simp only []
  simp only [Nat.shiftLeft_eq, Nat.one_mul]
  rw [Nat.mod_eq_of_lt hc, Nat.mod_eq_of_lt (show rank < 2 ^ 32 by omega),
    Nat.mod_eq_of_lt (show rank * 2 ^ 32 < 2 ^ 64 by omega), Nat.lor_comm coll_id,
    Nat.mul_comm rank, ← Nat.mul_add_lt_is_or hc]
  have h := Nat.mul_add_lt_is_or (show 2 ^ 32 * rank + coll_id < 2 ^ 63 by omega) 1
  rw [Nat.mul_one] at h
  rw [← h]
  omega

/-- C2: for a context id and a sequence number below `2 ^ 16` and a rank below
`2 ^ 31`, the tag `util_coll_form_tag` builds from the collective id of
`util_coll_get_next_id` is `2^63 + rank * 2^32 + cid * 2^16 + seq`: bit 63 is set, bits
62-32 are the rank, bits 31-16 the context id and bits 15-0 the sequence number. -/
theorem C2_tag_layout (coll_mc : util_coll_mc) (rank : Nat) (hc : coll_mc.cid < 2 ^ 16)
    (hs : coll_mc.seq < 2 ^ 16) (hr : rank < 2 ^ 31) :
    util_coll_form_tag (util_coll_get_next_id coll_mc).1 rank
        = 2 ^ 63 + rank * 2 ^ 32 + coll_mc.cid * 2 ^ 16 + coll_mc.seq ∧
      (util_coll_form_tag (util_coll_get_next_id coll_mc).1 rank).testBit 63 = true ∧
      util_coll_form_tag (util_coll_get_next_id coll_mc).1 rank / 2 ^ 32 % 2 ^ 31 = rank ∧
      util_coll_form_tag (util_coll_get_next_id coll_mc).1 rank / 2 ^ 16 % 2 ^ 16
        = coll_mc.cid ∧
      util_coll_form_tag (util_coll_get_next_id coll_mc).1 rank % 2 ^ 16 = coll_mc.seq := by
  have hid : (util_coll_get_next_id coll_mc).1 = coll_mc.cid * 2 ^ 16 + coll_mc.seq := by
    unfold util_coll_get_next_id
    simp only []
    rw [Nat.mod_eq_of_lt hc, Nat.mod_eq_of_lt hs, shl16_or _ _ hc hs]
  have htag := form_tag_eq (util_coll_get_next_id coll_mc).1 rank (by rw [hid]; omega) hr
  rw [hid] at htag ⊢
  rw [htag]
  refine ⟨by omega, ?_, by omega, by omega, by omega⟩
  rw [Nat.testBit_to_div_mod]
  simp only [decide_eq_true_eq]
  omega

/-- C2 at cid = 0x0123, seq = 0x4567, rank = 0x89: the tag is 0x8000008901234567. -/
theorem C2_tag_layout_witness :
    util_coll_form_tag
      (util_coll_get_next_id ⟨⟨0, [], 0⟩, [], [], [], 0x89, 0x0123, 0x4567⟩).1 0x89
      = 0x8000008901234567 :=
  (C2_tag_layout ⟨⟨0, [], 0⟩, [], [], [], 0x89, 0x0123, 0x4567⟩ 0x89 (by decide) (by decide)
    (by decide)).1.trans (by decide)

/-! ### Context ids -/

theorem init_cid_eq (cid : List Nat) (h : cid.length = OFI_CONTEXT_ID_SIZE) :
    util_coll_init_cid cid = [2 ^ 64 - 2, 2 ^ 64 - 1, 2 ^ 64 - 1, 2 ^ 64 - 1] := by
  match cid, h with
  | [a, b, c, d], _ =>
    simp [util_coll_init_cid, OFI_CONTEXT_ID_SIZE, UINT64_MAX, List.range, List.range.loop]
    decide

/-- C3: at the reduced bitmap a process has after its first join (bits 0, 1, 64, 128
and 192 clear) `util_coll_join_comp` assigns cid 5, while the lowest set bit of that
bitmap is bit 2: the loop over the four words does not stop at the first non-zero word
and adds up the positions found in all of them. -/
theorem C3_join_comp_adds_all_words :
    (util_coll_join_comp [2 ^ 64 - 4, 2 ^ 64 - 2, 2 ^ 64 - 2, 2 ^ 64 - 2]
        [2 ^ 64 - 4, 2 ^ 64 - 2, 2 ^ 64 - 2, 2 ^ 64 - 2]).map (fun r => r.cid) = some 5 ∧
      lowest_set_bit [2 ^ 64 - 4, 2 ^ 64 - 2, 2 ^ 64 - 2, 2 ^ 64 - 2] = some 2 := by
  decide

/-- C4: on a freshly initialised process bitmap and the same reduced bitmap
`util_coll_join_comp` assigns cid 1 and clears bit 1, and it also clears bits 64, 128
and 192, which were set before and are not the assigned id. -/
theorem C4_join_comp_clears_other_bits :
    (util_coll_join_comp (util_coll_init_cid [0, 0, 0, 0]) (util_coll_init_cid [0, 0, 0, 0])).map
        (fun r => (r.cid, cid_bit r.util_coll_cid 1, cid_bit r.util_coll_cid 64,
          cid_bit r.util_coll_cid 128, cid_bit r.util_coll_cid 192))
        = some (1, false, false, false, false) ∧
      cid_bit (util_coll_init_cid [0, 0, 0, 0]) 64 = true ∧
      cid_bit (util_coll_init_cid [0, 0, 0, 0]) 128 = true ∧
      cid_bit (util_coll_init_cid [0, 0, 0, 0]) 192 = true := by
  decide

set_option maxRecDepth 8000 in
/-- C5: `util_coll_init_cid` yields the bitmap in which every bit but bit 0 is set, and
when the process bitmap and the reduced bitmap are that bitmap `util_coll_join_comp`
assigns cid 1 and leaves bit 1 and bit 0 of the process bitmap clear. -/
theorem C5_first_join_assigns_one (cid : List Nat) (h : cid.length = OFI_CONTEXT_ID_SIZE) :
    (∀ i, i < 64 * OFI_CONTEXT_ID_SIZE →
        cid_bit (util_coll_init_cid cid) i = decide (i ≠ 0)) ∧
      ∃ r, util_coll_join_comp (util_coll_init_cid cid) (util_coll_init_cid cid) = some r ∧
        r.cid = 1 ∧ cid_bit r.util_coll_cid 1 = false ∧ cid_bit r.util_coll_cid 0 = false := by
  rw [init_cid_eq cid h]
  refine ⟨by decide, ⟨[2 ^ 64 - 4, 2 ^ 64 - 2, 2 ^ 64 - 2, 2 ^ 64 - 2], 1, 0⟩, by decide,
    by decide⟩

/-- C5 at the zero-filled static array a fresh process starts with. -/
theorem C5_first_join_assigns_one_witness :
    (∀ i, i < 64 * OFI_CONTEXT_ID_SIZE →
        cid_bit (util_coll_init_cid [0, 0, 0, 0]) i = decide (i ≠ 0)) ∧
      ∃ r, util_coll_join_comp (util_coll_init_cid [0, 0, 0, 0])
          (util_coll_init_cid [0, 0, 0, 0]) = some r ∧
        r.cid = 1 ∧ cid_bit r.util_coll_cid 1 = false ∧ cid_bit r.util_coll_cid 0 = false :=
  C5_first_join_assigns_one [0, 0, 0, 0] rfl

/-- C6, as the claim states it, fails: in a process whose only live group holds cid 1
(bit 1 of the bitmap is clear), bit 1 is still clear after `util_coll_close` has freed
that group. -/
theorem C6_close_does_not_release :
    (([⟨⟨0, [0, 1], 2⟩, [], [], [], 0, 1, 0⟩] : List util_coll_mc)[0]?).map (fun g => g.cid)
        = some 1 ∧
      (util_coll_close ⟨[2 ^ 64 - 4, 2 ^ 64 - 2, 2 ^ 64 - 2, 2 ^ 64 - 2],
        [⟨⟨0, [0, 1], 2⟩, [], [], [], 0, 1, 0⟩]⟩ 0).2.live = [] ∧
      cid_bit (util_coll_close ⟨[2 ^ 64 - 4, 2 ^ 64 - 2, 2 ^ 64 - 2, 2 ^ 64 - 2],
        [⟨⟨0, [0, 1], 2⟩, [], [], [], 0, 1, 0⟩]⟩ 0).2.util_coll_cid 1 = false := by
  decide

/-- C6, amended: `util_coll_close` returns success, frees the handle and leaves the
process-wide bitmap as it was, so the bit of the closed group's cid keeps its value. -/
theorem C6_close_keeps_bitmap (p : coll_process) (i : Nat) :
    (util_coll_close p i).1 = FI_SUCCESS ∧
      (util_coll_close p i).2.util_coll_cid = p.util_coll_cid ∧
      (util_coll_close p i).2.live = p.live.eraseIdx i ∧
      ∀ b, cid_bit (util_coll_close p i).2.util_coll_cid b = cid_bit p.util_coll_cid b := by
  exact ⟨rfl, rfl, rfl, fun _ => rfl⟩

/-! ### The engine on shaped schedules -/

section engine

variable {α : Type} (handlers : Nat → Nat → Int → α → α → α) (n : Nat) (pv : Nat → Nat → α)
  (k : Nat) (F : Ptr → α)

/-- With nothing outstanding, `util_coll_schedule` drains the next block of a shaped
deferred list. -/
theorem schedule_idle (mc : util_coll_mc) (env : coll_env α)
    (hav : mc.av_set.fi_addr_array = List.range n)
    (hP : mc.pending_xfer_list = []) (hB : mc.barrier_list = [])
    (hsh : shaped handlers n pv k env.mem mc.deferred_list F) :
    ∃ ret mc1 env1, util_coll_schedule handlers mc env = some (ret, mc1, env1) ∧
      local_ok handlers n pv k F ⟨mc1, env1, [], []⟩ := by
  obtain ⟨av_set, B, D, P, my_rank, cid, seq⟩ := mc
  obtain ⟨M, calls⟩ := env
  simp only at hav hP hB hsh
  subst hP hB
  cases hsh with
  | nil =>
    refine ⟨_, _, _, rfl, ?_⟩
    exact local_ok.idle _ hav rfl rfl rfl rfl (shaped.nil _)
  | reduce hdr in_buf inout_buf count datatype op h1 h2 h3 h4 h5 =>
    rename_i l
    refine ⟨FI_SUCCESS, ⟨av_set, [], l, [], my_rank, cid, seq⟩,
      ⟨Function.update M inout_buf (handlers op datatype count (M inout_buf) (M in_buf)),
        calls⟩, ?_, ?_⟩
    · simp [util_coll_schedule, util_coll_process_work_items, process_work_items_loop,
        work_item.hdr, h1, h2, util_coll_proc_reduce_item, h3, h4, FI_SUCCESS]
    · exact local_ok.idle _ hav rfl rfl rfl rfl h5
  | copy hdr in_buf out_buf count datatype h1 h2 h5 =>
    rename_i l
    refine ⟨FI_SUCCESS, ⟨av_set, [], l, [], my_rank, cid, seq⟩,
      ⟨Function.update M out_buf (M in_buf), calls⟩, ?_, ?_⟩
    · simp [util_coll_schedule, util_coll_process_work_items, process_work_items_loop,
        work_item.hdr, h1, h2, FI_SUCCESS]
    · exact local_ok.idle _ hav rfl rfl rfl rfl h5
  | send tag is_barrier buf count dest datatype h1 h2 h3 h5 =>
    rename_i l
    refine ⟨FI_SUCCESS, ⟨av_set, [send_item tag is_barrier buf count dest datatype], l,
      [send_item tag is_barrier buf count dest datatype], my_rank, cid, seq⟩, ⟨M, calls⟩, ?_, ?_⟩
    · simp [util_coll_schedule, util_coll_process_work_items, process_work_items_loop,
        work_item.hdr, send_item, h1, FI_SUCCESS]
    · exact local_ok.send_pending _ tag is_barrier buf count dest datatype hav rfl rfl rfl rfl
        h2 h3 h5
  | recv tag is_barrier buf count src datatype h1 h2 h5 =>
    rename_i l
    refine ⟨FI_SUCCESS, ⟨av_set, [recv_item tag is_barrier buf count src datatype], l,
      [recv_item tag is_barrier buf count src datatype], my_rank, cid, seq⟩, ⟨M, calls⟩, ?_, ?_⟩
    · simp [util_coll_schedule, util_coll_process_work_items, process_work_items_loop,
        work_item.hdr, recv_item, h1, FI_SUCCESS]
    · exact local_ok.recv_pending _ tag is_barrier buf count src datatype hav rfl rfl rfl rfl
        h2 h5
  | pair rtag rbuf rcount src rdatatype stag is_barrier sbuf scount dest sdatatype h1 h2 h3 h4
      h5 h6 =>
    rename_i l
    refine ⟨FI_SUCCESS, ⟨av_set, [recv_item rtag 0 rbuf rcount src rdatatype,
        send_item stag is_barrier sbuf scount dest sdatatype], l,
      [recv_item rtag 0 rbuf rcount src rdatatype,
        send_item stag is_barrier sbuf scount dest sdatatype], my_rank, cid, seq⟩,
      ⟨M, calls⟩, ?_, ?_⟩
    · simp [util_coll_schedule, util_coll_process_work_items, process_work_items_loop,
        work_item.hdr, recv_item, send_item, h2, FI_SUCCESS]
    · exact local_ok.pair_pending _ rtag rbuf rcount src rdatatype stag is_barrier sbuf scount
        dest sdatatype hav rfl rfl rfl rfl h1 h3 h4 h5 h6

/-- A progress tick keeps a rank in one of the expected states. -/
theorem local_progress (s : rank_state α) (h : local_ok handlers n pv k F s) :
    ∃ ret mc1 env1, util_coll_schedule handlers s.mc s.env = some (ret, mc1, env1) ∧
      local_ok handlers n pv k F ⟨mc1, env1, s.posted, s.sends⟩ := by
  cases h with
  | idle hav hP hB hp hs hsh =>
    rw [hp, hs]
    exact schedule_idle handlers n pv k F s.mc s.env hav hP hB hsh
  | send_pending tag is_barrier buf count dest datatype hav hP hB hp hs h1 h2 hsh =>
    exact ⟨FI_SUCCESS, s.mc, s.env, by simp [util_coll_schedule, hB],
      local_ok.send_pending _ tag is_barrier buf count dest datatype hav hP hB hp hs h1 h2 hsh⟩
  | send_out tag is_barrier buf count dest datatype hav hP hB hp hs hsh =>
    exact ⟨FI_SUCCESS, s.mc, s.env, by simp [util_coll_schedule, hB],
      local_ok.send_out _ tag is_barrier buf count dest datatype hav hP hB hp hs hsh⟩
  | recv_pending tag is_barrier buf count src datatype hav hP hB hp hs h1 hsh =>
    exact ⟨FI_SUCCESS, s.mc, s.env, by simp [util_coll_schedule, hB],
      local_ok.recv_pending _ tag is_barrier buf count src datatype hav hP hB hp hs h1 hsh⟩
  | recv_out tag is_barrier buf count src datatype hav hP hB hp hs hsh =>
    exact ⟨FI_SUCCESS, s.mc, s.env, by simp [util_coll_schedule, hB],
      local_ok.recv_out _ tag is_barrier buf count src datatype hav hP hB hp hs hsh⟩
  | pair_pending rtag rbuf rcount src rdatatype stag is_barrier sbuf scount dest sdatatype
      hav hP hB hp hs h1 h2 h3 h4 hsh =>
    exact ⟨FI_SUCCESS, s.mc, s.env, by simp [util_coll_schedule, hB],
      local_ok.pair_pending _ rtag rbuf rcount src rdatatype stag is_barrier sbuf scount dest
        sdatatype hav hP hB hp hs h1 h2 h3 h4 hsh⟩
  | pair_out rtag rbuf rcount src rdatatype stag is_barrier sbuf scount dest sdatatype
      hav hP hB hp hs h1 hsh =>
    exact ⟨FI_SUCCESS, s.mc, s.env, by simp [util_coll_schedule, hB],
      local_ok.pair_out _ rtag rbuf rcount src rdatatype stag is_barrier sbuf scount dest
        sdatatype hav hP hB hp hs h1 hsh⟩

theorem process_pending_nil (mc : util_coll_mc) (hP : mc.pending_xfer_list = []) :
    util_coll_process_pending (fun _ => 0) (fun _ => 0) mc = some (FI_SUCCESS, mc, []) := by
  obtain ⟨av_set, B, D, P, my_rank, cid, seq⟩ := mc
  simp only at hP
  subst hP
  rfl

theorem range_get (m i : Nat) (h : i < m) : (List.range m)[i]? = some i := by
  simp [List.getElem?_range, h]

theorem cast_not_neg (i : Nat) : ¬ ((i : Int) < 0) := by omega

/-- A call of `util_coll_process_pending` keeps a rank in one of the expected states, and
every message it puts in flight carries the expected payload. -/
theorem local_pending (s : rank_state α) (h : local_ok handlers n pv k F s) :
    ∃ ret mc1 done, util_coll_process_pending (fun _ => 0) (fun _ => 0) s.mc
        = some (ret, mc1, done) ∧
      local_ok handlers n pv k F
        ⟨mc1, s.env, s.posted ++ posted_of done, s.sends ++ sends_of done⟩ ∧
      ∀ m ∈ wire_of k s.env.mem done, m.payload = pv m.src m.dst := by
  cases h with
  | idle hav hP hB hp hs hsh =>
    exact ⟨_, _, _, process_pending_nil s.mc hP,
      local_ok.idle _ hav hP hB (by simp [hp, posted_of]) (by simp [hs, sends_of]) hsh,
      by simp [wire_of]⟩
  | send_out tag is_barrier buf count dest datatype hav hP hB hp hs hsh =>
    exact ⟨_, _, _, process_pending_nil s.mc hP,
      local_ok.send_out _ tag is_barrier buf count dest datatype hav hP hB
        (by simp [hp, posted_of]) (by simp [hs, sends_of]) hsh, by simp [wire_of]⟩
  | recv_out tag is_barrier buf count src datatype hav hP hB hp hs hsh =>
    exact ⟨_, _, _, process_pending_nil s.mc hP,
      local_ok.recv_out _ tag is_barrier buf count src datatype hav hP hB
        (by simp [hp, posted_of]) (by simp [hs, sends_of]) hsh, by simp [wire_of]⟩
  | pair_out rtag rbuf rcount src rdatatype stag is_barrier sbuf scount dest sdatatype
      hav hP hB hp hs h1 hsh =>
    exact ⟨_, _, _, process_pending_nil s.mc hP,
      local_ok.pair_out _ rtag rbuf rcount src rdatatype stag is_barrier sbuf scount dest
        sdatatype hav hP hB (by simp [hp, posted_of]) (by simp [hs, sends_of]) h1 hsh,
      by simp [wire_of]⟩
  | send_pending tag is_barrier buf count dest datatype hav hP hB hp hs h1 h2 hsh =>
    obtain ⟨⟨av_set, B, D, P, my_rank, cid, seq⟩, env, posted, sends⟩ := s
    simp only at hav hP hB hp hs h2 hsh
    subst hP hB hp hs
    refine ⟨FI_SUCCESS, ⟨av_set, [send_item tag is_barrier buf count dest datatype], D, [],
      my_rank, cid, seq⟩, [.tsend ⟨dest, tag, buf, count, datatype⟩], ?_, ?_, ?_⟩
    · have hg := range_get n dest h1
      have hn := cast_not_neg dest
      by_cases hb : is_barrier = 0 <;>
        simp [util_coll_process_pending, process_pending_loop, work_item.hdr, send_item, hav,
          hg, hn, hb, FI_SUCCESS]
    · exact local_ok.send_out _ tag is_barrier buf count dest datatype hav rfl rfl rfl rfl hsh
    · intro m hm
      simp only [wire_of, List.mem_singleton] at hm
      subst hm
      exact h2
  | recv_pending tag is_barrier buf count src datatype hav hP hB hp hs h1 hsh =>
    obtain ⟨⟨av_set, B, D, P, my_rank, cid, seq⟩, env, posted, sends⟩ := s
    simp only at hav hP hB hp hs hsh
    subst hP hB hp hs
    refine ⟨FI_SUCCESS, ⟨av_set, [recv_item tag is_barrier buf count src datatype], D, [],
      my_rank, cid, seq⟩, [.trecv ⟨src, tag, buf, count, datatype⟩], ?_, ?_, ?_⟩
    · have hg := range_get n src h1
      have hn := cast_not_neg src
      by_cases hb : is_barrier = 0 <;>
        simp [util_coll_process_pending, process_pending_loop, work_item.hdr, recv_item, hav,
          hg, hn, hb, FI_SUCCESS]
    · exact local_ok.recv_out _ tag is_barrier buf count src datatype hav rfl rfl rfl rfl hsh
    · simp [wire_of]
  | pair_pending rtag rbuf rcount src rdatatype stag is_barrier sbuf scount dest sdatatype
      hav hP hB hp hs h1 h2 h3 h4 hsh =>
    obtain ⟨⟨av_set, B, D, P, my_rank, cid, seq⟩, env, posted, sends⟩ := s
    simp only at hav hP hB hp hs h4 hsh
    subst hP hB hp hs
    refine ⟨FI_SUCCESS, ⟨av_set, [recv_item rtag 0 rbuf rcount src rdatatype,
        send_item stag is_barrier sbuf scount dest sdatatype], D, [], my_rank, cid, seq⟩,
      [.trecv ⟨src, rtag, rbuf, rcount, rdatatype⟩,
        .tsend ⟨dest, stag, sbuf, scount, sdatatype⟩], ?_, ?_, ?_⟩
    · have hg := range_get n src h2
      have hg2 := range_get n dest h3
      have hn := cast_not_neg src
      have hn2 := cast_not_neg dest
      by_cases hb : is_barrier = 0 <;>
        simp [util_coll_process_pending, process_pending_loop, work_item.hdr, recv_item,
          send_item, hav, hg, hg2, hn, hn2, hb, FI_SUCCESS]
    · exact local_ok.pair_out _ rtag rbuf rcount src rdatatype stag is_barrier sbuf scount dest
        sdatatype hav rfl rfl rfl rfl h1 hsh
    · intro m hm
      simp only [wire_of, List.mem_singleton] at hm
      subst hm
      exact h4

/-- The completion of an accepted send keeps a rank in one of the expected states. -/
theorem local_send_done (s : rank_state α) (h : local_ok handlers n pv k F s) (i : Nat)
    (msg : fi_msg_tagged) (hi : s.sends[i]? = some msg) :
    ∃ mc1 env1, ofi_coll_handle_comp handlers msg.tag s.mc s.env = some (mc1, env1) ∧
      local_ok handlers n pv k F ⟨mc1, env1, s.posted, s.sends.eraseIdx i⟩ := by
  cases h with
  | idle hav hP hB hp hs hsh => simp [hs] at hi
  | send_pending tag is_barrier buf count dest datatype hav hP hB hp hs h1 h2 hsh =>
    simp [hs] at hi
  | recv_pending tag is_barrier buf count src datatype hav hP hB hp hs h1 hsh =>
    simp [hs] at hi
  | recv_out tag is_barrier buf count src datatype hav hP hB hp hs hsh => simp [hs] at hi
  | pair_pending rtag rbuf rcount src rdatatype stag is_barrier sbuf scount dest sdatatype
      hav hP hB hp hs h1 h2 h3 h4 hsh => simp [hs] at hi
  | send_out tag is_barrier buf count dest datatype hav hP hB hp hs hsh =>
    obtain ⟨⟨av_set, B, D, P, my_rank, cid, seq⟩, env, posted, sends⟩ := s
    simp only at hav hP hB hp hs hsh hi
    subst hP hB hp hs
    match i, hi with
    | 0, hi =>
      simp only [List.getElem?_cons_zero, Option.some.injEq] at hi
      subst hi
      obtain ⟨ret, mc1, env1, h1, h2⟩ := schedule_idle handlers n pv k F
        ⟨av_set, [], D, [], my_rank, cid, seq⟩ env hav rfl rfl hsh
      refine ⟨mc1, env1, ?_, by simpa using h2⟩
      simp [ofi_coll_handle_comp, List.eraseP, work_item.hdr, send_item, h1]
    | i + 1, hi => simp at hi
  | pair_out rtag rbuf rcount src rdatatype stag is_barrier sbuf scount dest sdatatype
      hav hP hB hp hs h1 hsh =>
    obtain ⟨⟨av_set, B, D, P, my_rank, cid, seq⟩, env, posted, sends⟩ := s
    simp only at hav hP hB hp hs hsh hi
    subst hP hB hp hs
    match i, hi with
    | 0, hi =>
      simp only [List.getElem?_cons_zero, Option.some.injEq] at hi
      subst hi
      refine ⟨⟨av_set, [recv_item rtag 0 rbuf rcount src rdatatype], D, [], my_rank, cid, seq⟩,
        env, ?_, ?_⟩
      · simp [ofi_coll_handle_comp, List.eraseP, work_item.hdr, send_item, recv_item, h1,
          util_coll_schedule, FI_SUCCESS]
      · exact local_ok.recv_out _ rtag 0 rbuf rcount src rdatatype hav rfl rfl rfl rfl hsh
    | i + 1, hi => simp at hi

/-- The delivery of the expected payload to a posted receive keeps a rank in one of the
expected states. -/
theorem local_deliver (s : rank_state α) (h : local_ok handlers n pv k F s) (j : Nat)
    (q : fi_msg_tagged) (hj : s.posted[j]? = some q) (v : α) (hv : v = pv q.addr k) :
    ∃ mc1 env1, ofi_coll_handle_comp handlers q.tag s.mc
        ⟨Function.update s.env.mem q.iov_base v, s.env.comp_calls⟩ = some (mc1, env1) ∧
      local_ok handlers n pv k F ⟨mc1, env1, s.posted.eraseIdx j, s.sends⟩ := by
  cases h with
  | idle hav hP hB hp hs hsh => simp [hp] at hj
  | send_pending tag is_barrier buf count dest datatype hav hP hB hp hs h1 h2 hsh =>
    simp [hp] at hj
  | recv_pending tag is_barrier buf count src datatype hav hP hB hp hs h1 hsh =>
    simp [hp] at hj
  | send_out tag is_barrier buf count dest datatype hav hP hB hp hs hsh => simp [hp] at hj
  | pair_pending rtag rbuf rcount src rdatatype stag is_barrier sbuf scount dest sdatatype
      hav hP hB hp hs h1 h2 h3 h4 hsh => simp [hp] at hj
  | recv_out tag is_barrier buf count src datatype hav hP hB hp hs hsh =>
    obtain ⟨⟨av_set, B, D, P, my_rank, cid, seq⟩, ⟨M, calls⟩, posted, sends⟩ := s
    simp only at hav hP hB hp hs hsh hj
    subst hP hB hp hs
    match j, hj with
    | 0, hj =>
      simp only [List.getElem?_cons_zero, Option.some.injEq] at hj
      subst hj
      subst hv
      obtain ⟨ret, mc1, env1, h1, h2⟩ := schedule_idle handlers n pv k F
        ⟨av_set, [], D, [], my_rank, cid, seq⟩ ⟨Function.update M buf (pv src k), calls⟩
        hav rfl rfl hsh
      refine ⟨mc1, env1, ?_, by simpa using h2⟩
      simp [ofi_coll_handle_comp, List.eraseP, work_item.hdr, recv_item, h1]
    | j + 1, hj => simp at hj
  | pair_out rtag rbuf rcount src rdatatype stag is_barrier sbuf scount dest sdatatype
      hav hP hB hp hs h1 hsh =>
    obtain ⟨⟨av_set, B, D, P, my_rank, cid, seq⟩, ⟨M, calls⟩, posted, sends⟩ := s
    simp only at hav hP hB hp hs hsh hj
    subst hP hB hp hs
    match j, hj with
    | 0, hj =>
      simp only [List.getElem?_cons_zero, Option.some.injEq] at hj
      subst hj
      subst hv
      refine ⟨⟨av_set, [send_item stag is_barrier sbuf scount dest sdatatype], D, [], my_rank,
        cid, seq⟩, ⟨Function.update M rbuf (pv src k), calls⟩, ?_, ?_⟩
      · simp [ofi_coll_handle_comp, List.eraseP, work_item.hdr, send_item, recv_item,
          util_coll_schedule, FI_SUCCESS]
      · exact local_ok.send_out _ stag is_barrier sbuf scount dest sdatatype hav rfl rfl rfl
          rfl hsh
    | j + 1, hj => simp at hj

theorem local_ok_finished (s : rank_state α) (h : local_ok handlers n pv k F s)
    (hD : s.mc.deferred_list = []) (hB : s.mc.barrier_list = []) : s.env.mem = F := by
  cases h with
  | idle hav hP _ hp hs hsh =>
    rw [hD] at hsh
    cases hsh
    rfl
  | send_pending tag is_barrier buf count dest datatype hav hP hB1 hp hs h1 h2 hsh =>
    simp [hB] at hB1
  | send_out tag is_barrier buf count dest datatype hav hP hB1 hp hs hsh => simp [hB] at hB1
  | recv_pending tag is_barrier buf count src datatype hav hP hB1 hp hs h1 hsh =>
    simp [hB] at hB1
  | recv_out tag is_barrier buf count src datatype hav hP hB1 hp hs hsh => simp [hB] at hB1
  | pair_pending rtag rbuf rcount src rdatatype stag is_barrier sbuf scount dest sdatatype
      hav hP hB1 hp hs h1 h2 h3 h4 hsh => simp [hB] at hB1
  | pair_out rtag rbuf rcount src rdatatype stag is_barrier sbuf scount dest sdatatype
      hav hP hB1 hp hs h1 hsh => simp [hB] at hB1

variable (post : Nat → (Ptr → α) → Prop)

theorem net_inv_update (net : coll_net α) (hinv : net_inv handlers n pv post net) (k : Nat)
    (s1 : rank_state α) (wire1 : List (wire_msg α))
    (hs1 : ∀ F, local_ok handlers n pv k F (net.ranks k) → local_ok handlers n pv k F s1)
    (hw : ∀ m ∈ wire1, m.payload = pv m.src m.dst) :
    net_inv handlers n pv post ⟨net.n, Function.update net.ranks k s1, wire1⟩ := by
  obtain ⟨hn, hr, _⟩ := hinv
  refine ⟨hn, fun j hj => ?_, hw⟩
  by_cases hjk : j = k
  · subst hjk
    obtain ⟨F, hF, hl⟩ := hr j hj
    exact ⟨F, hF, by simpa using hs1 F hl⟩
  · obtain ⟨F, hF, hl⟩ := hr j hj
    exact ⟨F, hF, by simpa [Function.update_noteq hjk] using hl⟩

/-- Every event keeps the invariant of a run. -/
theorem net_step_inv (net net1 : coll_net α) (ev : net_event)
    (hinv : net_inv handlers n pv post net) (hstep : net_step handlers net ev = some net1) :
    net_inv handlers n pv post net1 := by
  have hn := hinv.1
  have hwire := hinv.2.2
  cases ev with
  | progress j =>
    simp only [net_step] at hstep
    split at hstep
    · rename_i hj
      rw [hn] at hj
      obtain ⟨F, _, hl⟩ := hinv.2.1 j hj
      obtain ⟨ret, mc1, env1, h1, _⟩ := local_progress handlers n pv j F _ hl
      rw [h1] at hstep
      simp only [Option.some.injEq] at hstep
      subst hstep
      refine net_inv_update handlers n pv post net hinv j _ _ (fun F1 hl1 => ?_) hwire
      obtain ⟨ret2, mc2, env2, h3, h4⟩ := local_progress handlers n pv j F1 _ hl1
      rw [h1] at h3
      simp only [Option.some.injEq, Prod.mk.injEq] at h3
      obtain ⟨_, rfl, rfl⟩ := h3
      exact h4
    · simp at hstep
  | pending j =>
    simp only [net_step] at hstep
    split at hstep
    · rename_i hj
      rw [hn] at hj
      obtain ⟨F, _, hl⟩ := hinv.2.1 j hj
      obtain ⟨ret, mc1, done, h1, _, hw⟩ := local_pending handlers n pv j F _ hl
      rw [h1] at hstep
      simp only [Option.some.injEq] at hstep
      subst hstep
      refine net_inv_update handlers n pv post net hinv j _ _ (fun F1 hl1 => ?_) ?_
      · obtain ⟨ret2, mc2, done2, h3, h4, _⟩ := local_pending handlers n pv j F1 _ hl1
        rw [h1] at h3
        simp only [Option.some.injEq, Prod.mk.injEq] at h3
        obtain ⟨_, rfl, rfl⟩ := h3
        exact h4
      · intro m hm
        rcases List.mem_append.1 hm with h | h
        · exact hwire m h
        · exact hw m h
    · simp at hstep
  | send_done j i =>
    simp only [net_step] at hstep
    split at hstep
    · rename_i hj
      rw [hn] at hj
      split at hstep
      · simp at hstep
      · rename_i msg hmsg
        obtain ⟨F, _, hl⟩ := hinv.2.1 j hj
        obtain ⟨mc1, env1, h1, _⟩ := local_send_done handlers n pv j F _ hl i msg hmsg
        rw [h1] at hstep
        simp only [Option.some.injEq] at hstep
        subst hstep
        refine net_inv_update handlers n pv post net hinv j _ _ (fun F1 hl1 => ?_) hwire
        obtain ⟨mc2, env2, h3, h4⟩ := local_send_done handlers n pv j F1 _ hl1 i msg hmsg
        rw [h1] at h3
        simp only [Option.some.injEq, Prod.mk.injEq] at h3
        obtain ⟨rfl, rfl⟩ := h3
        exact h4
    · simp at hstep
  | deliver i j l =>
    simp only [net_step] at hstep
    split at hstep
    · rename_i hj
      rw [hn] at hj
      split at hstep
      · rename_i m q hm hq
        split at hstep
        · rename_i hmatch
          obtain ⟨hdst, hsrc, _⟩ := hmatch
          have hpay : m.payload = pv q.addr j := by
            rw [hwire m (List.mem_iff_getElem?.2 ⟨i, hm⟩), hsrc, hdst]
          obtain ⟨F, _, hl⟩ := hinv.2.1 j hj
          obtain ⟨mc1, env1, h1, _⟩ := local_deliver handlers n pv j F _ hl l q hq _ hpay
          rw [h1] at hstep
          simp only [Option.some.injEq] at hstep
          subst hstep
          refine net_inv_update handlers n pv post net hinv j _ _ (fun F1 hl1 => ?_) ?_
          · obtain ⟨mc2, env2, h3, h4⟩ := local_deliver handlers n pv j F1 _ hl1 l q hq _ hpay
            rw [h1] at h3
            simp only [Option.some.injEq, Prod.mk.injEq] at h3
            obtain ⟨rfl, rfl⟩ := h3
            exact h4
          · intro m1 hm1
            exact hwire m1 (List.mem_of_mem_eraseIdx hm1)
        · simp at hstep
      · simp at hstep
    · simp at hstep

/-- Every run keeps the invariant. -/
theorem net_run_inv (evs : List net_event) :
    ∀ (net net1 : coll_net α), net_inv handlers n pv post net →
      net_run handlers evs net = some net1 → net_inv handlers n pv post net1 := by
  induction evs with
  | nil =>
    intro net net1 hinv hrun
    simp only [net_run, Option.some.injEq] at hrun
    subst hrun
    exact hinv
  | cons ev rest ih =>
    intro net net1 hinv hrun
    simp only [net_run] at hrun
    split at hrun
    · simp at hrun
    · rename_i net2 h2
      exact ih net2 net1 (net_step_inv handlers n pv post net net2 ev hinv h2) hrun

/-- When a run has finished at every rank, the memory of every rank satisfies the
postcondition of its schedule. -/
theorem net_inv_finished (net : coll_net α) (hinv : net_inv handlers n pv post net)
    (hfin : net_finished net) (j : Nat) (hj : j < n) : post j (net.ranks j).env.mem := by
  obtain ⟨F, hF, hl⟩ := hinv.2.1 j hj
  obtain ⟨hD, _, hB⟩ := hfin j (by rw [hinv.1]; exact hj)
  rw [local_ok_finished handlers n pv j F _ hl hD hB]
  exact hF

end engine

/-! ### The schedule `util_coll_allreduce` compiles -/

theorem to_uint32_cast (m : Nat) (h : m < 2 ^ 32) : to_uint32 (m : Int) = m := by
  unfold to_uint32
  omega

theorem to_int_cast (m : Nat) (h : m < 2 ^ 31) : to_int m = (m : Int) := by
  unfold to_int
  rw [Nat.mod_eq_of_lt (by omega), if_pos h]

theorem real_rank_lt (p r n v : Nat) (hn : n = p + r) (hv : v < p) :
    real_rank r v < n := by
  unfold real_rank
  split <;> omega

theorem xor_pow_lt (L i v : Nat) (hi : i < L) (hv : v < 2 ^ L) : v ^^^ 2 ^ i < 2 ^ L :=
  Nat.xor_lt_two_pow hv (Nat.pow_lt_pow_right (by omega) hi)

theorem mc_append_my_rank (mc : util_coll_mc) (l : List work_item) :
    (mc_append mc l).my_rank = mc.my_rank := rfl

theorem mc_append_append (mc : util_coll_mc) (l1 l2 : List work_item) :
    mc_append (mc_append mc l1) l2 = mc_append mc (l1 ++ l2) := by
  simp [mc_append]

theorem sched_recv_eq (mc : util_coll_mc) (src : Nat) (buf : Ptr) (count : Int)
    (datatype coll_id : Nat) (is_barrier : Int) :
    util_coll_sched_recv mc src buf count datatype coll_id is_barrier =
      (0, mc_append mc [.xfer_item ⟨.UTIL_COLL_RECV, util_coll_form_tag coll_id src, is_barrier⟩
        buf count (to_int src) datatype]) := rfl

theorem sched_send_eq (mc : util_coll_mc) (dest : Nat) (buf : Ptr) (count : Int)
    (datatype coll_id : Nat) (is_barrier : Int) :
    util_coll_sched_send mc dest buf count datatype coll_id is_barrier =
      (0, mc_append mc [.xfer_item
        ⟨.UTIL_COLL_SEND, util_coll_form_tag coll_id (to_uint32 mc.my_rank), is_barrier⟩
        buf count (to_int dest) datatype]) := rfl

theorem sched_reduce_eq (mc : util_coll_mc) (in_buf inout_buf : Ptr) (count : Int)
    (datatype op : Nat) (is_barrier : Int) :
    util_coll_sched_reduce mc in_buf inout_buf count datatype op is_barrier =
      (0, mc_append mc [.reduce_item ⟨.UTIL_COLL_REDUCE, 0, is_barrier⟩ in_buf inout_buf count
        datatype op]) := rfl

theorem sched_copy_eq (mc : util_coll_mc) (in_buf out_buf : Ptr) (count : Int)
    (datatype : Nat) (is_barrier : Int) :
    util_coll_sched_copy mc in_buf out_buf count datatype is_barrier =
      (0, mc_append mc [.copy_item ⟨.UTIL_COLL_COPY, 0, is_barrier⟩ in_buf out_buf count
        datatype]) := rfl

/-- The loop of `util_coll_allreduce` appends the items of the remaining rounds. -/
theorem allreduce_loop_closed (send_buf recv_buf : Ptr) (count : Int) (datatype op : Nat)
    (coll_id n k v r L : Nat) (hn : n = 2 ^ L + r) (hr : r < 2 ^ L) (hv : v < 2 ^ L)
    (hn31 : n < 2 ^ 31) (hk : k < n) :
    ∀ j fuel i (mc : util_coll_mc), i + j = L → j ≤ fuel → mc.my_rank = (k : Int) →
      util_coll_allreduce_loop send_buf recv_buf count datatype op coll_id (r : Int)
          ((2 ^ L : Nat) : Int) (v : Int) fuel ((2 ^ i : Nat) : Int) mc =
        some (FI_SUCCESS,
          mc_append mc (rounds_items coll_id send_buf recv_buf count datatype op r k v i j)) := by
  intro j
  induction j with
  | zero =>
    intro fuel i mc hij _ _
    have hi : i = L := by omega
    subst hi
    cases fuel <;> simp [util_coll_allreduce_loop, rounds_items, mc_append]
  | succ j ih =>
    intro fuel i mc hij hfuel hmy
    obtain ⟨fuel, rfl⟩ : ∃ f, fuel = f + 1 := ⟨fuel - 1, by omega⟩
    have hlt : ((2 ^ i : Nat) : Int) < ((2 ^ L : Nat) : Int) := by
      exact_mod_cast Nat.pow_lt_pow_right (by omega) (by omega : i < L)
    have hu : v ^^^ 2 ^ i < 2 ^ L := xor_pow_lt L i v (by omega) hv
    have hd : real_rank r (v ^^^ 2 ^ i) < n := real_rank_lt (2 ^ L) r n _ hn hu
    have hxor : Int.xor (v : Int) ((2 ^ i : Nat) : Int) = ((v ^^^ 2 ^ i : Nat) : Int) := rfl
    have hdest : (if ((v ^^^ 2 ^ i : Nat) : Int) < (r : Int)
        then ((v ^^^ 2 ^ i : Nat) : Int) * 2 + 1 else ((v ^^^ 2 ^ i : Nat) : Int) + (r : Int))
        = ((real_rank r (v ^^^ 2 ^ i) : Nat) : Int) := by
      unfold real_rank
      split_ifs <;> push_cast <;> omega
    have hmask : ((2 ^ i : Nat) : Int) * 2 = ((2 ^ (i + 1) : Nat) : Int) := by
      push_cast
      ring
    unfold util_coll_allreduce_loop
    simp only [hlt, if_true, hxor, hdest, sched_recv_eq, sched_send_eq, sched_reduce_eq,
      sched_copy_eq, ne_eq, not_true_eq_false, if_false, mc_append_my_rank, mc_append_append,
      hmy, hmask]
    rw [to_uint32_cast _ (show real_rank r (v ^^^ 2 ^ i) < 2 ^ 32 by omega),
      to_uint32_cast k (by omega),
      to_int_cast _ (show real_rank r (v ^^^ 2 ^ i) < 2 ^ 31 by omega)]
    by_cases hlt2 : real_rank r (v ^^^ 2 ^ i) < k
    · have hlt3 : ((real_rank r (v ^^^ 2 ^ i) : Nat) : Int) < (k : Int) := by exact_mod_cast hlt2
      simp only [hlt3, if_true]
      rw [ih fuel (i + 1) _ (by omega) (by omega) (by rw [mc_append_my_rank]; exact hmy),
        mc_append_append]
      simp [rounds_items, round_items, hlt2, recv_item, send_item]
    · have hlt3 : ¬ ((real_rank r (v ^^^ 2 ^ i) : Nat) : Int) < (k : Int) := by
        intro h
        exact hlt2 (by exact_mod_cast h)
      simp only [hlt3, if_false]
      rw [ih fuel (i + 1) _ (by omega) (by omega) (by rw [mc_append_my_rank]; exact hmy),
        mc_append_append]
      simp [rounds_items, round_items, hlt2, recv_item, send_item]

theorem next_id_av_set (mc : util_coll_mc) :
    (util_coll_get_next_id mc).2.av_set = mc.av_set := rfl

theorem next_id_my_rank (mc : util_coll_mc) :
    (util_coll_get_next_id mc).2.my_rank = mc.my_rank := rfl

theorem next_id_deferred (mc : util_coll_mc) :
    (util_coll_get_next_id mc).2.deferred_list = mc.deferred_list := rfl

theorem pof2_below_eq : ∀ fuel n, n ≤ fuel → pof2_below fuel n = 2 ^ Nat.log2 n := by
  intro fuel
  induction fuel with
  | zero =>
    intro n hn
    have h0 : n = 0 := by omega
    subst h0
    rw [Nat.log2]
    simp [pof2_below]
  | succ fuel ih =>
    intro n hn
    rw [Nat.log2]
    unfold pof2_below
    by_cases h : n < 2
    · simp [h, show ¬ n ≥ 2 by omega]
    · simp only [h, if_false, show n ≥ 2 by omega, if_true]
      rw [ih (n / 2) (by omega), pow_succ, Nat.mul_comm]

theorem rounddown_eq (n : Nat) : rounddown_power_of_two n = 2 ^ Nat.log2 n :=
  pof2_below_eq n n (le_refl _)

/-- The schedule `util_coll_allreduce` compiles at rank `k` of a group of `n`: it returns
success and appends `allreduce_items` to the deferred list. -/
theorem allreduce_closed (mc : util_coll_mc) (send_buf recv_buf : Ptr) (count : Int)
    (datatype op n k : Nat) (hn1 : 1 ≤ n) (hn31 : n < 2 ^ 31) (hk : k < n)
    (hcount : mc.av_set.fi_addr_count = n) (hmy : mc.my_rank = (k : Int)) :
    util_coll_allreduce mc send_buf recv_buf count datatype op =
      some (FI_SUCCESS, mc_append (util_coll_get_next_id mc).2
        (allreduce_items (util_coll_get_next_id mc).1 send_buf recv_buf count datatype op n k)) := by
  have hple : 2 ^ Nat.log2 n ≤ n := Nat.log2_self_le (by omega)
  have hnlt : n < 2 ^ (Nat.log2 n + 1) := Nat.lt_log2_self
  rw [pow_succ] at hnlt
  have hnr : n = 2 ^ Nat.log2 n + (n - 2 ^ Nat.log2 n) := by omega
  have hr : n - 2 ^ Nat.log2 n < 2 ^ Nat.log2 n := by omega
  have hrem : ((n : Nat) : Int) - ((2 ^ Nat.log2 n : Nat) : Int)
      = ((n - 2 ^ Nat.log2 n : Nat) : Int) := by omega
  have hfuel : Nat.log2 n ≤ (((2 ^ Nat.log2 n : Nat) : Int)).toNat := by
    have := Nat.lt_two_pow (Nat.log2 n)
    omega
  have hmy0 : (util_coll_get_next_id mc).2.my_rank = (k : Int) := hmy
  unfold util_coll_allreduce
  simp only [next_id_av_set, next_id_my_rank, hcount, hmy, rounddown_eq, hrem]
  by_cases hlow : k < 2 * (n - 2 ^ Nat.log2 n)
  · have hlow1 : (k : Int) < 2 * ((n - 2 ^ Nat.log2 n : Nat) : Int) := by exact_mod_cast hlow
    have hmod : Int.tmod (k : Int) 2 = ((k % 2 : Nat) : Int) := (Int.ofNat_tmod k 2).symm
    by_cases hev : k % 2 = 0
    · have hev1 : Int.tmod (k : Int) 2 = 0 := by
        rw [hmod, hev]
        rfl
      simp only [hlow1, if_true, hev1, sched_send_eq, sched_recv_eq, ne_eq, not_true_eq_false,
        if_false, util_coll_allreduce_tail, mc_append_my_rank, hmy0, mc_append_append]
      rw [show ((k : Int) + 1) = ((k + 1 : Nat) : Int) by push_cast; rfl,
        to_uint32_cast _ (show k + 1 < 2 ^ 32 by omega), to_uint32_cast k (by omega),
        to_int_cast _ (show k + 1 < 2 ^ 31 by omega)]
      simp [allreduce_items, hlow, hev, send_item, recv_item, FI_SUCCESS]
    · have hev1 : ¬ Int.tmod (k : Int) 2 = 0 := by
        rw [hmod]
        intro h
        exact hev (by exact_mod_cast h)
      have hk1 : ((k : Int) - 1) = ((k - 1 : Nat) : Int) := by omega
      have hv : k / 2 < 2 ^ Nat.log2 n := by omega
      have hdiv : Int.tdiv (k : Int) 2 = ((k / 2 : Nat) : Int) := (Int.ofNat_tdiv k 2).symm
      have hne : ¬ ((k / 2 : Nat) : Int) = -1 := by omega
      have hloop := allreduce_loop_closed send_buf recv_buf count datatype op
        (util_coll_get_next_id mc).1 n k (k / 2) (n - 2 ^ Nat.log2 n) (Nat.log2 n) hnr hr hv hn31
        hk (Nat.log2 n) (((2 ^ Nat.log2 n : Nat) : Int)).toNat 0
      simp only [pow_zero, Nat.cast_one] at hloop
      simp only [hlow1, if_true, hev1, if_false, sched_send_eq, sched_recv_eq, sched_reduce_eq,
        ne_eq, not_true_eq_false, util_coll_allreduce_tail, mc_append_my_rank, hmy0,
        mc_append_append, hdiv, hne, not_false_eq_true, hk1]
      rw [hloop _ (by omega) hfuel (by rw [mc_append_my_rank]; exact hmy0)]
      simp only [mc_append_my_rank, hmy0, hlow1, if_true, hev1, not_false_eq_true,
        mc_append_append, ne_eq, not_true_eq_false, if_false, hk1]
      rw [to_uint32_cast _ (show k - 1 < 2 ^ 32 by omega), to_uint32_cast k (by omega),
        to_int_cast _ (show k - 1 < 2 ^ 31 by omega)]
      simp [allreduce_items, hlow, hev, send_item, recv_item, FI_SUCCESS]
  · have hlow1 : ¬ (k : Int) < 2 * ((n - 2 ^ Nat.log2 n : Nat) : Int) := by
      intro h
      exact hlow (by exact_mod_cast h)
    have hv : k - (n - 2 ^ Nat.log2 n) < 2 ^ Nat.log2 n := by omega
    have hsub : (k : Int) - ((n - 2 ^ Nat.log2 n : Nat) : Int)
        = ((k - (n - 2 ^ Nat.log2 n) : Nat) : Int) := by omega
    have hne : ¬ ((k - (n - 2 ^ Nat.log2 n) : Nat) : Int) = -1 := by omega
    have hloop := allreduce_loop_closed send_buf recv_buf count datatype op
      (util_coll_get_next_id mc).1 n k (k - (n - 2 ^ Nat.log2 n)) (n - 2 ^ Nat.log2 n)
      (Nat.log2 n) hnr hr hv hn31 hk (Nat.log2 n) (((2 ^ Nat.log2 n : Nat) : Int)).toNat 0
    simp only [pow_zero, Nat.cast_one] at hloop
    simp only [hlow1, if_false, ne_eq, not_true_eq_false, hsub, hne, not_false_eq_true, if_true,
      FI_SUCCESS]
    rw [hloop _ (by omega) hfuel hmy0]
    simp [util_coll_allreduce_tail, mc_append_my_rank, hmy0, hlow1, allreduce_items, hlow,
      FI_SUCCESS]

/-! ### The values of the exchange rounds -/

theorem xor_div_two_pow (a b : Nat) : ∀ i, (a ^^^ b) / 2 ^ i = a / 2 ^ i ^^^ b / 2 ^ i := by
  intro i
  induction i with
  | zero => simp
  | succ i ih =>
    rw [pow_succ, ← Nat.div_div_eq_div_mul, ← Nat.div_div_eq_div_mul, ← Nat.div_div_eq_div_mul,
      ih, Nat.xor_div_two]

theorem xor_one_div (a : Nat) : (a ^^^ 1) / 2 = a / 2 := by
  rw [Nat.xor_div_two]
  simp

theorem xor_one_mod (a : Nat) : (a ^^^ 1) % 2 = (a + 1) % 2 := Nat.xor_mod_two_eq

theorem xor_pow_div (v i : Nat) : (v ^^^ 2 ^ i) / 2 ^ i = (v / 2 ^ i) ^^^ 1 := by
  rw [xor_div_two_pow, Nat.div_self (Nat.two_pow_pos i)]

/-- The block of a virtual rank after one more round is the disjoint union of its block
and the block of its partner. -/
theorem block_succ (n r i v : Nat) :
    block n r (i + 1) v = block n r i v ∪ block n r i (v ^^^ 2 ^ i) ∧
      Disjoint (block n r i v) (block n r i (v ^^^ 2 ^ i)) := by
  have h1 := xor_one_div (v / 2 ^ i)
  have h2 := xor_one_mod (v / 2 ^ i)
  have h3 := xor_pow_div v i
  constructor
  · ext w
    simp only [block, Finset.mem_filter, Finset.mem_range, Finset.mem_union]
    rw [pow_succ, ← Nat.div_div_eq_div_mul, ← Nat.div_div_eq_div_mul, h3]
    generalize vrank r w / 2 ^ i = b at *
    generalize v / 2 ^ i = a at *
    generalize a ^^^ 1 = c at *
    omega
  · rw [Finset.disjoint_left]
    intro w hw1 hw2
    simp only [block, Finset.mem_filter, Finset.mem_range] at hw1 hw2
    rw [h3] at hw2
    have := hw1.2
    have := hw2.2
    generalize vrank r w / 2 ^ i = b at *
    generalize v / 2 ^ i = a at *
    generalize a ^^^ 1 = c at *
    omega

theorem block_zero_low (n r v : Nat) (hv : v < r) (hn : 2 * r ≤ n) :
    block n r 0 v = insert (2 * v) {2 * v + 1} := by
  ext w
  simp only [block, pow_zero, Nat.div_one, Finset.mem_filter, Finset.mem_range, vrank,
    Finset.mem_insert, Finset.mem_singleton]
  split <;> omega

theorem block_zero_high (n r v : Nat) (hv : r ≤ v) (hn : v + r < n) :
    block n r 0 v = {v + r} := by
  ext w
  simp only [block, pow_zero, Nat.div_one, Finset.mem_filter, Finset.mem_range, vrank,
    Finset.mem_singleton]
  split <;> omega

theorem block_top (n r L v : Nat) (hn : n = 2 ^ L + r) (hr : r < 2 ^ L) (hv : v < 2 ^ L) :
    block n r L v = Finset.range n := by
  ext w
  simp only [block, Finset.mem_filter, Finset.mem_range, and_iff_left_iff_imp]
  intro hw
  have hlt : vrank r w < 2 ^ L := by
    unfold vrank
    split <;> omega
  rw [Nat.div_eq_of_lt hlt, Nat.div_eq_of_lt hv]

section values

variable {α : Type} (f : α → α → α) [hc : Std.Commutative f] [ha : Std.Associative f]
  (x : Nat → α)

theorem fold_ranks_union (s t : Finset Nat) (h : Disjoint s t) :
    fold_ranks f x (s ∪ t) = Option.liftOrGet f (fold_ranks f x s) (fold_ranks f x t) := by
  have h1 := @Finset.fold_union_inter Nat (Option α) (Option.liftOrGet f) _ _
    (fun k => some (x k)) _ s t none none
  rw [Finset.disjoint_iff_inter_eq_empty.1 h, Finset.fold_empty] at h1
  unfold fold_ranks
  rw [← h1]
  cases Finset.fold (Option.liftOrGet f) none (fun k => some (x k)) (s ∪ t) <;> rfl

theorem fold_ranks_singleton (a : Nat) : fold_ranks f x {a} = some (x a) := by
  unfold fold_ranks
  rw [Finset.fold_singleton]
  rfl

theorem fold_ranks_insert (a : Nat) (s : Finset Nat) (h : a ∉ s) :
    fold_ranks f x (insert a s) = Option.liftOrGet f (some (x a)) (fold_ranks f x s) := by
  unfold fold_ranks
  rw [Finset.fold_insert h]

/-- After `i` rounds the send buffer of a virtual rank holds the reduction of the inputs
of its block. -/
theorem fold_ranks_block (n r L : Nat) (hn : n = 2 ^ L + r) (hr : r < 2 ^ L) :
    ∀ i, i ≤ L → ∀ v, v < 2 ^ L → fold_ranks f x (block n r i v) = some (sval f x r i v) := by
  intro i
  induction i with
  | zero =>
    intro _ v hv
    by_cases hlow : v < r
    · rw [block_zero_low n r v hlow (by omega), fold_ranks_insert f x _ _ (by simp),
        fold_ranks_singleton]
      simp only [sval, virt_input, hlow, if_true, Option.liftOrGet]
      rw [hc.comm]
    · rw [block_zero_high n r v (by omega) (by omega), fold_ranks_singleton]
      simp only [sval, virt_input, hlow, if_false]
  | succ i ih =>
    intro hi v hv
    obtain ⟨h1, h2⟩ := block_succ n r i v
    have hu : v ^^^ 2 ^ i < 2 ^ L := xor_pow_lt L i v (by omega) hv
    rw [h1, fold_ranks_union f x _ _ h2, ih (by omega) v hv, ih (by omega) _ hu]
    simp only [sval, Option.liftOrGet]
    split
    · rfl
    · rw [hc.comm]

/-- The reduction over all ranks is `reduce_all`. -/
theorem fold_ranks_range : ∀ n, 1 ≤ n →
    fold_ranks f x (Finset.range n) = some (reduce_all f x n) := by
  intro n
  induction n with
  | zero => intro h; omega
  | succ m ih =>
    intro _
    rw [Finset.range_succ, fold_ranks_insert f x _ _ (by simp)]
    by_cases hm : m = 0
    · subst hm
      simp [fold_ranks, reduce_all, Option.liftOrGet]
    · rw [ih (by omega)]
      obtain ⟨m1, rfl⟩ : ∃ m1, m = m1 + 1 := ⟨m - 1, by omega⟩
      simp only [Option.liftOrGet, reduce_all, Nat.add_sub_cancel, List.range_succ,
        List.foldl_append, List.foldl_cons, List.foldl_nil]
      rw [hc.comm]

/-- After the last round the send buffer of every virtual rank holds the reduction of
all inputs. -/
theorem sval_top (n r L : Nat) (hn : n = 2 ^ L + r) (hr : r < 2 ^ L) (v : Nat)
    (hv : v < 2 ^ L) : sval f x r L v = reduce_all f x n := by
  have h1 := fold_ranks_block f x n r L hn hr L (le_refl _) v hv
  rw [block_top n r L v hn hr hv, fold_ranks_range f x n (by
    have := Nat.two_pow_pos L
    omega)] at h1
  exact (Option.some.inj h1).symm

end values

/-! ### The all-reduce schedule is shaped -/

theorem form_tag_mod (coll_id rank : Nat) :
    util_coll_form_tag coll_id rank = util_coll_form_tag (coll_id % 2 ^ 32) rank := by
  unfold util_coll_form_tag
  simp only [Nat.mod_mod]

/-- Different ranks give different tags. -/
theorem form_tag_ne (coll_id a b : Nat) (ha : a < 2 ^ 31) (hb : b < 2 ^ 31) (hab : a ≠ b) :
    util_coll_form_tag coll_id a ≠ util_coll_form_tag coll_id b := by
  rw [form_tag_mod coll_id a, form_tag_mod coll_id b,
    form_tag_eq _ a (Nat.mod_lt _ (by omega)) ha, form_tag_eq _ b (Nat.mod_lt _ (by omega)) hb]
  omega

theorem vrank_real (r v : Nat) : vrank r (real_rank r v) = v := by
  unfold vrank real_rank
  split <;> split <;> omega

theorem xor_pow_ne (v i : Nat) : v ^^^ 2 ^ i ≠ v := by
  intro h
  have h1 : v ^^^ (v ^^^ 2 ^ i) = v ^^^ v := by rw [h]
  rw [Nat.xor_cancel_left, Nat.xor_self] at h1
  have := Nat.two_pow_pos i
  omega

theorem real_rank_ne (r u v : Nat) (h : u ≠ v) : real_rank r u ≠ real_rank r v := by
  unfold real_rank
  split <;> split <;> omega

section shaped_allreduce

variable {α : Type} (f : α → α → α) (x : Nat → α)

/-- The payloads of an exchange round, in both directions. -/
theorem payload_round (n r L v i : Nat) (hL : L = Nat.log2 n) (hr : r = n - 2 ^ L) :
    payload_of f x n (real_rank r v) (real_rank r (v ^^^ 2 ^ i)) = sval f x r i v ∧
      payload_of f x n (real_rank r (v ^^^ 2 ^ i)) (real_rank r v)
        = sval f x r i (v ^^^ 2 ^ i) := by
  subst hL
  subst hr
  have hne := xor_pow_ne v i
  have h1 : v ^^^ (v ^^^ 2 ^ i) = 2 ^ i := Nat.xor_cancel_left _ _
  have h2 : (v ^^^ 2 ^ i) ^^^ v = 2 ^ i := by rw [Nat.xor_comm, h1]
  constructor
  · unfold payload_of
    rw [if_neg, if_neg, vrank_real, vrank_real, h1, Nat.log2_two_pow]
    · unfold real_rank
      split <;> split <;> omega
    · unfold real_rank
      split <;> omega
  · unfold payload_of
    rw [if_neg, if_neg, vrank_real, vrank_real, h2, Nat.log2_two_pow]
    · unfold real_rank
      split <;> split <;> omega
    · unfold real_rank
      split <;> omega

variable (handlers : Nat → Nat → Int → α → α → α)

theorem shaped_append_one (n k : Nat) (pv : Nat → Nat → α) :
    ∀ (l1 l2 : List work_item) (M M1 F : Ptr → α), shaped handlers n pv k M l1 M1 →
      shaped handlers n pv k M1 l2 F → shaped handlers n pv k M (l1 ++ l2) F := by
  intro l1 l2 M M1 F h1 h2
  induction h1 with
  | nil M => exact h2
  | reduce hdr in_buf inout_buf count datatype op a1 a2 a3 a4 _ ih =>
    exact shaped.reduce hdr in_buf inout_buf count datatype op a1 a2 a3 a4 (ih h2)
  | copy hdr in_buf out_buf count datatype a1 a2 _ ih =>
    exact shaped.copy hdr in_buf out_buf count datatype a1 a2 (ih h2)
  | send tag is_barrier buf count dest datatype a1 a2 a3 _ ih =>
    exact shaped.send tag is_barrier buf count dest datatype a1 a2 a3 (ih h2)
  | recv tag is_barrier buf count src datatype a1 a2 _ ih =>
    exact shaped.recv tag is_barrier buf count src datatype a1 a2 (ih h2)
  | pair rtag rbuf rcount src rdatatype stag is_barrier sbuf scount dest sdatatype a1 a2 a3 a4
      a5 _ ih =>
    exact shaped.pair rtag rbuf rcount src rdatatype stag is_barrier sbuf scount dest sdatatype
      a1 a2 a3 a4 a5 (ih h2)

/-- The exchange rounds from round `i` on are shaped, and leave in `send_buf` the value
of the last round (and in `recv_buf` too when the partner of the last round had the
higher rank). -/
theorem rounds_shaped (coll_id : Nat) (send_buf recv_buf : Ptr) (count : Int)
    (datatype op n r L v : Nat) (hf : f = handlers op datatype count)
    (hop1 : FI_MIN ≤ op) (hop2 : op ≤ FI_BXOR) (hSR : send_buf ≠ recv_buf)
    (hL : L = Nat.log2 n) (hr : r = n - 2 ^ L) (hn1 : 1 ≤ n) (hn31 : n < 2 ^ 31)
    (hv : v < 2 ^ L) :
    ∀ j i (M : Ptr → α), i + j = L → M send_buf = sval f x r i v →
      (1 ≤ i → real_rank r v < real_rank r (v ^^^ 2 ^ (i - 1)) →
        M recv_buf = sval f x r i v) →
      ∃ M1, M1 send_buf = sval f x r L v ∧
        (1 ≤ L → real_rank r v < real_rank r (v ^^^ 2 ^ (L - 1)) →
          M1 recv_buf = sval f x r L v) ∧
        shaped handlers n (payload_of f x n) (real_rank r v) M
          (rounds_items coll_id send_buf recv_buf count datatype op r (real_rank r v) v i j) M1 := by
  have hple : 2 ^ Nat.log2 n ≤ n := Nat.log2_self_le (by omega)
  have hnr : n = 2 ^ L + r := by subst hL; omega
  intro j
  induction j with
  | zero =>
    intro i M hij hS hR
    have hi : i = L := by omega
    subst hi
    exact ⟨M, hS, hR, shaped.nil M⟩
  | succ j ih =>
    intro i M hij hS hR
    have hu : v ^^^ 2 ^ i < 2 ^ L := xor_pow_lt L i v (by omega) hv
    have hd : real_rank r (v ^^^ 2 ^ i) < n := real_rank_lt (2 ^ L) r n _ hnr hu
    have hkn : real_rank r v < n := real_rank_lt (2 ^ L) r n _ hnr hv
    have hne : real_rank r (v ^^^ 2 ^ i) ≠ real_rank r v := real_rank_ne r _ _ (xor_pow_ne v i)
    obtain ⟨hp1, hp2⟩ := payload_round f x n r L v i hL hr
    have htag : util_coll_form_tag coll_id (real_rank r (v ^^^ 2 ^ i)) ≠
        util_coll_form_tag coll_id (real_rank r v) :=
      form_tag_ne coll_id _ _ (by omega) (by omega) hne
    by_cases hlt : real_rank r (v ^^^ 2 ^ i) < real_rank r v
    · obtain ⟨M1, h1, h2, h3⟩ := ih (i + 1)
        (Function.update (Function.update M recv_buf (sval f x r i (v ^^^ 2 ^ i))) send_buf
          (f (sval f x r i v) (sval f x r i (v ^^^ 2 ^ i))))
        (by omega) (by simp [sval, hlt]) (by
          intro _ h
          simp only [Nat.add_sub_cancel] at h
          omega)
      refine ⟨M1, h1, h2, ?_⟩
      simp only [rounds_items, round_items, hlt, if_true, List.cons_append, List.nil_append]
      refine shaped.pair _ _ _ _ _ _ _ _ _ _ _ htag (by simp [BARRIER]) hd hd (by rw [hS, hp1]) ?_
      rw [hp2]
      refine shaped.reduce _ _ _ _ _ _ rfl (by simp [BARRIER]) hop1 hop2 ?_
      rw [← hf]
      simpa [Function.update_noteq hSR, hS] using h3
    · obtain ⟨M1, h1, h2, h3⟩ := ih (i + 1)
        (Function.update (Function.update (Function.update M recv_buf
            (sval f x r i (v ^^^ 2 ^ i))) recv_buf
            (f (sval f x r i (v ^^^ 2 ^ i)) (sval f x r i v))) send_buf
          (f (sval f x r i (v ^^^ 2 ^ i)) (sval f x r i v)))
        (by omega) (by simp [sval, hlt]) (by
          intro _ _
          simp [sval, hlt, Function.update_noteq hSR.symm])
      refine ⟨M1, h1, h2, ?_⟩
      simp only [rounds_items, round_items, hlt, if_false, List.cons_append, List.nil_append]
      refine shaped.pair _ _ _ _ _ _ _ _ _ _ _ htag (by simp [BARRIER]) hd hd (by rw [hS, hp1]) ?_
      rw [hp2]
      refine shaped.reduce _ _ _ _ _ _ rfl (by simp [BARRIER]) hop1 hop2 ?_
      rw [← hf]
      refine shaped.copy _ _ _ _ _ rfl (by simp [BARRIER]) ?_
      simpa [Function.update_noteq hSR, hS] using h3

/-- The schedule of one all-reduce at rank `k` is shaped with respect to the payloads
`payload_of`; it leaves the reduction of all inputs in `send_buf`, and in `recv_buf` when
`recv_holds_result n k`. -/
theorem allreduce_items_shaped [hc : Std.Commutative f] [ha : Std.Associative f]
    (coll_id : Nat) (send_buf recv_buf : Ptr) (count : Int)
    (datatype op n k : Nat) (hf : f = handlers op datatype count)
    (hop1 : FI_MIN ≤ op) (hop2 : op ≤ FI_BXOR) (hSR : send_buf ≠ recv_buf)
    (hn1 : 1 ≤ n) (hn31 : n < 2 ^ 31) (hk : k < n) (M0 : Ptr → α)
    (hM0 : M0 send_buf = x k) :
    ∃ F, shaped handlers n (payload_of f x n) k M0
        (allreduce_items coll_id send_buf recv_buf count datatype op n k) F ∧
      F send_buf = reduce_all f x n ∧
      (recv_holds_result n k → F recv_buf = reduce_all f x n) := by
  have hple : 2 ^ Nat.log2 n ≤ n := Nat.log2_self_le (by omega)
  have hnlt : n < 2 ^ (Nat.log2 n + 1) := Nat.lt_log2_self
  rw [pow_succ] at hnlt
  have hnr : n = 2 ^ Nat.log2 n + (n - 2 ^ Nat.log2 n) := by omega
  have hr : n - 2 ^ Nat.log2 n < 2 ^ Nat.log2 n := by omega
  have htop := fun v hv => sval_top f x n (n - 2 ^ Nat.log2 n) (Nat.log2 n) hnr hr v hv
  by_cases hlow : k < 2 * (n - 2 ^ Nat.log2 n)
  · by_cases hev : k % 2 = 0
    · have hp1 : payload_of f x n k (k + 1) = x k := by
        unfold payload_of
        rw [if_pos ⟨hlow, hev⟩]
      have hp2 : payload_of f x n (k + 1) k = reduce_all f x n := by
        unfold payload_of
        rw [if_neg (by omega), if_pos ⟨by omega, rfl⟩]
        exact htop _ (by omega)
      refine ⟨Function.update M0 send_buf (reduce_all f x n), ?_, by simp, ?_⟩
      · simp only [allreduce_items, hlow, if_true, hev]
        refine shaped.send _ _ _ _ _ _ (by simp [BARRIER]) (by omega) (by rw [hM0, hp1]) ?_
        refine shaped.recv _ _ _ _ _ _ (by simp [BARRIER]) (by omega) ?_
        rw [hp2]
        exact shaped.nil _
      · intro h
        have := h.1
        omega
    · have hkv : real_rank (n - 2 ^ Nat.log2 n) (k / 2) = k := by
        unfold real_rank
        rw [if_pos (by omega)]
        omega
      have hvk : vrank (n - 2 ^ Nat.log2 n) k = k / 2 := by
        unfold vrank
        rw [if_pos hlow]
      have hp1 : payload_of f x n (k - 1) k = x (k - 1) := by
        unfold payload_of
        rw [if_pos ⟨by omega, by omega⟩]
      have hp2 : payload_of f x n k (k - 1) = reduce_all f x n := by
        unfold payload_of
        rw [if_neg (by omega), if_pos ⟨by omega, by omega⟩]
        exact htop _ (by omega)
      have hs0 : f (x k) (x (k - 1)) = sval f x (n - 2 ^ Nat.log2 n) 0 (k / 2) := by
        simp only [sval, virt_input]
        rw [if_pos (by omega), show 2 * (k / 2) + 1 = k by omega,
          show 2 * (k / 2) = k - 1 by omega]
      obtain ⟨M1, h1, h2, h3⟩ := rounds_shaped f x handlers coll_id send_buf recv_buf count
        datatype op n (n - 2 ^ Nat.log2 n) (Nat.log2 n) (k / 2) hf hop1 hop2 hSR rfl rfl hn1 hn31
        (by omega) (Nat.log2 n) 0
        (Function.update (Function.update M0 recv_buf (x (k - 1))) send_buf
          (f (x k) (x (k - 1))))
        (by omega) (by simp [hs0]) (by intro h; omega)
      rw [hkv] at h2 h3
      refine ⟨M1, ?_, ?_, ?_⟩
      · simp only [allreduce_items, hlow, if_true, hev, if_false, List.cons_append,
          List.nil_append]
        refine shaped.recv _ _ _ _ _ _ (by simp [BARRIER]) (by omega) ?_
        rw [hp1]
        refine shaped.reduce _ _ _ _ _ _ rfl (by simp [BARRIER]) hop1 hop2 ?_
        rw [← hf]
        refine shaped_append_one handlers n k _ _ _ _ M1 _ ?_ ?_
        · simpa [Function.update_noteq hSR, hM0] using h3
        · refine shaped.send _ _ _ _ _ _ (by simp [BARRIER]) (by omega) ?_ (shaped.nil _)
          rw [h1, hp2]
          exact htop _ (by omega)
      · rw [h1]
        exact htop _ (by omega)
      · intro h
        obtain ⟨_, hL1, hlt⟩ := h
        rw [hvk] at hlt
        rw [h2 hL1 hlt]
        exact htop _ (by omega)
  · have hkv : real_rank (n - 2 ^ Nat.log2 n) (k - (n - 2 ^ Nat.log2 n)) = k := by
      unfold real_rank
      rw [if_neg (by omega)]
      omega
    have hvk : vrank (n - 2 ^ Nat.log2 n) k = k - (n - 2 ^ Nat.log2 n) := by
      unfold vrank
      rw [if_neg hlow]
    have hs0 : x k = sval f x (n - 2 ^ Nat.log2 n) 0 (k - (n - 2 ^ Nat.log2 n)) := by
      simp only [sval, virt_input]
      rw [if_neg (by omega), show k - (n - 2 ^ Nat.log2 n) + (n - 2 ^ Nat.log2 n) = k by omega]
    obtain ⟨M1, h1, h2, h3⟩ := rounds_shaped f x handlers coll_id send_buf recv_buf count
      datatype op n (n - 2 ^ Nat.log2 n) (Nat.log2 n) (k - (n - 2 ^ Nat.log2 n)) hf hop1 hop2
      hSR rfl rfl hn1 hn31 (by omega) (Nat.log2 n) 0 M0 (by omega) (by rw [hM0, hs0])
      (by intro h; omega)
    rw [hkv] at h2 h3
    refine ⟨M1, ?_, ?_, ?_⟩
    · simp only [allreduce_items, hlow, if_false]
      exact h3
    · rw [h1]
      exact htop _ (by omega)
    · intro h
      obtain ⟨_, hL1, hlt⟩ := h
      rw [hvk] at hlt
      rw [h2 hL1 hlt]
      exact htop _ (by omega)

end shaped_allreduce

/-! ### One all-reduce over the whole group -/

section allreduce_run

variable {α : Type} (handlers : Nat → Nat → Int → α → α → α)

/-- The group in which every rank has compiled the all-reduce satisfies the invariant of
a run, for the payloads `payload_of` and the final memories that hold the reduction. -/
theorem allreduce_net_inv (n cid seq : Nat) (send_buf recv_buf : Ptr) (count : Int)
    (datatype op : Nat) (mem0 : Nat → Ptr → α) (hn1 : 1 ≤ n) (hn31 : n < 2 ^ 31)
    (hSR : send_buf ≠ recv_buf) (hop1 : FI_MIN ≤ op) (hop2 : op ≤ FI_BXOR)
    (hassoc : ∀ a b c, handlers op datatype count (handlers op datatype count a b) c
      = handlers op datatype count a (handlers op datatype count b c))
    (hcomm : ∀ a b, handlers op datatype count a b = handlers op datatype count b a)
    (net0 : coll_net α)
    (h0 : allreduce_net n cid seq send_buf recv_buf count datatype op mem0 = some net0) :
    net_inv handlers n
      (payload_of (handlers op datatype count) (fun j => mem0 j send_buf) n)
      (fun k F => F send_buf
          = reduce_all (handlers op datatype count) (fun j => mem0 j send_buf) n ∧
        (recv_holds_result n k → F recv_buf
          = reduce_all (handlers op datatype count) (fun j => mem0 j send_buf) n))
      net0 := by
  haveI hc : Std.Commutative (handlers op datatype count) := ⟨hcomm⟩
  haveI ha : Std.Associative (handlers op datatype count) := ⟨hassoc⟩
  have hrank : ∀ k, k < n →
      allreduce_rank n cid seq send_buf recv_buf count datatype op (mem0 k) k =
        some ⟨mc_append
          (util_coll_get_next_id ⟨⟨0, List.range n, n⟩, [], [], [], (k : Int), cid, seq⟩).2
          (allreduce_items
            (util_coll_get_next_id ⟨⟨0, List.range n, n⟩, [], [], [], (k : Int), cid, seq⟩).1
            send_buf recv_buf count datatype op n k), ⟨mem0 k, []⟩, [], []⟩ := by
    intro k hk
    unfold allreduce_rank
    simp only []
    rw [allreduce_closed _ send_buf recv_buf count datatype op n k hn1 hn31 hk rfl rfl]
    simp [FI_SUCCESS]
  unfold allreduce_net at h0
  split at h0
  · simp only [Option.some.injEq] at h0
    subst h0
    refine ⟨rfl, fun k hk => ?_, by simp⟩
    obtain ⟨F, h1, h2, h3⟩ := allreduce_items_shaped (handlers op datatype count)
      (fun j => mem0 j send_buf) handlers
      (util_coll_get_next_id ⟨⟨0, List.range n, n⟩, [], [], [], (k : Int), cid, seq⟩).1
      send_buf recv_buf count datatype op n k rfl hop1 hop2 hSR hn1 hn31 hk (mem0 k) rfl
    refine ⟨F, ⟨h2, h3⟩, ?_⟩
    simp only [hrank k hk]
    exact local_ok.idle _ rfl rfl rfl rfl rfl (by simpa [mc_append, next_id_deferred] using h1)
  · simp at h0

/-- When one all-reduce has finished at every rank, every rank's `send_buf` holds the
reduction of all inputs, and so does the `recv_buf` of every rank whose last Reduce
stored into it. -/
theorem allreduce_result (n cid seq : Nat) (send_buf recv_buf : Ptr) (count : Int)
    (datatype op : Nat) (mem0 : Nat → Ptr → α) (hn1 : 1 ≤ n) (hn31 : n < 2 ^ 31)
    (hSR : send_buf ≠ recv_buf) (hop1 : FI_MIN ≤ op) (hop2 : op ≤ FI_BXOR)
    (hassoc : ∀ a b c, handlers op datatype count (handlers op datatype count a b) c
      = handlers op datatype count a (handlers op datatype count b c))
    (hcomm : ∀ a b, handlers op datatype count a b = handlers op datatype count b a)
    (net0 net : coll_net α) (evs : List net_event)
    (h0 : allreduce_net n cid seq send_buf recv_buf count datatype op mem0 = some net0)
    (hrun : net_run handlers evs net0 = some net) (hfin : net_finished net)
    (k : Nat) (hk : k < n) :
    (net.ranks k).env.mem send_buf
        = reduce_all (handlers op datatype count) (fun j => mem0 j send_buf) n ∧
      (recv_holds_result n k → (net.ranks k).env.mem recv_buf
        = reduce_all (handlers op datatype count) (fun j => mem0 j send_buf) n) :=
  net_inv_finished handlers n _ _ net
    (net_run_inv handlers n _ _ evs net0 net
      (allreduce_net_inv handlers n cid seq send_buf recv_buf count datatype op mem0 hn1 hn31
        hSR hop1 hop2 hassoc hcomm net0 h0) hrun) hfin k hk

end allreduce_run

/-! ### The claim about the receive buffer -/

set_option maxRecDepth 100000 in
theorem example_net_some :
    (allreduce_net 4 1 0 100 200 1 FI_INT32 FI_SUM example_mem).isSome = true := by
  decide

set_option maxRecDepth 100000 in
theorem example_run_some :
    (net_run sum_handlers example_events
      ((allreduce_net 4 1 0 100 200 1 FI_INT32 FI_SUM example_mem).get example_net_some)).isSome
      = true := by
  decide

theorem log2_four : Nat.log2 4 = 2 := by
  rw [show (4 : Nat) = 2 ^ 2 by rfl, Nat.log2_two_pow]

theorem recv_holds_result_four_zero : recv_holds_result 4 0 := by
  unfold recv_holds_result
  rw [log2_four]
  decide

set_option maxRecDepth 100000 in
/-- C1, as the claim states it, fails: in the spec's example (op SUM, inputs 1, 2, 3, 4
on four ranks, distinct buffers) the run `example_events` finishes at every rank, the
reduction of the inputs is 10, and the receive buffer of rank 3 holds 3 (its send
buffer holds 10). -/
theorem C1_recv_buf_of_rank_three :
    ∃ net0 net, allreduce_net 4 1 0 100 200 1 FI_INT32 FI_SUM example_mem = some net0 ∧
      net_run sum_handlers example_events net0 = some net ∧ net_finished net ∧
      reduce_all (sum_handlers FI_SUM FI_INT32 1) (fun j => example_mem j 100) 4 = 10 ∧
      (net.ranks 3).env.mem 200 = 3 ∧ (net.ranks 3).env.mem 100 = 10 :=
  ⟨_, _, (Option.some_get example_net_some).symm, (Option.some_get example_run_some).symm,
    by decide, by decide, by decide, by decide⟩

/-- C1, amended: for every group of `1 ≤ n < 2 ^ 31` ranks that all compile one
all-reduce with a supported op whose handler is associative and commutative and with
distinct send and receive buffers, in every run of the engine over the transport, once
the schedule has finished at every rank the receive buffer holds the reduction of all
ranks' inputs at every rank that takes part in the exchange rounds and whose partner in
the last round has a higher rank (`recv_holds_result`). -/
theorem C1_allreduce_recv_buf {α : Type} (handlers : Nat → Nat → Int → α → α → α)
    (n cid seq : Nat) (send_buf recv_buf : Ptr) (count : Int)
    (datatype op : Nat) (mem0 : Nat → Ptr → α) (hn1 : 1 ≤ n) (hn31 : n < 2 ^ 31)
    (hSR : send_buf ≠ recv_buf) (hop1 : FI_MIN ≤ op) (hop2 : op ≤ FI_BXOR)
    (hassoc : ∀ a b c, handlers op datatype count (handlers op datatype count a b) c
      = handlers op datatype count a (handlers op datatype count b c))
    (hcomm : ∀ a b, handlers op datatype count a b = handlers op datatype count b a)
    (net0 net : coll_net α) (evs : List net_event)
    (h0 : allreduce_net n cid seq send_buf recv_buf count datatype op mem0 = some net0)
    (hrun : net_run handlers evs net0 = some net) (hfin : net_finished net)
    (k : Nat) (hk : k < n) (hres : recv_holds_result n k) :
    (net.ranks k).env.mem recv_buf
      = reduce_all (handlers op datatype count) (fun j => mem0 j send_buf) n :=
  (allreduce_result handlers n cid seq send_buf recv_buf count datatype op mem0 hn1 hn31 hSR
    hop1 hop2 hassoc hcomm net0 net evs h0 hrun hfin k hk).2 hres

set_option maxRecDepth 100000 in
/-- C1, amended, in the spec's example: the run finishes and the receive buffer of rank 0
holds 10. -/
theorem C1_allreduce_recv_buf_witness :
    ∃ net0 net, allreduce_net 4 1 0 100 200 1 FI_INT32 FI_SUM example_mem = some net0 ∧
      net_run sum_handlers example_events net0 = some net ∧ net_finished net ∧
      recv_holds_result 4 0 ∧ (net.ranks 0).env.mem 200 = 10 :=
  ⟨_, _, (Option.some_get example_net_some).symm, (Option.some_get example_run_some).symm,
    by decide, recv_holds_result_four_zero,
    (C1_allreduce_recv_buf sum_handlers 4 1 0 100 200 1 FI_INT32 FI_SUM example_mem (by decide)
      (by decide) (by decide) (by decide) (by decide) (fun a b c => Nat.add_assoc a b c)
      (fun a b => Nat.add_comm a b) _ _ example_events
      (Option.some_get example_net_some).symm (Option.some_get example_run_some).symm
      (by decide) 0 (by decide) recv_holds_result_four_zero).trans (by decide)⟩

/-! ### Removal from an address set, and the set algebra -/

/-- The outcome of `ofi_av_set_remove` on a set whose count fits its array: either the
address is absent and the set is returned with `-FI_EINVAL`, or the first slot holding
it is overwritten with the last slot in use and the count drops by one. -/
theorem remove_spec (set : util_av_set) (addr : Nat)
    (hc : set.fi_addr_count ≤ set.fi_addr_array.length) :
    (addr ∉ set.addrs ∧ ofi_av_set_remove set addr = some (-FI_EINVAL, set)) ∨
    (∃ i last, i < set.fi_addr_count ∧ set.fi_addr_array[i]? = some addr ∧
      (∀ j, j < i → set.fi_addr_array[j]? ≠ some addr) ∧
      set.fi_addr_array[set.fi_addr_count - 1]? = some last ∧ addr ∈ set.addrs ∧
      ofi_av_set_remove set addr =
        some (FI_SUCCESS, ⟨set.av, set.fi_addr_array.set i last, set.fi_addr_count - 1⟩)) := by
  have hsp := av_scan_spec set.fi_addr_array addr (set.fi_addr_count - 0) 0 (by omega)
  obtain ⟨j1, hscan, _, hle, hbefore, hat⟩ := hsp
  by_cases hlt : j1 < set.fi_addr_count
  · right
    have hj : set.fi_addr_array[j1]? = some addr := hat (by omega)
    have hlast : set.fi_addr_count - 1 < set.fi_addr_array.length := by omega
    refine ⟨j1, set.fi_addr_array[set.fi_addr_count - 1], hlt, hj,
      fun j hj1 => hbefore j (Nat.zero_le _) hj1, List.getElem?_eq_getElem hlast, ?_, ?_⟩
    · exact (mem_take_iff_index _ _ _).2 ⟨j1, hlt, hj⟩
    · unfold ofi_av_set_remove
      rw [hscan]
      simp [hlt, List.getElem?_eq_getElem hlast]
  · left
    have hj1 : j1 = set.fi_addr_count := by omega
    refine ⟨?_, ?_⟩
    · intro hmem
      obtain ⟨i, hi, hget⟩ := (mem_take_iff_index _ _ _).1 hmem
      exact hbefore i (Nat.zero_le _) (by omega) hget
    · unfold ofi_av_set_remove
      rw [hscan]
      simp [hlt]

theorem nodup_take_index (arr : List Nat) (c i j a : Nat) (hnd : (arr.take c).Nodup)
    (hi : i < c) (hj : j < c) (hc : c ≤ arr.length)
    (h1 : arr[i]? = some a) (h2 : arr[j]? = some a) : i = j := by
  have hlen : (arr.take c).length = c := by simp [hc]
  have e1 : (arr.take c)[i]? = some a := by rw [List.getElem?_take_of_lt hi]; exact h1
  have e2 : (arr.take c)[j]? = some a := by rw [List.getElem?_take_of_lt hj]; exact h2
  rw [List.nodup_iff_getElem?_ne_getElem?] at hnd
  rcases Nat.lt_trichotomy i j with h | h | h
  · exact absurd (e1.trans e2.symm) (hnd i j h (by omega))
  · exact h
  · exact absurd (e2.trans e1.symm) (hnd j i h (by omega))

/-- C11: `ofi_av_set_remove` returns `-FI_EINVAL` exactly when the address is absent and
then returns the set as it was; when the address is present it returns success, the
count drops by one, the slot of the first occurrence holds the former last element,
every other slot is unchanged, and in a duplicate-free set the address no longer
occurs. -/
theorem C11_remove_swaps_last_into_first_match (set : util_av_set) (addr : Nat)
    (hc : set.fi_addr_count ≤ set.fi_addr_array.length) :
    ((∃ s, ofi_av_set_remove set addr = some (-FI_EINVAL, s)) ↔ addr ∉ set.addrs) ∧
    (addr ∉ set.addrs → ofi_av_set_remove set addr = some (-FI_EINVAL, set)) ∧
    (addr ∈ set.addrs →
      ∃ i last s, ofi_av_set_remove set addr = some (FI_SUCCESS, s) ∧
        i < set.fi_addr_count ∧ set.fi_addr_array[i]? = some addr ∧
        (∀ j, j < i → set.fi_addr_array[j]? ≠ some addr) ∧
        set.fi_addr_array[set.fi_addr_count - 1]? = some last ∧
        s.av = set.av ∧ s.fi_addr_count = set.fi_addr_count - 1 ∧
        s.fi_addr_array[i]? = some last ∧
        (∀ j, j ≠ i → s.fi_addr_array[j]? = set.fi_addr_array[j]?) ∧
        (set.addrs.Nodup → addr ∉ s.addrs)) := by
  rcases remove_spec set addr hc with ⟨habs, hret⟩ | ⟨i, last, hi, hget, hfirst, hlast, hmem, hret⟩
  · refine ⟨⟨fun _ => habs, fun _ => ⟨set, hret⟩⟩, fun _ => hret, fun h => absurd h habs⟩
  · refine ⟨⟨?_, fun h => absurd hmem h⟩, fun h => absurd hmem h, fun _ => ?_⟩
    · rintro ⟨s, hs⟩
      rw [hret] at hs
      have h0 : FI_SUCCESS = -FI_EINVAL := congrArg Prod.fst (Option.some.inj hs)
      exact absurd h0 (by decide)
    · refine ⟨i, last, _, hret, hi, hget, hfirst, hlast, rfl, rfl, ?_, ?_, ?_⟩
      · show (set.fi_addr_array.set i last)[i]? = some last
        rw [List.getElem?_set_self (by omega)]
      · intro j hj
        show (set.fi_addr_array.set i last)[j]? = set.fi_addr_array[j]?
        rw [List.getElem?_set_ne (Ne.symm hj)]
      · intro hnd hin
        obtain ⟨j, hj, hjget⟩ := (mem_take_iff_index _ _ _).1 hin
        have hj : j < set.fi_addr_count - 1 := hj
        have hjget : (set.fi_addr_array.set i last)[j]? = some addr := hjget
        by_cases hji : i = j
        · subst hji
          rw [List.getElem?_set_self (by omega)] at hjget
          have hl : last = addr := Option.some.inj hjget
          rw [hl] at hlast
          have := nodup_take_index set.fi_addr_array set.fi_addr_count i
            (set.fi_addr_count - 1) addr hnd hi (by omega) hc hget hlast
          omega
        · rw [List.getElem?_set_ne hji] at hjget
          exact hji (nodup_take_index set.fi_addr_array set.fi_addr_count i j addr hnd hi
            (by omega) hc hget hjget)

theorem C11_remove_swaps_last_into_first_match_witness :
    ofi_av_set_remove ⟨0, [1, 2, 3, 4, 0, 0], 4⟩ 7 = some (-FI_EINVAL, ⟨0, [1, 2, 3, 4, 0, 0], 4⟩) ∧
    ∃ i last s, ofi_av_set_remove ⟨0, [1, 2, 3, 4, 0, 0], 4⟩ 2 = some (FI_SUCCESS, s) ∧
      i < 4 ∧ [1, 2, 3, 4, 0, 0][i]? = some 2 ∧
      (∀ j, j < i → [1, 2, 3, 4, 0, 0][j]? ≠ some 2) ∧
      [1, 2, 3, 4, 0, 0][4 - 1]? = some last ∧
      s.av = 0 ∧ s.fi_addr_count = 4 - 1 ∧
      s.fi_addr_array[i]? = some last ∧
      (∀ j, j ≠ i → s.fi_addr_array[j]? = [1, 2, 3, 4, 0, 0][j]?) ∧
      ((util_av_set.addrs ⟨0, [1, 2, 3, 4, 0, 0], 4⟩).Nodup → 2 ∉ s.addrs) :=
  ⟨(C11_remove_swaps_last_into_first_match ⟨0, [1, 2, 3, 4, 0, 0], 4⟩ 7 (by decide)).2.1
     (by decide),
   (C11_remove_swaps_last_into_first_match ⟨0, [1, 2, 3, 4, 0, 0], 4⟩ 2 (by decide)).2.2
     (by decide)⟩

/-- C12: on the duplicate-free sets `a = {1, 2, 3, 4}` and `b = {2, 3, 5}` the code
computes `diff(a, b) = {1, 2}` and `intersect(a, b) = {2, 3}` on copies of `a`, and
their union is `{1, 2, 3}`: address 4 of `a` is lost, so the result is not `a`. -/
theorem C12_union_of_diff_and_intersect_loses_address :
    ∃ d i u, ofi_av_set_diff ⟨0, [1, 2, 3, 4], 4⟩ ⟨0, [2, 3, 5], 3⟩ = some (FI_SUCCESS, d) ∧
      ofi_av_set_intersect ⟨0, [1, 2, 3, 4], 4⟩ ⟨0, [2, 3, 5], 3⟩ = some (FI_SUCCESS, i) ∧
      ofi_av_set_union d i = some (FI_SUCCESS, u) ∧
      d.addrs = [1, 2] ∧ i.addrs = [2, 3] ∧ u.addrs = [1, 2, 3] ∧
      (util_av_set.addrs ⟨0, [1, 2, 3, 4], 4⟩).Nodup ∧
      (util_av_set.addrs ⟨0, [2, 3, 5], 3⟩).Nodup ∧
      ¬ List.Perm u.addrs (util_av_set.addrs ⟨0, [1, 2, 3, 4], 4⟩) := by
  refine ⟨⟨0, [1, 2, 3, 2], 2⟩, ⟨0, [2, 3, 3, 4], 2⟩, ⟨0, [1, 2, 3, 2], 3⟩,
    by decide, by decide, by decide, by decide, by decide, by decide, by decide, by decide,
    ?_⟩
  intro h
  have := h.length_eq
  revert this
  decide

/-- C13: when `x` is not in the set and `ofi_av_set_insert` succeeds, the following
`ofi_av_set_remove` of `x` succeeds and the set has the count and the elements it had
before the insert. -/
theorem C13_insert_then_remove_restores (set s1 : util_av_set) (x : Nat)
    (hc : set.fi_addr_count ≤ set.fi_addr_array.length) (hx : x ∉ set.addrs)
    (hins : ofi_av_set_insert set x = some (FI_SUCCESS, s1)) :
    ∃ s2, ofi_av_set_remove s1 x = some (FI_SUCCESS, s2) ∧
      s2.fi_addr_count = set.fi_addr_count ∧ s2.addrs = set.addrs ∧ s2.av = set.av := by
  obtain ⟨j, hj1, hj2, hj3⟩ := av_scan_from_zero set.fi_addr_array x set.fi_addr_count hc
  have hjc : j = set.fi_addr_count := hj3.2 hx
  subst hjc
  unfold ofi_av_set_insert at hins
  rw [hj1] at hins
  simp only [lt_irrefl, if_false] at hins
  by_cases hroom : set.fi_addr_count < set.fi_addr_array.length
  · simp only [hroom, if_true, Option.some.injEq, Prod.mk.injEq, true_and] at hins
    subst hins
    have hc1 : set.fi_addr_count + 1 ≤ (set.fi_addr_array.set set.fi_addr_count x).length := by
      simp; omega
    have hat : (set.fi_addr_array.set set.fi_addr_count x)[set.fi_addr_count]? = some x := by
      rw [List.getElem?_set_self hroom]
    rcases remove_spec ⟨set.av, set.fi_addr_array.set set.fi_addr_count x,
        set.fi_addr_count + 1⟩ x hc1 with
      ⟨habs, _⟩ | ⟨i, last, hi, hget, hfirst, hlast, _, hret⟩
    · exact absurd ((mem_take_iff_index _ _ _).2 ⟨set.fi_addr_count, Nat.lt_succ_self _, hat⟩)
        habs
    · have hi : i < set.fi_addr_count + 1 := hi
      have hget : (set.fi_addr_array.set set.fi_addr_count x)[i]? = some x := hget
      have hlast : (set.fi_addr_array.set set.fi_addr_count x)[set.fi_addr_count + 1 - 1]? =
          some last := hlast
      have hic : i = set.fi_addr_count := by
        by_contra hne
        rw [List.getElem?_set_ne (Ne.symm hne)] at hget
        exact hx ((mem_take_iff_index _ _ _).2 ⟨i, by omega, hget⟩)
      subst hic
      refine ⟨_, hret, rfl, ?_, rfl⟩
      show ((set.fi_addr_array.set set.fi_addr_count x).set set.fi_addr_count last).take
        (set.fi_addr_count + 1 - 1) = set.fi_addr_array.take set.fi_addr_count
      rw [Nat.add_sub_cancel, take_set_of_le _ _ _ _ (le_refl _),
        take_set_of_le _ _ _ _ (le_refl _)]
  · simp [hroom] at hins

theorem C13_insert_then_remove_restores_witness :
    ofi_av_set_insert ⟨0, [1, 2, 3, 4, 0, 0], 4⟩ 7 =
      some (FI_SUCCESS, ⟨0, [1, 2, 3, 4, 7, 0], 5⟩) ∧
    ∃ s2, ofi_av_set_remove ⟨0, [1, 2, 3, 4, 7, 0], 5⟩ 7 = some (FI_SUCCESS, s2) ∧
      s2.fi_addr_count = 4 ∧ s2.addrs = [1, 2, 3, 4] ∧ s2.av = 0 :=
  ⟨by decide,
    C13_insert_then_remove_restores ⟨0, [1, 2, 3, 4, 0, 0], 4⟩ ⟨0, [1, 2, 3, 4, 7, 0], 5⟩ 7
      (by decide) (by decide) (by decide)⟩

/-! ### Refused submissions -/

/-- C14: a pending-transfer list whose head is a Recv item, on a transport that refuses
the receive with the error -11: `util_coll_process_pending` returns -11 and the list is
left empty, the refused item is not put back (the barrier list still holds it). The
accepting retry then submits nothing, while a single accepting call submits the
receive. With a Send item at the head the refusal leaves the list as it was. -/
theorem C14_refused_recv_is_not_restored :
    util_coll_process_pending (fun _ => 0) (fun _ => -11)
        ⟨⟨0, [10, 11], 2⟩, [recv_item 9 BARRIER 100 1 1 FI_UINT64], [],
          [recv_item 9 BARRIER 100 1 1 FI_UINT64], 0, 1, 0⟩ =
      some (-11, ⟨⟨0, [10, 11], 2⟩, [recv_item 9 BARRIER 100 1 1 FI_UINT64], [], [], 0, 1, 0⟩,
        []) ∧
    util_coll_process_pending (fun _ => 0) (fun _ => 0)
        ⟨⟨0, [10, 11], 2⟩, [recv_item 9 BARRIER 100 1 1 FI_UINT64], [], [], 0, 1, 0⟩ =
      some (FI_SUCCESS,
        ⟨⟨0, [10, 11], 2⟩, [recv_item 9 BARRIER 100 1 1 FI_UINT64], [], [], 0, 1, 0⟩, []) ∧
    util_coll_process_pending (fun _ => 0) (fun _ => 0)
        ⟨⟨0, [10, 11], 2⟩, [recv_item 9 BARRIER 100 1 1 FI_UINT64], [],
          [recv_item 9 BARRIER 100 1 1 FI_UINT64], 0, 1, 0⟩ =
      some (FI_SUCCESS,
        ⟨⟨0, [10, 11], 2⟩, [recv_item 9 BARRIER 100 1 1 FI_UINT64], [], [], 0, 1, 0⟩,
        [.trecv ⟨11, 9, 100, 1, FI_UINT64⟩]) ∧
    util_coll_process_pending (fun _ => -11) (fun _ => 0)
        ⟨⟨0, [10, 11], 2⟩, [send_item 9 BARRIER 100 1 1 FI_UINT64], [],
          [send_item 9 BARRIER 100 1 1 FI_UINT64], 0, 1, 0⟩ =
      some (-11, ⟨⟨0, [10, 11], 2⟩, [send_item 9 BARRIER 100 1 1 FI_UINT64], [],
        [send_item 9 BARRIER 100 1 1 FI_UINT64], 0, 1, 0⟩, []) := by
  decide

/-! ### Completions that match no item -/

/-- C15 as stated fails: a group whose barrier list holds one Send item with tag 7 and
whose deferred list holds the Reduce and the Copy of the exchange round. The first
delivery of the completion with tag 7 retires the Send and runs the Reduce. No item of
the barrier list carries tag 7 any more, yet the second delivery of the same completion
runs the Copy: the deferred list becomes empty and the buffer 100 changes from 5 to 8. -/
theorem C15_second_delivery_runs_deferred_copy :
    (ofi_coll_handle_comp sum_handlers 7
        ⟨⟨0, [10, 11], 2⟩, [send_item 7 BARRIER 100 1 1 FI_UINT64],
          [.reduce_item ⟨.UTIL_COLL_REDUCE, 0, BARRIER⟩ 100 200 1 FI_UINT64 FI_SUM,
            .copy_item ⟨.UTIL_COLL_COPY, 0, BARRIER⟩ 200 100 1 FI_UINT64],
          [], 0, 1, 0⟩
        ⟨fun p => if p = 100 then 5 else 3, []⟩).map
      (fun r => (r.1.deferred_list, r.1.pending_xfer_list, r.1.barrier_list, r.2.mem 100)) =
      some ([.copy_item ⟨.UTIL_COLL_COPY, 0, BARRIER⟩ 200 100 1 FI_UINT64], [], [], 5) ∧
    ((ofi_coll_handle_comp sum_handlers 7
        ⟨⟨0, [10, 11], 2⟩, [send_item 7 BARRIER 100 1 1 FI_UINT64],
          [.reduce_item ⟨.UTIL_COLL_REDUCE, 0, BARRIER⟩ 100 200 1 FI_UINT64 FI_SUM,
            .copy_item ⟨.UTIL_COLL_COPY, 0, BARRIER⟩ 200 100 1 FI_UINT64],
          [], 0, 1, 0⟩
        ⟨fun p => if p = 100 then 5 else 3, []⟩).bind
      (fun r => ofi_coll_handle_comp sum_handlers 7 r.1 r.2)).map
      (fun r => (r.1.deferred_list, r.1.pending_xfer_list, r.1.barrier_list, r.2.mem 100)) =
      some ([], [], [], 8) := by
  decide

/-- C15, amended: when no item of the barrier list carries the tag,
`ofi_coll_handle_comp` removes nothing and does what one call of `util_coll_schedule`
does; it leaves the group and the environment as they were when the barrier list is not
empty or the deferred list is empty. -/
theorem C15_unmatched_completion_is_a_schedule_call {α : Type}
    (handlers : Nat → Nat → Int → α → α → α) (tag : Nat) (mc : util_coll_mc)
    (env : coll_env α) (hno : ∀ item, item ∈ mc.barrier_list → item.hdr.tag ≠ tag) :
    ofi_coll_handle_comp handlers tag mc env =
      (util_coll_schedule handlers mc env).map (fun r => (r.2.1, r.2.2)) ∧
    (mc.barrier_list ≠ [] ∨ mc.deferred_list = [] →
      ofi_coll_handle_comp handlers tag mc env = some (mc, env)) := by
  have herase : mc.barrier_list.eraseP (fun item => decide (item.hdr.tag = tag)) =
      mc.barrier_list := by
    apply List.eraseP_of_forall_not
    intro item hitem
    simpa using hno item hitem
  have h1 : ofi_coll_handle_comp handlers tag mc env =
      (util_coll_schedule handlers mc env).map (fun r => (r.2.1, r.2.2)) := by
    unfold ofi_coll_handle_comp
    simp only [herase]
    cases util_coll_schedule handlers mc env with
    | none => rfl
    | some r => rfl
  refine ⟨h1, fun h => ?_⟩
  rw [h1]
  obtain ⟨av_set, B, D, P, my_rank, cid, seq⟩ := mc
  simp only at h
  by_cases hB : B = []
  · have hD : D = [] := by
      rcases h with h | h
      · exact absurd hB h
      · exact h
    subst hB hD
    rfl
  · simp [util_coll_schedule, hB]

theorem C15_unmatched_completion_is_a_schedule_call_witness :
    ofi_coll_handle_comp sum_handlers 9
        ⟨⟨0, [10, 11], 2⟩, [send_item 7 BARRIER 100 1 1 FI_UINT64],
          [.copy_item ⟨.UTIL_COLL_COPY, 0, BARRIER⟩ 100 200 1 FI_UINT64], [], 0, 1, 0⟩
        ⟨fun _ => 0, []⟩ =
      some (⟨⟨0, [10, 11], 2⟩, [send_item 7 BARRIER 100 1 1 FI_UINT64],
          [.copy_item ⟨.UTIL_COLL_COPY, 0, BARRIER⟩ 100 200 1 FI_UINT64], [], 0, 1, 0⟩,
        ⟨fun _ => 0, []⟩) :=
  (C15_unmatched_completion_is_a_schedule_call sum_handlers 9
    ⟨⟨0, [10, 11], 2⟩, [send_item 7 BARRIER 100 1 1 FI_UINT64],
      [.copy_item ⟨.UTIL_COLL_COPY, 0, BARRIER⟩ 100 200 1 FI_UINT64], [], 0, 1, 0⟩
    ⟨fun _ => 0, []⟩ (by decide)).2 (Or.inl (by decide))

/-! ### The barrier and its completion -/

theorem mc_append_nil (mc : util_coll_mc) : mc_append mc [] = mc := by
  simp [mc_append]

/-- The loop of `util_coll_allreduce` ends with success once `mask` has reached `pof2`,
whatever the rank; the fuel given suffices. -/
theorem allreduce_loop_total (send_buf recv_buf : Ptr) (count : Int) (datatype op : Nat)
    (coll_id : Nat) (rem pof2 my_new_id : Int) :
    ∀ fuel (mask : Int) (mc : util_coll_mc), pof2 ≤ mask * 2 ^ fuel →
      ∃ items, util_coll_allreduce_loop send_buf recv_buf count datatype op coll_id rem pof2
        my_new_id fuel mask mc = some (FI_SUCCESS, mc_append mc items) ∧
        ∀ item, item ∈ items → well_typed item := by
  intro fuel
  induction fuel with
  | zero =>
    intro mask mc h
    simp only [pow_zero, mul_one] at h
    refine ⟨[], ?_, by simp⟩
    simp [util_coll_allreduce_loop, not_lt.2 h, mc_append_nil]
  | succ fuel ih =>
    intro mask mc h
    have h2 : pof2 ≤ mask * 2 * 2 ^ fuel := by
      have e : mask * 2 * 2 ^ fuel = mask * 2 ^ (fuel + 1) := by ring
      rw [e]
      exact h
    by_cases hlt : mask < pof2
    · unfold util_coll_allreduce_loop
      simp only [hlt, if_true, sched_recv_eq, sched_send_eq, sched_reduce_eq,
        sched_copy_eq, ne_eq, not_true_eq_false, if_false, mc_append_my_rank, mc_append_append]
      generalize (if Int.xor my_new_id mask < rem then Int.xor my_new_id mask * 2 + 1
        else Int.xor my_new_id mask + rem) = dest
      by_cases hlt2 : dest < mc.my_rank
      · simp only [hlt2, if_true]
        obtain ⟨items, hi, hw⟩ := ih (mask * 2) (mc_append mc _) h2
        rw [hi, mc_append_append]
        refine ⟨_, rfl, ?_⟩
        intro item hitem
        simp only [List.mem_append, List.mem_singleton] at hitem
        rcases hitem with ((rfl | rfl) | rfl) | hitem
        · exact Or.inr rfl
        · exact Or.inl rfl
        · exact rfl
        · exact hw item hitem
      · simp only [hlt2, if_false]
        obtain ⟨items, hi, hw⟩ := ih (mask * 2) (mc_append mc _) h2
        rw [hi, mc_append_append]
        refine ⟨_, rfl, ?_⟩
        intro item hitem
        simp only [List.mem_append, List.mem_singleton] at hitem
        rcases hitem with (((rfl | rfl) | rfl) | rfl) | hitem
        · exact Or.inr rfl
        · exact Or.inl rfl
        · exact rfl
        · exact rfl
        · exact hw item hitem
    · refine ⟨[], ?_, by simp⟩
      unfold util_coll_allreduce_loop
      simp [hlt, mc_append_nil]

theorem allreduce_tail_total (send_buf : Ptr) (count : Int) (datatype coll_id : Nat)
    (rem : Int) (mc : util_coll_mc) :
    ∃ items, util_coll_allreduce_tail send_buf count datatype coll_id rem mc =
      (FI_SUCCESS, mc_append mc items) ∧ ∀ item, item ∈ items → well_typed item := by
  unfold util_coll_allreduce_tail
  split
  · split
    · refine ⟨_, rfl, ?_⟩
      intro item hitem
      rw [List.mem_singleton] at hitem
      subst hitem
      exact Or.inl rfl
    · refine ⟨_, rfl, ?_⟩
      intro item hitem
      rw [List.mem_singleton] at hitem
      subst hitem
      exact Or.inr rfl
  · exact ⟨[], by rw [mc_append_nil], by simp⟩

/-- The function `util_coll_allreduce` returns success at every rank of every group, and
only appends to the deferred list of the group (after taking the next collective id). -/
theorem allreduce_total (mc : util_coll_mc) (send_buf recv_buf : Ptr) (count : Int)
    (datatype op : Nat) :
    ∃ items, util_coll_allreduce mc send_buf recv_buf count datatype op =
      some (FI_SUCCESS, mc_append (util_coll_get_next_id mc).2 items) ∧
      ∀ item, item ∈ items → well_typed item := by
  have hfuel : ∀ p : Nat, ((p : Nat) : Int) ≤ 1 * 2 ^ ((p : Int)).toNat := by
    intro p
    have := Nat.lt_two_pow p
    simp only [Int.toNat_ofNat, one_mul]
    exact_mod_cast this.le
  unfold util_coll_allreduce
  simp only [sched_recv_eq, sched_send_eq, sched_reduce_eq, ne_eq, not_true_eq_false,
    if_false, mc_append_my_rank, mc_append_append, next_id_my_rank, next_id_av_set]
  generalize (util_coll_get_next_id mc).1 = coll_id
  generalize hmc0 : (util_coll_get_next_id mc).2 = mc0
  have hmy : mc0.my_rank = mc.my_rank := by rw [← hmc0]; rfl
  generalize hp : rounddown_power_of_two mc.av_set.fi_addr_count = p
  generalize ((mc.av_set.fi_addr_count : Int) - (p : Int)) = rem
  have hfin : ∀ (body : Option (Int × util_coll_mc)),
      (∃ items, body = some (FI_SUCCESS, mc_append mc0 items) ∧
        ∀ item, item ∈ items → well_typed item) →
      ∃ items, (match body with
        | none => none
        | some (ret, mc2) =>
          if ¬ ret = 0 then some (ret, mc2)
          else some (util_coll_allreduce_tail send_buf count datatype coll_id rem mc2)) =
        some (FI_SUCCESS, mc_append mc0 items) ∧
        ∀ item, item ∈ items → well_typed item := by
    rintro body ⟨items, rfl, hw⟩
    obtain ⟨items2, h2, hw2⟩ :=
      allreduce_tail_total send_buf count datatype coll_id rem (mc_append mc0 items)
    refine ⟨items ++ items2, ?_, ?_⟩
    · simp only [FI_SUCCESS, not_true_eq_false, if_false]
      rw [h2, mc_append_append]
      rfl
    · intro item hitem
      rcases List.mem_append.1 hitem with h | h
      · exact hw item h
      · exact hw2 item h
  have hloop : ∀ (my_new_id : Int) (items : List work_item),
      (∀ item, item ∈ items → well_typed item) →
      ∃ items1, (if ¬ my_new_id = -1 then
          util_coll_allreduce_loop send_buf recv_buf count datatype op coll_id rem (p : Int)
            my_new_id ((p : Int)).toNat 1 (mc_append mc0 items)
        else some (FI_SUCCESS, mc_append mc0 items)) =
        some (FI_SUCCESS, mc_append mc0 items1) ∧
        ∀ item, item ∈ items1 → well_typed item := by
    intro my_new_id items hw
    by_cases hne : my_new_id = -1
    · exact ⟨items, by simp [hne], hw⟩
    · obtain ⟨items1, h1, hw1⟩ := allreduce_loop_total send_buf recv_buf count datatype op
        coll_id rem (p : Int) my_new_id ((p : Int)).toNat 1 (mc_append mc0 items) (hfuel p)
      refine ⟨items ++ items1, ?_, ?_⟩
      · simp only [hne, not_false_eq_true, if_true]
        rw [h1, mc_append_append]
      · intro item hitem
        rcases List.mem_append.1 hitem with h | h
        · exact hw item h
        · exact hw1 item h
  by_cases hlow : mc.my_rank < 2 * rem
  · by_cases hev : Int.tmod mc.my_rank 2 = 0
    · simp only [hlow, hev, if_true, not_true_eq_false, if_false]
      refine hfin _ ⟨_, rfl, ?_⟩
      intro item hitem
      rw [List.mem_singleton] at hitem
      subst hitem
      exact Or.inl rfl
    · simp only [hlow, hev, if_true, if_false, not_true_eq_false]
      refine hfin _ (hloop _ _ ?_)
      intro item hitem
      simp only [List.mem_append, List.mem_singleton] at hitem
      rcases hitem with rfl | rfl
      · exact Or.inr rfl
      · exact rfl
  · simp only [hlow, if_false, FI_SUCCESS, not_true_eq_false]
    have h := hloop (mc.my_rank - rem) [] (by simp)
    rw [mc_append_nil] at h
    exact hfin _ h

/-- On items whose `type` fits their structure the drain of the deferred list returns. -/
theorem work_items_total {α : Type} (handlers : Nat → Nat → Int → α → α → α) :
    ∀ (D P B : List work_item) (env : coll_env α), (∀ item, item ∈ D → well_typed item) →
      ∃ r, process_work_items_loop handlers D P B env = some r := by
  intro D
  induction D with
  | nil => intro P B env _; exact ⟨_, rfl⟩
  | cons entry D ih =>
    intro P B env hw
    have hD : ∀ item, item ∈ D → well_typed item := fun item h => hw item (List.mem_cons_of_mem _ h)
    have he := hw entry (List.mem_cons_self _ _)
    cases entry with
    | xfer_item hdr buf count rank datatype =>
      obtain ⟨ty, tag, b⟩ := hdr
      have he : ty = .UTIL_COLL_SEND ∨ ty = .UTIL_COLL_RECV := he
      rcases he with rfl | rfl
      · unfold process_work_items_loop
        simp only [work_item.hdr]
        split_ifs
        · exact ⟨_, rfl⟩
        · exact ⟨_, rfl⟩
        · exact ih _ _ _ hD
      · unfold process_work_items_loop
        simp only [work_item.hdr]
        split_ifs
        · exact ⟨_, rfl⟩
        · exact ⟨_, rfl⟩
        · exact ih _ _ _ hD
    | copy_item hdr in_buf out_buf count datatype =>
      obtain ⟨ty, tag, b⟩ := hdr
      have he : ty = .UTIL_COLL_COPY := he
      subst he
      unfold process_work_items_loop
      simp only [work_item.hdr]
      split_ifs
      · exact ⟨_, rfl⟩
      · exact ⟨_, rfl⟩
      · exact ih _ _ _ hD
    | reduce_item hdr in_buf inout_buf count datatype op =>
      obtain ⟨ty, tag, b⟩ := hdr
      have he : ty = .UTIL_COLL_REDUCE := he
      subst he
      unfold process_work_items_loop
      simp only [work_item.hdr]
      split_ifs
      · exact ⟨_, rfl⟩
      · exact ⟨_, rfl⟩
      · exact ih _ _ _ hD
    | coll_state hdr type context data comp_fn =>
      obtain ⟨ty, tag, b⟩ := hdr
      have he : ty = .UTIL_COLL_COMP := he
      subst he
      cases comp_fn with
      | none =>
        unfold process_work_items_loop
        simp only [work_item.hdr]
        split_ifs
        · exact ⟨_, rfl⟩
        · exact ⟨_, rfl⟩
        · exact ih _ _ _ hD
      | some fn =>
        unfold process_work_items_loop
        simp only [work_item.hdr]
        split_ifs
        · exact ⟨_, rfl⟩
        · exact ⟨_, rfl⟩
        · exact ih _ _ _ hD

/-- On such items `util_coll_schedule` returns. -/
theorem schedule_total {α : Type} (handlers : Nat → Nat → Int → α → α → α) (mc : util_coll_mc)
    (env : coll_env α) (hw : ∀ item, item ∈ mc.deferred_list → well_typed item) :
    ∃ ret mc1 env1, util_coll_schedule handlers mc env = some (ret, mc1, env1) := by
  obtain ⟨⟨ret, D, P, B, env1⟩, hr⟩ :=
    work_items_total handlers mc.deferred_list mc.pending_xfer_list mc.barrier_list env hw
  unfold util_coll_schedule util_coll_process_work_items
  rw [hr]
  simp only []
  split_ifs
  · exact ⟨_, _, _, rfl⟩
  · exact ⟨_, _, _, rfl⟩
  · exact ⟨_, _, _, rfl⟩

/-- C19: `ofi_ep_barrier` returns success, at every rank of every group; what it appends
to the deferred list is what `util_coll_allreduce` appends for one element of the
64-bit unsigned datatype with the op bitwise AND on the state's buffer (at rank `k` of
`n` the items `allreduce_items`), followed by one Completion item of type barrier, the
last item; the call ends with one `util_coll_schedule` on that list. The items already
deferred have a `type` that fits their structure. -/
theorem C19_barrier_appends_allreduce_then_completion {α : Type}
    (handlers : Nat → Nat → Int → α → α → α) (mc : util_coll_mc) (env : coll_env α)
    (context data : Ptr) (hw : ∀ item, item ∈ mc.deferred_list → well_typed item) :
    ∃ items ret mc3 env3,
      util_coll_allreduce mc data data 1 FI_UINT64 FI_BAND =
        some (FI_SUCCESS, mc_append (util_coll_get_next_id mc).2 items) ∧
      util_coll_schedule handlers
        (mc_append (util_coll_get_next_id mc).2
          (items ++ [.coll_state ⟨.UTIL_COLL_COMP, 0, 0⟩ .UTIL_COLL_BARRIER_OP context data
            (some .util_coll_barrier_comp)])) env = some (ret, mc3, env3) ∧
      ofi_ep_barrier handlers mc env context data = some (FI_SUCCESS, mc3, env3) ∧
      (∀ n k, 1 ≤ n → n < 2 ^ 31 → k < n → mc.av_set.fi_addr_count = n →
        mc.my_rank = (k : Int) →
        items = allreduce_items (util_coll_get_next_id mc).1 data data 1 FI_UINT64 FI_BAND n k) := by
  obtain ⟨items, hall, hitems⟩ := allreduce_total mc data data 1 FI_UINT64 FI_BAND
  have hw2 : ∀ item, item ∈ (mc_append (util_coll_get_next_id mc).2
      (items ++ [.coll_state ⟨.UTIL_COLL_COMP, 0, 0⟩ .UTIL_COLL_BARRIER_OP context data
        (some .util_coll_barrier_comp)])).deferred_list → well_typed item := by
    intro item hitem
    have hitem : item ∈ mc.deferred_list ++ (items ++ [.coll_state ⟨.UTIL_COLL_COMP, 0, 0⟩
        .UTIL_COLL_BARRIER_OP context data (some .util_coll_barrier_comp)]) := hitem
    simp only [List.mem_append, List.mem_singleton] at hitem
    rcases hitem with h | h | rfl
    · exact hw item h
    · exact hitems item h
    · exact rfl
  obtain ⟨ret, mc3, env3, hs⟩ := schedule_total handlers _ env hw2
  refine ⟨items, ret, mc3, env3, hall, hs, ?_, ?_⟩
  · unfold ofi_ep_barrier
    rw [hall]
    simp only [FI_SUCCESS, ne_eq, not_true_eq_false, if_false, util_coll_state_init,
      util_coll_sched_comp]
    have e : ({ mc_append (util_coll_get_next_id mc).2 items with
        deferred_list := (mc_append (util_coll_get_next_id mc).2 items).deferred_list ++
          [.coll_state ⟨.UTIL_COLL_COMP, 0, 0⟩ .UTIL_COLL_BARRIER_OP context data
            (some .util_coll_barrier_comp)] } : util_coll_mc) =
        mc_append (util_coll_get_next_id mc).2
          (items ++ [.coll_state ⟨.UTIL_COLL_COMP, 0, 0⟩ .UTIL_COLL_BARRIER_OP context data
            (some .util_coll_barrier_comp)]) := by
      simp [mc_append]
    rw [e, hs]
  · intro n k hn1 hn31 hk hcount hmy
    have hc := allreduce_closed mc data data 1 FI_UINT64 FI_BAND n k hn1 hn31 hk hcount hmy
    rw [hall] at hc
    have hd := congrArg (fun r => r.map (fun q => q.2.deferred_list)) hc
    simp only [Option.map_some', mc_append, Option.some.injEq] at hd
    exact List.append_cancel_left hd

theorem C19_barrier_appends_allreduce_then_completion_witness :
    ∃ items ret mc3 env3,
      util_coll_allreduce ⟨⟨0, [10, 11], 2⟩, [], [], [], 0, 1, 0⟩ 300 300 1 FI_UINT64 FI_BAND =
        some (FI_SUCCESS, mc_append
          (util_coll_get_next_id ⟨⟨0, [10, 11], 2⟩, [], [], [], 0, 1, 0⟩).2 items) ∧
      util_coll_schedule band_handlers
        (mc_append (util_coll_get_next_id ⟨⟨0, [10, 11], 2⟩, [], [], [], 0, 1, 0⟩).2
          (items ++ [.coll_state ⟨.UTIL_COLL_COMP, 0, 0⟩ .UTIL_COLL_BARRIER_OP 55 300
            (some .util_coll_barrier_comp)])) ⟨fun _ => 0, []⟩ = some (ret, mc3, env3) ∧
      ofi_ep_barrier band_handlers ⟨⟨0, [10, 11], 2⟩, [], [], [], 0, 1, 0⟩ ⟨fun _ => 0, []⟩ 55
        300 = some (FI_SUCCESS, mc3, env3) ∧
      (∀ n k, 1 ≤ n → n < 2 ^ 31 → k < n →
        (⟨⟨0, [10, 11], 2⟩, [], [], [], 0, 1, 0⟩ : util_coll_mc).av_set.fi_addr_count = n →
        (⟨⟨0, [10, 11], 2⟩, [], [], [], 0, 1, 0⟩ : util_coll_mc).my_rank = (k : Int) →
        items = allreduce_items
          (util_coll_get_next_id ⟨⟨0, [10, 11], 2⟩, [], [], [], 0, 1, 0⟩).1 300 300 1 FI_UINT64
          FI_BAND n k) :=
  C19_barrier_appends_allreduce_then_completion band_handlers
    ⟨⟨0, [10, 11], 2⟩, [], [], [], 0, 1, 0⟩ ⟨fun _ => 0, []⟩ 55 300
    (fun _ h => absurd h (List.not_mem_nil _))

/-- C16: the state `util_coll_state_init` returns has tag 0 in its header and
`util_coll_sched_comp` does not set it, so the entry `util_coll_barrier_comp` writes
has flags `FI_COLLECTIVE`, the state's buffer as data and tag 0. For the barrier of
rank 0 of a group of two (cid 1, seq 0) the last transfer item scheduled, the Send, has
the tag `0x8000000000010000`, which is not the entry's tag. -/
theorem C16_barrier_completion_tag_is_zero :
    (∀ (mc : util_coll_mc) (context data : Ptr),
      util_coll_sched_comp mc .UTIL_COLL_BARRIER_OP context (util_coll_state_init mc data).2
          .util_coll_barrier_comp =
        some (FI_SUCCESS, mc_append mc [.coll_state ⟨.UTIL_COLL_COMP, 0, 0⟩
          .UTIL_COLL_BARRIER_OP context data (some .util_coll_barrier_comp)]) ∧
      util_coll_barrier_comp (.coll_state ⟨.UTIL_COLL_COMP, 0, 0⟩
          .UTIL_COLL_BARRIER_OP context data (some .util_coll_barrier_comp)) =
        some (.ofi_cq_write ⟨context, FI_COLLECTIVE, 64, data, 0, 0⟩)) ∧
    (ofi_ep_barrier band_handlers ⟨⟨0, [10, 11], 2⟩, [], [], [], 0, 1, 0⟩ ⟨fun _ => 0, []⟩ 55
        300).map (fun r => (r.1, r.2.1.deferred_list, r.2.1.barrier_list)) =
      some (FI_SUCCESS,
        [.reduce_item ⟨.UTIL_COLL_REDUCE, 0, BARRIER⟩ 300 300 1 FI_UINT64 FI_BAND,
          .copy_item ⟨.UTIL_COLL_COPY, 0, BARRIER⟩ 300 300 1 FI_UINT64,
          .coll_state ⟨.UTIL_COLL_COMP, 0, 0⟩ .UTIL_COLL_BARRIER_OP 55 300
            (some .util_coll_barrier_comp)],
        [recv_item 0x8000000100010000 NO_BARRIER 300 1 1 FI_UINT64,
          send_item 0x8000000000010000 BARRIER 300 1 1 FI_UINT64]) ∧
    util_coll_barrier_comp (.coll_state ⟨.UTIL_COLL_COMP, 0, 0⟩ .UTIL_COLL_BARRIER_OP 55 300
        (some .util_coll_barrier_comp)) =
      some (.ofi_cq_write ⟨55, FI_COLLECTIVE, 64, 300, 0, 0⟩) := by
  refine ⟨fun mc context data => ⟨rfl, rfl⟩, by decide, by decide⟩

/-- C17 as stated fails: a deferred list with a Reduce item whose op is 10, outside
MIN..BXOR, followed by the Completion item of a barrier. The first call of
`util_coll_schedule` returns `-FI_ENOSYS`, consumes the Reduce item and invokes no
callback; the second call returns success and invokes the callback, and the entry
`util_coll_barrier_comp` writes for that state is an ordinary completion, with no
error in it. -/
theorem C17_completion_after_failed_reduce_is_ordinary :
    (util_coll_schedule sum_handlers
        ⟨⟨0, [10, 11], 2⟩, [],
          [.reduce_item ⟨.UTIL_COLL_REDUCE, 0, BARRIER⟩ 100 200 1 FI_UINT64 10,
            .coll_state ⟨.UTIL_COLL_COMP, 0, 0⟩ .UTIL_COLL_BARRIER_OP 55 300
              (some .util_coll_barrier_comp)], [], 0, 1, 0⟩
        ⟨fun p => if p = 100 then 5 else 3, []⟩).map
      (fun r => (r.1, r.2.1.deferred_list, r.2.2.comp_calls, r.2.2.mem 200)) =
      some (-FI_ENOSYS,
        [.coll_state ⟨.UTIL_COLL_COMP, 0, 0⟩ .UTIL_COLL_BARRIER_OP 55 300
          (some .util_coll_barrier_comp)], [], 3) ∧
    ((util_coll_schedule sum_handlers
        ⟨⟨0, [10, 11], 2⟩, [],
          [.reduce_item ⟨.UTIL_COLL_REDUCE, 0, BARRIER⟩ 100 200 1 FI_UINT64 10,
            .coll_state ⟨.UTIL_COLL_COMP, 0, 0⟩ .UTIL_COLL_BARRIER_OP 55 300
              (some .util_coll_barrier_comp)], [], 0, 1, 0⟩
        ⟨fun p => if p = 100 then 5 else 3, []⟩).bind
      (fun r => util_coll_schedule sum_handlers r.2.1 r.2.2)).map
      (fun r => (r.1, r.2.1.deferred_list, r.2.2.comp_calls.map util_coll_barrier_comp)) =
      some (FI_SUCCESS, [], [some (.ofi_cq_write ⟨55, FI_COLLECTIVE, 64, 300, 0, 0⟩)]) := by
  decide

/-- C17, amended: when the barrier list is empty and the deferred list starts with a
Reduce item whose op lies outside MIN..BXOR, `util_coll_schedule` returns `-FI_ENOSYS`
to its caller; the item is consumed, the rest of the deferred list (with the
Completion item of the collective) stays queued, no buffer changes and no callback is
invoked. What `util_coll_barrier_comp` writes for a state is always an ordinary
completion. -/
theorem C17_unsupported_reduce_returns_enosys {α : Type}
    (handlers : Nat → Nat → Int → α → α → α) (mc : util_coll_mc) (env : coll_env α)
    (hdr : util_coll_hdr) (in_buf inout_buf : Ptr) (count : Int) (datatype op : Nat)
    (rest : List work_item)
    (hD : mc.deferred_list = .reduce_item hdr in_buf inout_buf count datatype op :: rest)
    (hB : mc.barrier_list = []) (hty : hdr.type = .UTIL_COLL_REDUCE)
    (hop : ¬ (FI_MIN ≤ op ∧ op ≤ FI_BXOR)) :
    util_coll_schedule handlers mc env =
      some (-FI_ENOSYS, { mc with deferred_list := rest }, env) ∧
    (∀ state w, util_coll_barrier_comp state = some w → ∃ entry, w = .ofi_cq_write entry) := by
  constructor
  · obtain ⟨av_set, B, D, P, my_rank, cid, seq⟩ := mc
    obtain ⟨ty, tag, b⟩ := hdr
    simp only at hD hB hty
    subst hD hB hty
    simp [util_coll_schedule, util_coll_process_work_items, process_work_items_loop,
      util_coll_proc_reduce_item, hop, work_item.hdr, FI_ENOSYS]
  · intro state w h
    cases state with
    | coll_state hdr type context data comp_fn =>
      simp only [util_coll_barrier_comp, Option.some.injEq] at h
      exact ⟨_, h.symm⟩
    | xfer_item hdr buf count rank datatype => simp [util_coll_barrier_comp] at h
    | copy_item hdr in_buf out_buf count datatype => simp [util_coll_barrier_comp] at h
    | reduce_item hdr in_buf inout_buf count datatype op => simp [util_coll_barrier_comp] at h

theorem C17_unsupported_reduce_returns_enosys_witness :
    util_coll_schedule sum_handlers
        ⟨⟨0, [10, 11], 2⟩, [],
          [.reduce_item ⟨.UTIL_COLL_REDUCE, 0, BARRIER⟩ 100 200 1 FI_UINT64 10,
            .coll_state ⟨.UTIL_COLL_COMP, 0, 0⟩ .UTIL_COLL_BARRIER_OP 55 300
              (some .util_coll_barrier_comp)], [], 0, 1, 0⟩
        ⟨fun _ => 0, []⟩ =
      some (-FI_ENOSYS,
        ⟨⟨0, [10, 11], 2⟩, [],
          [.coll_state ⟨.UTIL_COLL_COMP, 0, 0⟩ .UTIL_COLL_BARRIER_OP 55 300
            (some .util_coll_barrier_comp)], [], 0, 1, 0⟩,
        ⟨fun _ => 0, []⟩) :=
  (C17_unsupported_reduce_returns_enosys sum_handlers
    ⟨⟨0, [10, 11], 2⟩, [],
      [.reduce_item ⟨.UTIL_COLL_REDUCE, 0, BARRIER⟩ 100 200 1 FI_UINT64 10,
        .coll_state ⟨.UTIL_COLL_COMP, 0, 0⟩ .UTIL_COLL_BARRIER_OP 55 300
          (some .util_coll_barrier_comp)], [], 0, 1, 0⟩
    ⟨fun _ => 0, []⟩ ⟨.UTIL_COLL_REDUCE, 0, BARRIER⟩ 100 200 1 FI_UINT64 10 _ rfl rfl rfl
    (by decide)).1

/-! ### The barrier's completion comes after its transfers -/

/-- What a call of the loop of `util_coll_process_pending` does to the pending-transfer
list: it takes items off the head, and every transfer it submits carries the tag of one
of them, in order. -/
theorem pending_loop_split (fi_tsendmsg fi_trecvmsg : fi_msg_tagged → Int)
    (fi_addr_array : List Nat) :
    ∀ (P : List work_item) (done : List submission) (ret : Int) (P1 : List work_item)
      (done1 : List submission),
      process_pending_loop fi_tsendmsg fi_trecvmsg fi_addr_array P done = some (ret, P1, done1) →
      ∃ pre sub, P = pre ++ P1 ∧ done1 = done ++ sub ∧
        List.Sublist (sub.map submission.tag) (pre.map (fun item => item.hdr.tag)) := by
  intro P
  induction P with
  | nil =>
    intro done ret P1 done1 h
    simp only [process_pending_loop, Option.some.injEq, Prod.mk.injEq] at h
    obtain ⟨_, rfl, rfl⟩ := h
    exact ⟨[], [], rfl, by simp, by simp⟩
  | cons entry pending ih =>
    intro done ret P1 done1 h
    have hcont : ∀ (s : List submission) (b : Int),
        List.Sublist (s.map submission.tag) [entry.hdr.tag] →
        (if b ≠ 0 then some (FI_SUCCESS, pending, done ++ s)
          else process_pending_loop fi_tsendmsg fi_trecvmsg fi_addr_array pending (done ++ s)) =
          some (ret, P1, done1) →
        ∃ pre sub, entry :: pending = pre ++ P1 ∧ done1 = done ++ sub ∧
          List.Sublist (sub.map submission.tag) (pre.map (fun item => item.hdr.tag)) := by
      intro s b hs hb
      by_cases hbz : b ≠ 0
      · rw [if_pos hbz] at hb
        simp only [Option.some.injEq, Prod.mk.injEq] at hb
        obtain ⟨_, rfl, rfl⟩ := hb
        exact ⟨[entry], s, by simp, rfl, by simpa using hs⟩
      · rw [if_neg hbz] at hb
        obtain ⟨pre, sub, e1, e2, e3⟩ := ih _ _ _ _ hb
        refine ⟨entry :: pre, s ++ sub, by rw [e1]; rfl, by rw [e2, List.append_assoc], ?_⟩
        rw [List.map_append, List.map_cons]
        exact List.Sublist.append hs e3
    unfold process_pending_loop at h
    split at h
    · rename_i ty e hdr buf count rank datatype hty
      by_cases hr : rank < 0
      · simp [hr] at h
      · cases harr : fi_addr_array[rank.toNat]? with
        | none => simp [hr, harr] at h
        | some addr =>
          by_cases herr : fi_tsendmsg ⟨addr, hdr.tag, buf, count, datatype⟩ = 0
          · simp only [hr, if_false, harr, herr, ne_eq, not_true_eq_false] at h
            exact hcont [.tsend ⟨addr, hdr.tag, buf, count, datatype⟩] _ (by simp [submission.tag, work_item.hdr]) h
          · simp only [hr, if_false, harr, herr, ne_eq, not_false_eq_true, if_true,
              Option.some.injEq, Prod.mk.injEq] at h
            obtain ⟨_, rfl, rfl⟩ := h
            exact ⟨[], [], rfl, by simp, by simp⟩
    · rename_i ty e hdr buf count rank datatype hty
      by_cases hr : rank < 0
      · simp [hr] at h
      · cases harr : fi_addr_array[rank.toNat]? with
        | none => simp [hr, harr] at h
        | some addr =>
          by_cases herr : fi_trecvmsg ⟨addr, hdr.tag, buf, count, datatype⟩ = 0
          · simp only [hr, if_false, harr, herr, ne_eq, not_true_eq_false] at h
            exact hcont [.trecv ⟨addr, hdr.tag, buf, count, datatype⟩] _ (by simp [submission.tag, work_item.hdr]) h
          · simp only [hr, if_false, harr, herr, ne_eq, not_false_eq_true, if_true,
              Option.some.injEq, Prod.mk.injEq] at h
            obtain ⟨_, rfl, rfl⟩ := h
            exact ⟨[_], [], rfl, by simp, by simp⟩
    · simp at h
    · simp at h
    · simp only [ne_eq, not_true_eq_false, if_false] at h
      rename_i e1 _ _ _ _ _ _
      refine hcont [] e1.hdr.is_barrier (by simp) ?_
      simpa using h

section barrier_engine

variable {α : Type} (handlers : Nat → Nat → Int → α → α → α)

/-- A call of `util_coll_schedule` keeps `engine_inv`. -/
theorem inv_schedule (mc : util_coll_mc) (env : coll_env α) (O : List submission) (ret : Int)
    (mc1 : util_coll_mc) (env1 : coll_env α) (hinv : engine_inv ⟨mc, env, O⟩)
    (hs : util_coll_schedule handlers mc env = some (ret, mc1, env1)) :
    engine_inv ⟨mc1, env1, O⟩ := by
  obtain ⟨av_set, B, D, P, my_rank, cid, seq⟩ := mc
  obtain ⟨M, calls⟩ := env
  obtain ⟨hD, hBn, hPn, hPB, hOn, hO, hC⟩ := hinv
  simp only at hD hBn hPn hPB hOn hO hC
  by_cases hB : B = []
  · subst hB
    have hP : P = [] := by
      cases P with
      | nil => rfl
      | cons x P => exact absurd (hPB x (List.mem_cons_self _ _)) (List.not_mem_nil _)
    have hO1 : O = [] := by
      cases O with
      | nil => rfl
      | cons m O =>
        obtain ⟨item, hitem, _⟩ := hO m (List.mem_cons_self _ _)
        exact absurd hitem (List.not_mem_nil _)
    subst hP hO1
    have hcalls : D ≠ [] → calls = [] := by
      intro hne
      by_contra h
      exact hne (hC h).1
    cases hD with
    | nil =>
      simp only [util_coll_schedule, util_coll_process_work_items, process_work_items_loop,
        if_true, FI_SUCCESS, ne_eq, not_true_eq_false, if_false, Option.some.injEq,
        Prod.mk.injEq] at hs
      obtain ⟨_, rfl, rfl⟩ := hs
      exact ⟨sched_ok.nil, hBn, hPn, hPB, hOn, hO, hC⟩
    | comp hdr type context data comp_fn hty =>
      obtain ⟨ty, tag, b⟩ := hdr
      simp only at hty
      subst hty
      cases comp_fn with
      | none =>
        by_cases hb : b = 0
        · simp [util_coll_schedule, util_coll_process_work_items, process_work_items_loop,
            work_item.hdr, hb, FI_SUCCESS] at hs
          obtain ⟨_, rfl, rfl⟩ := hs
          exact ⟨sched_ok.nil, by simp, by simp, by simp, by simp, by simp, by simp⟩
        · simp [util_coll_schedule, util_coll_process_work_items, process_work_items_loop,
            work_item.hdr, hb, FI_SUCCESS] at hs
          obtain ⟨_, rfl, rfl⟩ := hs
          exact ⟨sched_ok.nil, by simp, by simp, by simp, by simp, by simp, by simp⟩
      | some fn =>
        by_cases hb : b = 0
        · simp [util_coll_schedule, util_coll_process_work_items, process_work_items_loop,
            work_item.hdr, hb, FI_SUCCESS] at hs
          obtain ⟨_, rfl, rfl⟩ := hs
          exact ⟨sched_ok.nil, by simp, by simp, by simp, by simp, by simp, by simp⟩
        · simp [util_coll_schedule, util_coll_process_work_items, process_work_items_loop,
            work_item.hdr, hb, FI_SUCCESS] at hs
          obtain ⟨_, rfl, rfl⟩ := hs
          exact ⟨sched_ok.nil, by simp, by simp, by simp, by simp, by simp, by simp⟩
    | reduce hdr in_buf inout_buf count datatype op rest hty hb hrest =>
      obtain ⟨ty, tag, b⟩ := hdr
      simp only at hty hb
      subst hty
      have hc := hcalls (by simp)
      subst hc
      by_cases hop : FI_MIN ≤ op ∧ op ≤ FI_BXOR
      · simp [util_coll_schedule, util_coll_process_work_items, process_work_items_loop,
          work_item.hdr, hb, FI_SUCCESS, util_coll_proc_reduce_item, hop] at hs
        obtain ⟨_, rfl, rfl⟩ := hs
        exact ⟨hrest, by simp, by simp, by simp, by simp, by simp, by simp⟩
      · simp [util_coll_schedule, util_coll_process_work_items, process_work_items_loop,
          work_item.hdr, hb, FI_SUCCESS, util_coll_proc_reduce_item, hop, FI_ENOSYS] at hs
        obtain ⟨_, rfl, rfl⟩ := hs
        exact ⟨hrest, by simp, by simp, by simp, by simp, by simp, by simp⟩
    | copy hdr in_buf out_buf count datatype rest hty hb hrest =>
      obtain ⟨ty, tag, b⟩ := hdr
      simp only at hty hb
      subst hty
      have hc := hcalls (by simp)
      subst hc
      simp [util_coll_schedule, util_coll_process_work_items, process_work_items_loop,
        work_item.hdr, hb, FI_SUCCESS] at hs
      obtain ⟨_, rfl, rfl⟩ := hs
      exact ⟨hrest, by simp, by simp, by simp, by simp, by simp, by simp⟩
    | xfer item rest hx hb hrest =>
      have hc := hcalls (by simp)
      subst hc
      have hs1 : util_coll_schedule handlers ⟨av_set, [], item :: rest, [], my_rank, cid, seq⟩
          ⟨M, []⟩ = some (FI_SUCCESS, ⟨av_set, [item], rest, [item], my_rank, cid, seq⟩,
            ⟨M, []⟩) := by
        rcases hx with h | h <;>
          simp [util_coll_schedule, util_coll_process_work_items, process_work_items_loop, h,
            hb, FI_SUCCESS]
      rw [hs1] at hs
      simp only [Option.some.injEq, Prod.mk.injEq] at hs
      obtain ⟨_, rfl, rfl⟩ := hs
      exact ⟨hrest, by simp, by simp, by simp, by simp, by simp, by simp⟩
    | pair first second rest hx1 hb1 hx2 hb2 htag hrest =>
      have hc := hcalls (by simp)
      subst hc
      have hs1 : util_coll_schedule handlers
          ⟨av_set, [], first :: second :: rest, [], my_rank, cid, seq⟩ ⟨M, []⟩ =
          some (FI_SUCCESS, ⟨av_set, [first, second], rest, [first, second], my_rank, cid, seq⟩,
            ⟨M, []⟩) := by
        rcases hx1 with h1 | h1 <;> rcases hx2 with h2 | h2 <;>
          simp [util_coll_schedule, util_coll_process_work_items, process_work_items_loop, h1,
            h2, hb1, hb2, FI_SUCCESS]
      rw [hs1] at hs
      simp only [Option.some.injEq, Prod.mk.injEq] at hs
      obtain ⟨_, rfl, rfl⟩ := hs
      exact ⟨hrest, by simpa using htag, by simpa using htag, by simp, by simp, by simp,
        by simp⟩
  · simp only [util_coll_schedule, hB, if_false, Option.some.injEq, Prod.mk.injEq] at hs
    obtain ⟨_, rfl, rfl⟩ := hs
    exact ⟨hD, hBn, hPn, hPB, hOn, hO, hC⟩

end barrier_engine

theorem eraseIdx_tag_ne {β γ : Type} (f : β → γ) :
    ∀ (l : List β) (i : Nat) (a b : β), (l.map f).Nodup → l[i]? = some a →
      b ∈ l.eraseIdx i → f b ≠ f a := by
  intro l
  induction l with
  | nil => intro i a b _ h; simp at h
  | cons x l ih =>
    intro i a b hnd hget hb
    rw [List.map_cons, List.nodup_cons] at hnd
    cases i with
    | zero =>
      simp only [List.getElem?_cons_zero, Option.some.injEq] at hget
      subst hget
      simp only [List.eraseIdx_cons_zero] at hb
      intro he
      exact hnd.1 (he ▸ List.mem_map_of_mem f hb)
    | succ i =>
      simp only [List.getElem?_cons_succ] at hget
      simp only [List.eraseIdx_cons_succ, List.mem_cons] at hb
      rcases hb with rfl | hb
      · intro he
        exact hnd.1 (he ▸ List.mem_map_of_mem f (List.mem_iff_getElem?.2 ⟨i, hget⟩))
      · exact ih i a b hnd.2 hget hb

section barrier_engine_steps

variable {α : Type} (handlers : Nat → Nat → Int → α → α → α)

/-- A call of `util_coll_process_pending` keeps `engine_inv`, whatever the transport
answers. -/
theorem inv_pending (fi_tsendmsg fi_trecvmsg : fi_msg_tagged → Int) (mc : util_coll_mc)
    (env : coll_env α) (O : List submission) (ret : Int) (mc1 : util_coll_mc)
    (done : List submission) (hinv : engine_inv ⟨mc, env, O⟩)
    (hs : util_coll_process_pending fi_tsendmsg fi_trecvmsg mc = some (ret, mc1, done)) :
    engine_inv ⟨mc1, env, O ++ done⟩ := by
  obtain ⟨av_set, B, D, P, my_rank, cid, seq⟩ := mc
  obtain ⟨hD, hBn, hPn, hPB, hOn, hO, hC⟩ := hinv
  simp only at hD hBn hPn hPB hOn hO hC
  unfold util_coll_process_pending at hs
  simp only at hs
  cases hl : process_pending_loop fi_tsendmsg fi_trecvmsg av_set.fi_addr_array P [] with
  | none => simp [hl] at hs
  | some r =>
    obtain ⟨ret1, P1, done1⟩ := r
    simp only [hl, Option.some.injEq, Prod.mk.injEq] at hs
    obtain ⟨_, rfl, rfl⟩ := hs
    obtain ⟨pre, sub, e1, e2, e3⟩ := pending_loop_split _ _ _ _ _ _ _ _ hl
    simp only [List.nil_append] at e2
    subst e1 e2
    rw [List.map_append, List.nodup_append] at hPn
    obtain ⟨hpre, hP1, hdisj⟩ := hPn
    have hsubmem : ∀ m, m ∈ done1 → ∃ item, item ∈ pre ∧ item.hdr.tag = m.tag := by
      intro m hm
      have h1 : m.tag ∈ pre.map (fun item => item.hdr.tag) :=
        e3.subset (List.mem_map_of_mem submission.tag hm)
      obtain ⟨item, h2, h3⟩ := List.mem_map.1 h1
      exact ⟨item, h2, h3⟩
    have hpre1 : ∀ item, item ∈ pre → item ∉ P1 := by
      intro item h1 h2
      exact hdisj (List.mem_map_of_mem (fun item => item.hdr.tag) h1)
        (List.mem_map_of_mem (fun item => item.hdr.tag) h2)
    refine ⟨hD, hBn, hP1, fun item h => hPB item (List.mem_append_right _ h), ?_, ?_, hC⟩
    · rw [List.map_append, List.nodup_append]
      refine ⟨hOn, e3.nodup hpre, ?_⟩
      intro t ht1 ht2
      obtain ⟨m, hm, rfl⟩ := List.mem_map.1 ht1
      obtain ⟨m2, hm2, htag⟩ := List.mem_map.1 ht2
      obtain ⟨x, hxB, hxt, hxP⟩ := hO m hm
      obtain ⟨y, hy, hyt⟩ := hsubmem m2 hm2
      have hyB := hPB y (List.mem_append_left _ hy)
      have hxy : x = y := List.inj_on_of_nodup_map hBn hxB hyB (by rw [hxt, hyt, htag])
      exact hxP (hxy ▸ List.mem_append_left _ hy)
    · intro m hm
      rcases List.mem_append.1 hm with h | h
      · obtain ⟨x, hxB, hxt, hxP⟩ := hO m h
        exact ⟨x, hxB, hxt, fun hx => hxP (List.mem_append_right _ hx)⟩
      · obtain ⟨y, hy, hyt⟩ := hsubmem m h
        exact ⟨y, hPB y (List.mem_append_left _ hy), hyt, hpre1 y hy⟩

/-- What `ofi_coll_handle_comp` does for the completion of an outstanding transfer keeps
`engine_inv`. -/
theorem inv_handle_comp (mc : util_coll_mc) (env env0 : coll_env α) (O : List submission)
    (i : Nat) (m : submission) (mc1 : util_coll_mc) (env1 : coll_env α)
    (hinv : engine_inv ⟨mc, env, O⟩) (hm : O[i]? = some m)
    (hcalls : env0.comp_calls = env.comp_calls)
    (hs : ofi_coll_handle_comp handlers m.tag mc env0 = some (mc1, env1)) :
    engine_inv ⟨mc1, env1, O.eraseIdx i⟩ := by
  obtain ⟨av_set, B, D, P, my_rank, cid, seq⟩ := mc
  obtain ⟨hD, hBn, hPn, hPB, hOn, hO, hC⟩ := hinv
  simp only at hD hBn hPn hPB hOn hO hC
  obtain ⟨x, hxB, hxt, hxP⟩ := hO m (List.mem_iff_getElem?.2 ⟨i, hm⟩)
  have hmid : engine_inv ⟨⟨av_set, B.eraseP (fun item => decide (item.hdr.tag = m.tag)), D, P,
      my_rank, cid, seq⟩, env0, O.eraseIdx i⟩ := by
    have hkeep : ∀ y, y ∈ B → y.hdr.tag ≠ m.tag →
        y ∈ B.eraseP (fun item => decide (item.hdr.tag = m.tag)) := by
      intro y hy hne
      exact (List.mem_eraseP_of_neg (by simpa using hne)).2 hy
    refine ⟨hD, ((List.eraseP_sublist B).map _).nodup hBn, hPn, ?_,
      ((List.eraseIdx_sublist O i).map _).nodup hOn, ?_, ?_⟩
    · intro y hy
      refine hkeep y (hPB y hy) ?_
      intro he
      have hxy : x = y := List.inj_on_of_nodup_map hBn hxB (hPB y hy) (by rw [hxt, he])
      exact hxP (hxy ▸ hy)
    · intro m2 hm2
      obtain ⟨x2, hx2B, hx2t, hx2P⟩ := hO m2 (List.mem_of_mem_eraseIdx hm2)
      refine ⟨x2, hkeep x2 hx2B ?_, hx2t, hx2P⟩
      rw [hx2t]
      exact eraseIdx_tag_ne submission.tag O i m m2 hOn hm hm2
    · intro hne
      rw [hcalls] at hne
      have := (hC hne).2
      rw [this] at hxB
      exact absurd hxB (List.not_mem_nil _)
  unfold ofi_coll_handle_comp at hs
  simp only at hs
  cases hsch : util_coll_schedule handlers ⟨av_set,
      B.eraseP (fun item => decide (item.hdr.tag = m.tag)), D, P, my_rank, cid, seq⟩ env0 with
  | none => simp [hsch] at hs
  | some r =>
    obtain ⟨ret, mc2, env2⟩ := r
    simp only [hsch, Option.some.injEq, Prod.mk.injEq] at hs
    obtain ⟨rfl, rfl⟩ := hs
    exact inv_schedule handlers _ _ _ _ _ _ hmid hsch

/-- Every event keeps `engine_inv`. -/
theorem engine_step_inv (s s1 : engine_state α) (ev : engine_event α) (hinv : engine_inv s)
    (hs : engine_step handlers s ev = some s1) : engine_inv s1 := by
  obtain ⟨mc, env, O⟩ := s
  cases ev with
  | schedule =>
    simp only [engine_step] at hs
    cases hr : util_coll_schedule handlers mc env with
    | none => simp [hr] at hs
    | some r =>
      obtain ⟨ret, mc1, env1⟩ := r
      simp only [hr, Option.some.injEq] at hs
      subst hs
      exact inv_schedule handlers _ _ _ _ _ _ hinv hr
  | pending fi_tsendmsg fi_trecvmsg =>
    simp only [engine_step] at hs
    cases hr : util_coll_process_pending fi_tsendmsg fi_trecvmsg mc with
    | none => simp [hr] at hs
    | some r =>
      obtain ⟨ret, mc1, done⟩ := r
      simp only [hr, Option.some.injEq] at hs
      subst hs
      exact inv_pending _ _ _ _ _ _ _ _ hinv hr
  | completion i data =>
    simp only [engine_step] at hs
    cases hm : O[i]? with
    | none => simp [hm] at hs
    | some m =>
      cases m with
      | tsend msg =>
        simp only [hm] at hs
        cases hr : ofi_coll_handle_comp handlers msg.tag mc env with
        | none => simp [hr] at hs
        | some r =>
          obtain ⟨mc1, env1⟩ := r
          simp only [hr, Option.some.injEq] at hs
          subst hs
          exact inv_handle_comp handlers mc env env O i (.tsend msg) mc1 env1 hinv hm rfl hr
      | trecv msg =>
        simp only [hm] at hs
        cases hr : ofi_coll_handle_comp handlers msg.tag mc
            ⟨Function.update env.mem msg.iov_base data, env.comp_calls⟩ with
        | none => simp [hr] at hs
        | some r =>
          obtain ⟨mc1, env1⟩ := r
          simp only [hr, Option.some.injEq] at hs
          subst hs
          exact inv_handle_comp handlers mc env
            ⟨Function.update env.mem msg.iov_base data, env.comp_calls⟩ O i (.trecv msg) mc1
            env1 hinv hm rfl hr

/-- A run keeps `engine_inv`. -/
theorem engine_run_inv :
    ∀ (evs : List (engine_event α)) (s s1 : engine_state α), engine_inv s →
      engine_run handlers evs s = some s1 → engine_inv s1 := by
  intro evs
  induction evs with
  | nil =>
    intro s s1 hinv h
    simp only [engine_run, Option.some.injEq] at h
    exact h ▸ hinv
  | cons ev evs ih =>
    intro s s1 hinv h
    simp only [engine_run] at h
    cases hr : engine_step handlers s ev with
    | none => simp [hr] at h
    | some s2 =>
      simp only [hr] at h
      exact ih s2 s1 (engine_step_inv handlers s s2 ev hinv hr) h

end barrier_engine_steps

theorem barrier_ne_zero : BARRIER ≠ 0 := by decide

/-- The exchange rounds from round `i` on, followed by a list in chunks, are in chunks. -/
theorem rounds_sched_ok (coll_id : Nat) (send_buf recv_buf : Ptr) (count : Int)
    (datatype op n r L v : Nat) (hL : L = Nat.log2 n) (hr : r = n - 2 ^ L) (hn1 : 1 ≤ n)
    (hn31 : n < 2 ^ 31) (hv : v < 2 ^ L) :
    ∀ j i (rest : List work_item), i + j = L → sched_ok rest →
      sched_ok (rounds_items coll_id send_buf recv_buf count datatype op r (real_rank r v) v i j
        ++ rest) := by
  have hple : 2 ^ Nat.log2 n ≤ n := Nat.log2_self_le (by omega)
  have hnr : n = 2 ^ L + r := by subst hL; omega
  intro j
  induction j with
  | zero =>
    intro i rest _ hrest
    simpa [rounds_items] using hrest
  | succ j ih =>
    intro i rest hij hrest
    have hu : v ^^^ 2 ^ i < 2 ^ L := xor_pow_lt L i v (by omega) hv
    have hd : real_rank r (v ^^^ 2 ^ i) < n := real_rank_lt (2 ^ L) r n _ hnr hu
    have hkn : real_rank r v < n := real_rank_lt (2 ^ L) r n _ hnr hv
    have hne : real_rank r (v ^^^ 2 ^ i) ≠ real_rank r v := real_rank_ne r _ _ (xor_pow_ne v i)
    have htag : util_coll_form_tag coll_id (real_rank r (v ^^^ 2 ^ i)) ≠
        util_coll_form_tag coll_id (real_rank r v) :=
      form_tag_ne coll_id _ _ (by omega) (by omega) hne
    have hih := ih (i + 1) rest (by omega) hrest
    by_cases hlt : real_rank r (v ^^^ 2 ^ i) < real_rank r v
    · simp only [rounds_items, round_items, hlt, if_true, List.cons_append, List.nil_append,
        List.append_assoc]
      refine sched_ok.pair _ _ _ (Or.inr rfl) rfl (Or.inl rfl) barrier_ne_zero htag ?_
      exact sched_ok.reduce _ _ _ _ _ _ _ rfl (by decide) hih
    · simp only [rounds_items, round_items, hlt, if_false, List.cons_append, List.nil_append,
        List.append_assoc]
      refine sched_ok.pair _ _ _ (Or.inr rfl) rfl (Or.inl rfl) barrier_ne_zero htag ?_
      refine sched_ok.reduce _ _ _ _ _ _ _ rfl (by decide) ?_
      exact sched_ok.copy _ _ _ _ _ _ rfl (by decide) hih

/-- The schedule of one all-reduce at rank `k` of `n`, followed by a Completion item, is
a list in chunks. -/
theorem allreduce_then_comp_sched_ok (coll_id : Nat) (send_buf recv_buf : Ptr) (count : Int)
    (datatype op n k : Nat) (hn1 : 1 ≤ n) (hn31 : n < 2 ^ 31) (hk : k < n)
    (hdr : util_coll_hdr) (type : util_coll_op_type) (context data : Ptr)
    (comp_fn : Option util_coll_comp_fn) (hty : hdr.type = .UTIL_COLL_COMP) :
    sched_ok (allreduce_items coll_id send_buf recv_buf count datatype op n k ++
      [.coll_state hdr type context data comp_fn]) := by
  have hple : 2 ^ Nat.log2 n ≤ n := Nat.log2_self_le (by omega)
  have hnlt : n < 2 ^ (Nat.log2 n + 1) := Nat.lt_log2_self
  rw [pow_succ] at hnlt
  have hcomp := sched_ok.comp hdr type context data comp_fn hty
  by_cases hlow : k < 2 * (n - 2 ^ Nat.log2 n)
  · by_cases hev : k % 2 = 0
    · simp only [allreduce_items, hlow, if_true, hev, List.cons_append, List.nil_append]
      refine sched_ok.xfer _ _ (Or.inl rfl) barrier_ne_zero ?_
      exact sched_ok.xfer _ _ (Or.inr rfl) barrier_ne_zero hcomp
    · have hkv : real_rank (n - 2 ^ Nat.log2 n) (k / 2) = k := by
        unfold real_rank
        rw [if_pos (by omega)]
        omega
      have hrounds := rounds_sched_ok coll_id send_buf recv_buf count datatype op n
        (n - 2 ^ Nat.log2 n) (Nat.log2 n) (k / 2) rfl rfl hn1 hn31 (by omega) (Nat.log2 n) 0
        ([send_item (util_coll_form_tag coll_id k) BARRIER send_buf count (k - 1) datatype] ++
          [.coll_state hdr type context data comp_fn]) (by omega)
        (sched_ok.xfer (send_item (util_coll_form_tag coll_id k) BARRIER send_buf count (k - 1)
          datatype) _ (Or.inl rfl) barrier_ne_zero hcomp)
      rw [hkv] at hrounds
      simp only [allreduce_items, hlow, if_true, hev, if_false, List.cons_append,
        List.nil_append, List.append_assoc]
      refine sched_ok.xfer _ _ (Or.inr rfl) barrier_ne_zero ?_
      refine sched_ok.reduce _ _ _ _ _ _ _ rfl (by decide) ?_
      simpa using hrounds
  · have hkv : real_rank (n - 2 ^ Nat.log2 n) (k - (n - 2 ^ Nat.log2 n)) = k := by
      unfold real_rank
      rw [if_neg (by omega)]
      omega
    have hrounds := rounds_sched_ok coll_id send_buf recv_buf count datatype op n
      (n - 2 ^ Nat.log2 n) (Nat.log2 n) (k - (n - 2 ^ Nat.log2 n)) rfl rfl hn1 hn31 (by omega)
      (Nat.log2 n) 0 [.coll_state hdr type context data comp_fn] (by omega) hcomp
    rw [hkv] at hrounds
    simpa only [allreduce_items, hlow, if_false] using hrounds

/-- The state `ofi_ep_barrier` leaves a member rank of a group with empty lists in
satisfies `engine_inv`. -/
theorem ep_barrier_inv {α : Type} (handlers : Nat → Nat → Int → α → α → α) (n k : Nat)
    (hn1 : 1 ≤ n) (hn31 : n < 2 ^ 31) (hk : k < n) (mc : util_coll_mc) (env : coll_env α)
    (context data : Ptr) (hcount : mc.av_set.fi_addr_count = n) (hmy : mc.my_rank = (k : Int))
    (hD : mc.deferred_list = []) (hP : mc.pending_xfer_list = []) (hB : mc.barrier_list = [])
    (hcalls : env.comp_calls = []) (r : Int × util_coll_mc × coll_env α)
    (hbar : ofi_ep_barrier handlers mc env context data = some r) :
    engine_inv ⟨r.2.1, r.2.2, []⟩ := by
  unfold ofi_ep_barrier at hbar
  rw [allreduce_closed mc data data 1 FI_UINT64 FI_BAND n k hn1 hn31 hk hcount hmy] at hbar
  simp only [FI_SUCCESS, ne_eq, not_true_eq_false, if_false, util_coll_state_init,
    util_coll_sched_comp] at hbar
  obtain ⟨av_set, B, D, P, my_rank, cid, seq⟩ := mc
  simp only at hD hP hB
  subst hD hP hB
  generalize hmid : ({ mc_append (util_coll_get_next_id ⟨av_set, [], [], [], my_rank, cid, seq⟩).2
      (allreduce_items (util_coll_get_next_id ⟨av_set, [], [], [], my_rank, cid, seq⟩).1 data
        data 1 FI_UINT64 FI_BAND n k) with
      deferred_list := (mc_append (util_coll_get_next_id ⟨av_set, [], [], [], my_rank, cid, seq⟩).2
        (allreduce_items (util_coll_get_next_id ⟨av_set, [], [], [], my_rank, cid, seq⟩).1 data
          data 1 FI_UINT64 FI_BAND n k)).deferred_list ++
        [.coll_state ⟨.UTIL_COLL_COMP, 0, 0⟩ .UTIL_COLL_BARRIER_OP context data
          (some .util_coll_barrier_comp)] } : util_coll_mc) = mid at hbar
  have hinv : engine_inv (⟨mid, env, []⟩ : engine_state α) := by
    subst hmid
    refine ⟨?_, by simp [mc_append, util_coll_get_next_id],
      by simp [mc_append, util_coll_get_next_id],
      by simp [mc_append, util_coll_get_next_id], by simp, by simp, ?_⟩
    · have h := allreduce_then_comp_sched_ok
        (util_coll_get_next_id ⟨av_set, [], [], [], my_rank, cid, seq⟩).1 data data 1 FI_UINT64
        FI_BAND n k hn1 hn31 hk ⟨.UTIL_COLL_COMP, 0, 0⟩ .UTIL_COLL_BARRIER_OP context data
        (some .util_coll_barrier_comp) rfl
      simpa [mc_append, util_coll_get_next_id] using h
    · intro hne
      exact absurd hcalls hne
  cases hsch : util_coll_schedule handlers mid env with
  | none => simp [hsch] at hbar
  | some q =>
    obtain ⟨ret, mc3, env3⟩ := q
    simp only [hsch, Option.some.injEq] at hbar
    subst hbar
    exact inv_schedule handlers _ _ _ _ _ _ hinv hsch

set_option maxRecDepth 100000 in
/-- C18 as stated fails when a completion is delivered twice: rank 1 of a group of three
issues a barrier; its schedule is Recv(0), Reduce, Recv(2), Send(2), Reduce, Copy,
Send(0), Completion, and both Sends carry the tag `0x8000000100010000` of rank 1. The
transport accepts every submission. After the Send to rank 2 has completed and the Send
to rank 0 has been moved to the pending-transfer and barrier lists, the completion of
the Send to rank 2, a transfer already submitted, is delivered a second time:
`ofi_coll_handle_comp` retires the Send to rank 0 from the barrier list and the
callback of the barrier is invoked while that Send is still in the pending-transfer
list. -/
theorem C18_second_delivery_completes_barrier_early :
    ((ofi_ep_barrier band_handlers ⟨⟨0, [10, 11, 12], 3⟩, [], [], [], 1, 1, 0⟩ ⟨fun _ => 1, []⟩
        55 300).bind (fun r => redelivery_run band_handlers
          [.pending (fun _ => 0) (fun _ => 0), .completion 0 1, .schedule,
            .pending (fun _ => 0) (fun _ => 0), .completion 1 1, .completion 2 1, .schedule,
            .schedule]
          ⟨r.2.1, r.2.2, []⟩)).map
      (fun s => (s.mc.deferred_list, s.mc.pending_xfer_list, s.mc.barrier_list,
        s.env.comp_calls, s.outstanding)) =
      some ([.coll_state ⟨.UTIL_COLL_COMP, 0, 0⟩ .UTIL_COLL_BARRIER_OP 55 300
          (some .util_coll_barrier_comp)],
        [send_item 0x8000000100010000 BARRIER 300 1 0 FI_UINT64],
        [send_item 0x8000000100010000 BARRIER 300 1 0 FI_UINT64], [],
        [.trecv ⟨10, 0x8000000000010000, 300, 1, FI_UINT64⟩,
          .trecv ⟨12, 0x8000000200010000, 300, 1, FI_UINT64⟩,
          .tsend ⟨12, 0x8000000100010000, 300, 1, FI_UINT64⟩]) ∧
    ((ofi_ep_barrier band_handlers ⟨⟨0, [10, 11, 12], 3⟩, [], [], [], 1, 1, 0⟩ ⟨fun _ => 1, []⟩
        55 300).bind (fun r => redelivery_run band_handlers
          [.pending (fun _ => 0) (fun _ => 0), .completion 0 1, .schedule,
            .pending (fun _ => 0) (fun _ => 0), .completion 1 1, .completion 2 1, .schedule,
            .schedule, .completion 2 1]
          ⟨r.2.1, r.2.2, []⟩)).map
      (fun s => (s.mc.deferred_list, s.mc.pending_xfer_list, s.mc.barrier_list,
        s.env.comp_calls)) =
      some ([], [send_item 0x8000000100010000 BARRIER 300 1 0 FI_UINT64], [],
        [.coll_state ⟨.UTIL_COLL_COMP, 0, 0⟩ .UTIL_COLL_BARRIER_OP 55 300
          (some .util_coll_barrier_comp)]) ∧
    is_xfer (send_item 0x8000000100010000 BARRIER 300 1 0 FI_UINT64) := by
  refine ⟨by decide, by decide, Or.inl rfl⟩

/-- C18, amended: at a member rank of a group of `n ≥ 1` whose lists are empty, after
`ofi_ep_barrier` and any run of calls of `util_coll_schedule`, of
`util_coll_process_pending` (whatever the transport answers) and of completions of
transfers the transport has accepted, each accepted transfer being reported complete at
most once, a completion callback has been invoked only if the deferred,
pending-transfer and barrier lists are empty; so no Send or Recv item of the barrier is
in one of them when its callback is invoked. -/
theorem C18_barrier_callback_after_transfers {α : Type}
    (handlers : Nat → Nat → Int → α → α → α) (n k : Nat) (hn1 : 1 ≤ n) (hn31 : n < 2 ^ 31)
    (hk : k < n) (mc : util_coll_mc) (env : coll_env α) (context data : Ptr)
    (hcount : mc.av_set.fi_addr_count = n) (hmy : mc.my_rank = (k : Int))
    (hD : mc.deferred_list = []) (hP : mc.pending_xfer_list = []) (hB : mc.barrier_list = [])
    (hcalls : env.comp_calls = []) (r : Int × util_coll_mc × coll_env α)
    (hbar : ofi_ep_barrier handlers mc env context data = some r)
    (evs : List (engine_event α)) (s : engine_state α)
    (hrun : engine_run handlers evs ⟨r.2.1, r.2.2, []⟩ = some s) :
    s.env.comp_calls ≠ [] →
      s.mc.deferred_list = [] ∧ s.mc.pending_xfer_list = [] ∧ s.mc.barrier_list = [] ∧
      ∀ item, item ∈ s.mc.deferred_list ++ s.mc.pending_xfer_list ++ s.mc.barrier_list →
        ¬ is_xfer item := by
  intro hne
  have hinv := engine_run_inv handlers evs _ s
    (ep_barrier_inv handlers n k hn1 hn31 hk mc env context data hcount hmy hD hP hB hcalls r
      hbar) hrun
  obtain ⟨_, _, _, hPB, _, _, hC⟩ := hinv
  obtain ⟨h1, h2⟩ := hC hne
  have h3 : s.mc.pending_xfer_list = [] := by
    cases hp : s.mc.pending_xfer_list with
    | nil => rfl
    | cons x P =>
      have := hPB x (by rw [hp]; exact List.mem_cons_self _ _)
      rw [h2] at this
      exact absurd this (List.not_mem_nil _)
  refine ⟨h1, h3, h2, ?_⟩
  intro item hitem
  rw [h1, h2, h3] at hitem
  exact absurd hitem (List.not_mem_nil _)

set_option maxRecDepth 100000 in
theorem barrier_example_some :
    (ofi_ep_barrier band_handlers ⟨⟨0, [10, 11], 2⟩, [], [], [], 0, 1, 0⟩ ⟨fun _ => 1, []⟩ 55
      300).isSome = true := by
  decide

set_option maxRecDepth 100000 in
theorem barrier_example_run_some :
    (engine_run band_handlers
      [.pending (fun _ => 0) (fun _ => 0), .completion 0 1, .completion 0 1, .schedule,
        .schedule]
      ⟨((ofi_ep_barrier band_handlers ⟨⟨0, [10, 11], 2⟩, [], [], [], 0, 1, 0⟩ ⟨fun _ => 1, []⟩
          55 300).get barrier_example_some).2.1,
        ((ofi_ep_barrier band_handlers ⟨⟨0, [10, 11], 2⟩, [], [], [], 0, 1, 0⟩ ⟨fun _ => 1, []⟩
          55 300).get barrier_example_some).2.2, []⟩).isSome = true := by
  decide

set_option maxRecDepth 100000 in
/-- C18, amended, at rank 0 of a group of two: after the submissions, the two completions and two
more calls of `util_coll_schedule` the callback has been invoked, and the three lists
are empty. -/
theorem C18_barrier_callback_after_transfers_witness :
    ∃ r s, ofi_ep_barrier band_handlers ⟨⟨0, [10, 11], 2⟩, [], [], [], 0, 1, 0⟩
        ⟨fun _ => 1, []⟩ 55 300 = some r ∧
      engine_run band_handlers
        [.pending (fun _ => 0) (fun _ => 0), .completion 0 1, .completion 0 1, .schedule,
          .schedule] ⟨r.2.1, r.2.2, []⟩ = some s ∧
      s.env.comp_calls = [.coll_state ⟨.UTIL_COLL_COMP, 0, 0⟩ .UTIL_COLL_BARRIER_OP 55 300
        (some .util_coll_barrier_comp)] ∧
      s.mc.deferred_list = [] ∧ s.mc.pending_xfer_list = [] ∧ s.mc.barrier_list = [] ∧
      ∀ item, item ∈ s.mc.deferred_list ++ s.mc.pending_xfer_list ++ s.mc.barrier_list →
        ¬ is_xfer item :=
  ⟨_, _, (Option.some_get barrier_example_some).symm,
    (Option.some_get barrier_example_run_some).symm, by decide,
    C18_barrier_callback_after_transfers band_handlers 2 0 (by decide) (by decide) (by decide)
      ⟨⟨0, [10, 11], 2⟩, [], [], [], 0, 1, 0⟩ ⟨fun _ => 1, []⟩ 55 300 rfl rfl rfl rfl rfl rfl _
      (Option.some_get barrier_example_some).symm _ _
      (Option.some_get barrier_example_run_some).symm (by decide)⟩

/-! ### The claim about the send buffer -/

/-- C20: for every group of `1 ≤ n < 2 ^ 31` ranks that all compile one all-reduce with a
supported op whose handler is associative and commutative and with distinct send and
receive buffers, in every run of the engine over the transport, once the schedule has
finished at every rank the send buffer of every rank holds the reduction of all ranks'
initial send buffers. -/
theorem C20_allreduce_send_buf {α : Type} (handlers : Nat → Nat → Int → α → α → α)
    (n cid seq : Nat) (send_buf recv_buf : Ptr) (count : Int)
    (datatype op : Nat) (mem0 : Nat → Ptr → α) (hn1 : 1 ≤ n) (hn31 : n < 2 ^ 31)
    (hSR : send_buf ≠ recv_buf) (hop1 : FI_MIN ≤ op) (hop2 : op ≤ FI_BXOR)
    (hassoc : ∀ a b c, handlers op datatype count (handlers op datatype count a b) c
      = handlers op datatype count a (handlers op datatype count b c))
    (hcomm : ∀ a b, handlers op datatype count a b = handlers op datatype count b a)
    (net0 net : coll_net α) (evs : List net_event)
    (h0 : allreduce_net n cid seq send_buf recv_buf count datatype op mem0 = some net0)
    (hrun : net_run handlers evs net0 = some net) (hfin : net_finished net)
    (k : Nat) (hk : k < n) :
    (net.ranks k).env.mem send_buf
      = reduce_all (handlers op datatype count) (fun j => mem0 j send_buf) n :=
  (allreduce_result handlers n cid seq send_buf recv_buf count datatype op mem0 hn1 hn31 hSR
    hop1 hop2 hassoc hcomm net0 net evs h0 hrun hfin k hk).1

set_option maxRecDepth 100000 in
/-- C20 in the spec's example: the run finishes and the send buffer of rank 3 holds 10. -/
theorem C20_allreduce_send_buf_witness :
    ∃ net0 net, allreduce_net 4 1 0 100 200 1 FI_INT32 FI_SUM example_mem = some net0 ∧
      net_run sum_handlers example_events net0 = some net ∧ net_finished net ∧
      (net.ranks 3).env.mem 100 = 10 :=
  ⟨_, _, (Option.some_get example_net_some).symm, (Option.some_get example_run_some).symm,
    by decide,
    (C20_allreduce_send_buf sum_handlers 4 1 0 100 200 1 FI_INT32 FI_SUM example_mem (by decide)
      (by decide) (by decide) (by decide) (by decide) (fun a b c => Nat.add_assoc a b c)
      (fun a b => Nat.add_comm a b) _ _ example_events
      (Option.some_get example_net_some).symm (Option.some_get example_run_some).symm
      (by decide) 3 (by decide)).trans (by decide)⟩

/-! ### The transfers of an all-reduce schedule -/

theorem rounds_xfer_count (coll_id : Nat) (send_buf recv_buf : Ptr) (count : Int)
    (datatype op r k v : Nat) :
    ∀ j i, xfer_count (rounds_items coll_id send_buf recv_buf count datatype op r k v i j)
      = 2 * j := by
  intro j
  induction j with
  | zero => intro i; rfl
  | succ j ih =>
    intro i
    have h := ih (i + 1)
    unfold xfer_count at h ⊢
    simp only [rounds_items, round_items, List.countP_append, h]
    split <;> simp [List.countP_cons, is_xfer, recv_item, send_item, work_item.hdr] <;> omega

theorem real_rank_injective (r : Nat) : Function.Injective (real_rank r) := by
  intro u v h
  by_contra hne
  exact real_rank_ne r u v hne h

/-- The ranks that run the exchange rounds are the real ranks of the virtual ranks
`0 .. p-1`. -/
theorem runs_rounds_iff (n k : Nat) (hn1 : 1 ≤ n) :
    (k < n ∧ runs_rounds n k) ↔
      ∃ v, v < 2 ^ Nat.log2 n ∧ real_rank (n - 2 ^ Nat.log2 n) v = k := by
  have hple : 2 ^ Nat.log2 n ≤ n := Nat.log2_self_le (by omega)
  have hnlt : n < 2 ^ (Nat.log2 n + 1) := Nat.lt_log2_self
  rw [pow_succ] at hnlt
  unfold runs_rounds
  rw [rounddown_eq]
  constructor
  · rintro ⟨hk, hrun⟩
    refine ⟨vrank (n - 2 ^ Nat.log2 n) k, ?_, ?_⟩
    · unfold vrank
      split <;> omega
    · unfold vrank real_rank
      split <;> split <;> omega
  · rintro ⟨v, hv, rfl⟩
    unfold real_rank
    split <;> omega

theorem runs_rounds_card (n : Nat) (hn1 : 1 ≤ n) :
    (Finset.filter (fun k => runs_rounds n k) (Finset.range n)).card = 2 ^ Nat.log2 n := by
  have himg : Finset.filter (fun k => runs_rounds n k) (Finset.range n) =
      (Finset.range (2 ^ Nat.log2 n)).image (real_rank (n - 2 ^ Nat.log2 n)) := by
    ext k
    simp only [Finset.mem_filter, Finset.mem_range, Finset.mem_image]
    exact runs_rounds_iff n k hn1
  rw [himg, Finset.card_image_of_injective _ (real_rank_injective _), Finset.card_range]

theorem allreduce_items_xfer_count (coll_id : Nat) (send_buf recv_buf : Ptr) (count : Int)
    (datatype op n k : Nat) :
    xfer_count (allreduce_items coll_id send_buf recv_buf count datatype op n k) =
      if k < 2 * (n - 2 ^ Nat.log2 n) then
        if k % 2 = 0 then 2 else 2 + 2 * Nat.log2 n
      else 2 * Nat.log2 n := by
  by_cases hlow : k < 2 * (n - 2 ^ Nat.log2 n)
  · by_cases hev : k % 2 = 0
    · simp [allreduce_items, hlow, hev, xfer_count, is_xfer, send_item, recv_item,
        work_item.hdr]
    · have h := rounds_xfer_count coll_id send_buf recv_buf count datatype op
        (n - 2 ^ Nat.log2 n) k (k / 2) (Nat.log2 n) 0
      unfold xfer_count at h ⊢
      simp only [allreduce_items, hlow, if_true, hev, if_false, List.countP_append, h]
      simp [List.countP_cons, is_xfer, send_item, recv_item, work_item.hdr]
      omega
  · have h := rounds_xfer_count coll_id send_buf recv_buf count datatype op
      (n - 2 ^ Nat.log2 n) k (k - (n - 2 ^ Nat.log2 n)) (Nat.log2 n) 0
    simp only [allreduce_items, hlow, if_false, h]

/-- C22: at rank `k` of a group of `n`, with `p` the largest power of two at most `n` and
`r = n - p`, the schedule `util_coll_allreduce` appends holds 2 Send/Recv items when
`k < 2r` and `k` is even, `2 + 2 * log2 p` when `k < 2r` and `k` is odd, and
`2 * log2 p` when `k ≥ 2r`; the ranks that run the exchange rounds are `p` in number. -/
theorem C22_transfers_per_rank (mc : util_coll_mc) (send_buf recv_buf : Ptr) (count : Int)
    (datatype op n k : Nat) (hn1 : 1 ≤ n) (hn31 : n < 2 ^ 31) (hk : k < n)
    (hcount : mc.av_set.fi_addr_count = n) (hmy : mc.my_rank = (k : Int)) :
    ∃ items, util_coll_allreduce mc send_buf recv_buf count datatype op =
        some (FI_SUCCESS, mc_append (util_coll_get_next_id mc).2 items) ∧
      xfer_count items =
        (if k < 2 * (n - rounddown_power_of_two n) then
          if k % 2 = 0 then 2 else 2 + 2 * Nat.log2 (rounddown_power_of_two n)
        else 2 * Nat.log2 (rounddown_power_of_two n)) ∧
      (Finset.filter (fun j => runs_rounds n j) (Finset.range n)).card =
        rounddown_power_of_two n := by
  refine ⟨_, allreduce_closed mc send_buf recv_buf count datatype op n k hn1 hn31 hk hcount hmy,
    ?_, ?_⟩
  · rw [rounddown_eq, Nat.log2_two_pow]
    exact allreduce_items_xfer_count _ _ _ _ _ _ _ _
  · rw [rounddown_eq]
    exact runs_rounds_card n hn1

theorem rounddown_five : rounddown_power_of_two 5 = 4 := by decide

/-- C22 at rank 1 of 5: six transfers, and four ranks run the exchange rounds. -/
theorem C22_transfers_per_rank_witness :
    ∃ items, util_coll_allreduce ⟨⟨0, [10, 11, 12, 13, 14], 5⟩, [], [], [], 1, 1, 0⟩ 100 200 1
        FI_INT32 FI_SUM =
        some (FI_SUCCESS, mc_append
          (util_coll_get_next_id ⟨⟨0, [10, 11, 12, 13, 14], 5⟩, [], [], [], 1, 1, 0⟩).2 items) ∧
      xfer_count items = 6 ∧
      (Finset.filter (fun j => runs_rounds 5 j) (Finset.range 5)).card = 4 := by
  obtain ⟨items, h1, h2, h3⟩ := C22_transfers_per_rank
    ⟨⟨0, [10, 11, 12, 13, 14], 5⟩, [], [], [], 1, 1, 0⟩ 100 200 1 FI_INT32 FI_SUM 5 1 (by decide)
    (by decide) (by decide) rfl rfl
  rw [rounddown_five, log2_four] at h2
  rw [rounddown_five] at h3
  exact ⟨items, h1, h2, h3⟩

/-! ### The barrier flags of an all-reduce schedule -/

theorem rounds_flags (coll_id : Nat) (send_buf recv_buf : Ptr) (count : Int)
    (datatype op r k v : Nat) :
    ∀ j i,
      (∀ item, item ∈ rounds_items coll_id send_buf recv_buf count datatype op r k v i j →
        item.hdr.type ≠ .UTIL_COLL_RECV → item.hdr.is_barrier = BARRIER) ∧
      recv_count NO_BARRIER
        (rounds_items coll_id send_buf recv_buf count datatype op r k v i j) = j ∧
      recv_count BARRIER
        (rounds_items coll_id send_buf recv_buf count datatype op r k v i j) = 0 := by
  intro j
  induction j with
  | zero =>
    intro i
    exact ⟨fun item h => absurd h (List.not_mem_nil _), rfl, rfl⟩
  | succ j ih =>
    intro i
    obtain ⟨h1, h2, h3⟩ := ih (i + 1)
    unfold recv_count at h2 h3 ⊢
    refine ⟨?_, ?_, ?_⟩
    · intro item hitem hne
      simp only [rounds_items, round_items, List.mem_append, List.mem_cons,
        List.mem_singleton, List.not_mem_nil, or_false] at hitem
      rcases hitem with (hitem | hitem) | hitem
      · rcases hitem with rfl | rfl
        · exact absurd rfl hne
        · rfl
      · split at hitem
        · simp only [List.mem_singleton] at hitem
          subst hitem
          rfl
        · simp only [List.mem_cons, List.mem_singleton, List.not_mem_nil, or_false] at hitem
          rcases hitem with rfl | rfl <;> rfl
      · exact h1 item hitem hne
    · simp only [rounds_items, round_items, List.countP_append, h2]
      split <;>
        simp [List.countP_cons, recv_item, send_item, work_item.hdr, NO_BARRIER, BARRIER] <;>
        omega
    · simp only [rounds_items, round_items, List.countP_append, h3]
      split <;>
        simp [List.countP_cons, recv_item, send_item, work_item.hdr, NO_BARRIER, BARRIER]

/-- C23 as stated fails: at rank 0 of a group of two the first item `util_coll_allreduce`
appends is the Recv of the exchange round, and its `is_barrier` is `NO_BARRIER`. -/
theorem C23_round_recv_has_no_barrier :
    util_coll_allreduce ⟨⟨0, [10, 11], 2⟩, [], [], [], 0, 1, 0⟩ 100 200 1 FI_INT32 FI_SUM =
      some (FI_SUCCESS, ⟨⟨0, [10, 11], 2⟩, [],
        [recv_item 0x8000000100010000 NO_BARRIER 200 1 1 FI_INT32,
          send_item 0x8000000000010000 BARRIER 100 1 1 FI_INT32,
          .reduce_item ⟨.UTIL_COLL_REDUCE, 0, BARRIER⟩ 100 200 1 FI_INT32 FI_SUM,
          .copy_item ⟨.UTIL_COLL_COPY, 0, BARRIER⟩ 200 100 1 FI_INT32],
        [], 0, 1, 1⟩) ∧
    (recv_item 0x8000000100010000 NO_BARRIER 200 1 1 FI_INT32).hdr.type = .UTIL_COLL_RECV ∧
    (recv_item 0x8000000100010000 NO_BARRIER 200 1 1 FI_INT32).hdr.is_barrier = 0 := by
  decide

/-- C23, amended: in the schedule `util_coll_allreduce` appends at rank `k` of `n`, every
Send, Reduce and Copy item has `is_barrier = BARRIER`, and so has the Recv of a low
pair (one, when `k < 2r`); the Recv of every exchange round (`log2 p` of them at a rank
that runs the rounds) has `is_barrier = NO_BARRIER`. -/
theorem C23_barrier_flags_of_allreduce (mc : util_coll_mc) (send_buf recv_buf : Ptr)
    (count : Int) (datatype op n k : Nat) (hn1 : 1 ≤ n) (hn31 : n < 2 ^ 31) (hk : k < n)
    (hcount : mc.av_set.fi_addr_count = n) (hmy : mc.my_rank = (k : Int)) :
    ∃ items, util_coll_allreduce mc send_buf recv_buf count datatype op =
        some (FI_SUCCESS, mc_append (util_coll_get_next_id mc).2 items) ∧
      (∀ item, item ∈ items → item.hdr.type ≠ .UTIL_COLL_RECV →
        item.hdr.is_barrier = BARRIER) ∧
      recv_count NO_BARRIER items =
        (if runs_rounds n k then Nat.log2 (rounddown_power_of_two n) else 0) ∧
      recv_count BARRIER items =
        (if k < 2 * (n - rounddown_power_of_two n) then 1 else 0) := by
  refine ⟨_, allreduce_closed mc send_buf recv_buf count datatype op n k hn1 hn31 hk hcount hmy,
    ?_⟩
  unfold runs_rounds
  simp only [rounddown_eq, Nat.log2_two_pow]
  generalize (util_coll_get_next_id mc).1 = coll_id
  by_cases hlow : k < 2 * (n - 2 ^ Nat.log2 n)
  · by_cases hev : k % 2 = 0
    · simp only [allreduce_items, hlow, if_true, hev, and_self, not_true_eq_false, if_false]
      refine ⟨?_,
        by simp [recv_count, List.countP_cons, recv_item, send_item, work_item.hdr, NO_BARRIER,
          BARRIER],
        by simp [recv_count, List.countP_cons, recv_item, send_item, work_item.hdr, NO_BARRIER,
          BARRIER]⟩
      intro item hitem hne
      simp only [List.mem_cons, List.mem_singleton, List.not_mem_nil, or_false] at hitem
      rcases hitem with rfl | rfl
      · rfl
      · rfl
    · obtain ⟨h1, h2, h3⟩ := rounds_flags coll_id send_buf recv_buf count datatype op
        (n - 2 ^ Nat.log2 n) k (k / 2) (Nat.log2 n) 0
      unfold recv_count at h2 h3 ⊢
      simp only [allreduce_items, hlow, if_true, hev, if_false, and_false, not_false_eq_true,
        List.countP_append, h2, h3]
      refine ⟨?_, ?_, ?_⟩
      · intro item hitem hne
        simp only [List.mem_append, List.mem_cons, List.mem_singleton, List.not_mem_nil,
          or_false] at hitem
        rcases hitem with ((rfl | rfl) | hitem) | rfl
        · rfl
        · rfl
        · exact h1 item hitem hne
        · rfl
      · simp [List.countP_cons, recv_item, send_item, work_item.hdr, NO_BARRIER, BARRIER]
      · simp [List.countP_cons, recv_item, send_item, work_item.hdr, NO_BARRIER, BARRIER]
  · obtain ⟨h1, h2, h3⟩ := rounds_flags coll_id send_buf recv_buf count datatype op
      (n - 2 ^ Nat.log2 n) k (k - (n - 2 ^ Nat.log2 n)) (Nat.log2 n) 0
    simp only [allreduce_items, hlow, if_false, false_and, not_false_eq_true, if_true]
    exact ⟨h1, h2, h3⟩

/-- C23, amended, at rank 1 of 5: the Recv of the low pair is a barrier, the two Recv
items of the exchange rounds are not. -/
theorem C23_barrier_flags_of_allreduce_witness :
    ∃ items, util_coll_allreduce ⟨⟨0, [10, 11, 12, 13, 14], 5⟩, [], [], [], 1, 1, 0⟩ 100 200 1
        FI_INT32 FI_SUM =
        some (FI_SUCCESS, mc_append
          (util_coll_get_next_id ⟨⟨0, [10, 11, 12, 13, 14], 5⟩, [], [], [], 1, 1, 0⟩).2 items) ∧
      (∀ item, item ∈ items → item.hdr.type ≠ .UTIL_COLL_RECV →
        item.hdr.is_barrier = BARRIER) ∧
      recv_count NO_BARRIER items = 2 ∧ recv_count BARRIER items = 1 := by
  obtain ⟨items, h1, h2, h3, h4⟩ := C23_barrier_flags_of_allreduce
    ⟨⟨0, [10, 11, 12, 13, 14], 5⟩, [], [], [], 1, 1, 0⟩ 100 200 1 FI_INT32 FI_SUM 5 1 (by decide)
    (by decide) (by decide) rfl rfl
  simp only [rounddown_five, log2_four] at h3 h4
  rw [if_pos (by decide)] at h3 h4
  exact ⟨items, h1, h2, h3, h4⟩

/-! ### A group whose own rank is not a member -/

/-- With `my_rank = -1`, in a group of any size `n + 1`, `util_coll_allreduce` takes the
branch of an odd rank of a low pair: it appends a Recv from rank `-2` and a Reduce,
then the exchange rounds of the virtual rank `-1 / 2 = 0`, then a Send to rank `-2`. -/
theorem allreduce_rank_none (av : Nat) (arr : List Nat) (n : Nat) (B D P : List work_item)
    (cid seq : Nat) (send_buf recv_buf : Ptr) (count : Int) (datatype op : Nat) :
    ∃ rest, util_coll_allreduce ⟨⟨av, arr, n + 1⟩, B, D, P, -1, cid, seq⟩ send_buf recv_buf
        count datatype op =
      some (FI_SUCCESS, mc_append
        (util_coll_get_next_id ⟨⟨av, arr, n + 1⟩, B, D, P, -1, cid, seq⟩).2
        ([.xfer_item ⟨.UTIL_COLL_RECV, util_coll_form_tag
              (util_coll_get_next_id ⟨⟨av, arr, n + 1⟩, B, D, P, -1, cid, seq⟩).1 4294967294,
              BARRIER⟩ recv_buf count (-2) datatype,
            .reduce_item ⟨.UTIL_COLL_REDUCE, 0, BARRIER⟩ recv_buf send_buf count datatype op] ++
          rest ++
          [.xfer_item ⟨.UTIL_COLL_SEND, util_coll_form_tag
              (util_coll_get_next_id ⟨⟨av, arr, n + 1⟩, B, D, P, -1, cid, seq⟩).1 4294967295,
              BARRIER⟩ send_buf count (-2) datatype])) := by
  have hfuel : ∀ p : Nat, ((p : Nat) : Int) ≤ 1 * 2 ^ ((p : Int)).toNat := by
    intro p
    have := Nat.lt_two_pow p
    simp only [Int.toNat_ofNat, one_mul]
    exact_mod_cast this.le
  have hple : rounddown_power_of_two (n + 1) ≤ n + 1 := by
    rw [rounddown_eq]
    exact Nat.log2_self_le (by omega)
  have e1 : to_uint32 (-1 - 1) = 4294967294 := by decide
  have e2 : to_int 4294967294 = -2 := by decide
  have e3 : to_uint32 (-1) = 4294967295 := by decide
  have e4 : Int.tmod (-1) 2 ≠ 0 := by decide
  have e5 : Int.tdiv (-1) 2 = 0 := by decide
  unfold util_coll_allreduce
  simp only [sched_recv_eq, sched_send_eq, sched_reduce_eq, ne_eq, not_true_eq_false,
    if_false, mc_append_my_rank, mc_append_append, next_id_my_rank, next_id_av_set, e1, e2, e3,
    e5]
  generalize (util_coll_get_next_id ⟨⟨av, arr, n + 1⟩, B, D, P, -1, cid, seq⟩).1 = coll_id
  generalize hmc0 : (util_coll_get_next_id ⟨⟨av, arr, n + 1⟩, B, D, P, -1, cid, seq⟩).2 = mc0
  have hmy : mc0.my_rank = -1 := by rw [← hmc0]; rfl
  generalize hp : rounddown_power_of_two (n + 1) = p at hple
  have hlow : (-1 : Int) < 2 * (((n + 1 : Nat) : Int) - (p : Int)) := by omega
  generalize (((n + 1 : Nat) : Int) - (p : Int)) = rem at hlow
  obtain ⟨items1, h1, _⟩ := allreduce_loop_total send_buf recv_buf count datatype op
    coll_id rem (p : Int) 0 ((p : Int)).toNat 1
    (mc_append mc0 [.xfer_item ⟨.UTIL_COLL_RECV, util_coll_form_tag coll_id 4294967294,
        BARRIER⟩ recv_buf count (-2) datatype,
      .reduce_item ⟨.UTIL_COLL_REDUCE, 0, BARRIER⟩ recv_buf send_buf count datatype op])
    (hfuel p)
  refine ⟨items1, ?_⟩
  simp only [hlow, if_true, e4, if_false, not_false_eq_true, List.cons_append,
    List.nil_append, show ¬ ((0 : Int) = -1) by decide]
  rw [h1]
  simp only [FI_SUCCESS, not_true_eq_false, if_false, util_coll_allreduce_tail,
    mc_append_my_rank, hmy, hlow, if_true, e4, ne_eq, not_false_eq_true, sched_send_eq, e1, e2,
    e3, mc_append_append, List.append_assoc, List.cons_append, List.nil_append]

/-- C26: with `my_rank = -1` the test `my_rank < 2 * rem` holds for every `rem ≥ 0` and
`my_rank % 2` is `-1`, so in a group of any size `util_coll_allreduce` takes the branch
of an odd rank of a low pair and appends a Recv from rank `-2`, a Reduce, the exchange
rounds of virtual rank 0 and a Send to rank `-2`. In a group of one these are three
items; in a group of two, seven, with the Recv, Send, Reduce and Copy of one exchange
round with rank 1. -/
theorem C26_rank_none_schedules_transfers :
    (∀ (av : Nat) (arr : List Nat) (n cid seq : Nat) (send_buf recv_buf : Ptr) (count : Int)
        (datatype op : Nat),
      ∃ rest, (util_coll_allreduce ⟨⟨av, arr, n + 1⟩, [], [], [], -1, cid, seq⟩ send_buf
          recv_buf count datatype op).map (fun r => (r.1, r.2.deferred_list)) =
        some (FI_SUCCESS,
          [.xfer_item ⟨.UTIL_COLL_RECV, util_coll_form_tag
                (util_coll_get_next_id ⟨⟨av, arr, n + 1⟩, [], [], [], -1, cid, seq⟩).1
                4294967294, BARRIER⟩ recv_buf count (-2) datatype,
              .reduce_item ⟨.UTIL_COLL_REDUCE, 0, BARRIER⟩ recv_buf send_buf count datatype
                op] ++
            rest ++
            [.xfer_item ⟨.UTIL_COLL_SEND, util_coll_form_tag
                (util_coll_get_next_id ⟨⟨av, arr, n + 1⟩, [], [], [], -1, cid, seq⟩).1
                4294967295, BARRIER⟩ send_buf count (-2) datatype])) ∧
    util_coll_allreduce ⟨⟨0, [10], 1⟩, [], [], [], -1, 1, 0⟩ 100 200 1 FI_INT32 FI_SUM =
      some (FI_SUCCESS, ⟨⟨0, [10], 1⟩, [],
        [.xfer_item ⟨.UTIL_COLL_RECV, util_coll_form_tag 65536 4294967294, BARRIER⟩ 200 1 (-2)
            FI_INT32,
          .reduce_item ⟨.UTIL_COLL_REDUCE, 0, BARRIER⟩ 200 100 1 FI_INT32 FI_SUM,
          .xfer_item ⟨.UTIL_COLL_SEND, util_coll_form_tag 65536 4294967295, BARRIER⟩ 100 1 (-2)
            FI_INT32],
        [], -1, 1, 1⟩) ∧
    (util_coll_allreduce ⟨⟨0, [10, 11], 2⟩, [], [], [], -1, 1, 0⟩ 100 200 1 FI_INT32
        FI_SUM).map (fun r => (r.1, r.2.deferred_list.map (fun item => item.hdr.type))) =
      some (FI_SUCCESS, [.UTIL_COLL_RECV, .UTIL_COLL_REDUCE, .UTIL_COLL_RECV, .UTIL_COLL_SEND,
        .UTIL_COLL_REDUCE, .UTIL_COLL_COPY, .UTIL_COLL_SEND]) := by
  refine ⟨?_, by decide, by decide⟩
  intro av arr n cid seq send_buf recv_buf count datatype op
  obtain ⟨rest, h⟩ := allreduce_rank_none av arr n [] [] [] cid seq send_buf recv_buf count
    datatype op
  refine ⟨rest, ?_⟩
  rw [h]
  simp [mc_append, util_coll_get_next_id]

/-! ### One drain of the deferred list -/

theorem spec_consumed_append_remaining (D : List work_item) :
    spec_consumed D ++ spec_remaining D = D := by
  unfold spec_consumed spec_remaining
  rw [List.append_assoc, List.take_append_drop, List.takeWhile_append_dropWhile]

theorem spec_consumed_cons (entry : work_item) (D : List work_item) :
    spec_consumed (entry :: D) =
      if entry.hdr.is_barrier = 0 then entry :: spec_consumed D else [entry] := by
  unfold spec_consumed
  by_cases hb : entry.hdr.is_barrier = 0
  · simp [List.takeWhile, List.dropWhile, hb]
  · simp [List.takeWhile, List.dropWhile, hb]

theorem spec_remaining_cons (entry : work_item) (D : List work_item) :
    spec_remaining (entry :: D) =
      if entry.hdr.is_barrier = 0 then spec_remaining D else D := by
  unfold spec_remaining
  by_cases hb : entry.hdr.is_barrier = 0
  · simp [List.dropWhile, hb]
  · simp [List.dropWhile, hb]

section drain

variable {α : Type} (handlers : Nat → Nat → Int → α → α → α)

/-- The loop of `util_coll_process_work_items` on items whose `type` fits their structure
and whose Reduce items have a supported op. -/
theorem work_items_loop_spec :
    ∀ (D P B : List work_item) (env : coll_env α),
      (∀ item, item ∈ D → well_typed item) →
      (∀ hdr in_buf inout_buf count datatype op,
        work_item.reduce_item hdr in_buf inout_buf count datatype op ∈ D →
        FI_MIN ≤ op ∧ op ≤ FI_BXOR) →
      process_work_items_loop handlers D P B env =
        some (FI_SUCCESS, spec_remaining D, P ++ spec_transfers (spec_consumed D),
          B ++ spec_transfers (spec_consumed D), spec_executed handlers (spec_consumed D) env) := by
  intro D
  induction D with
  | nil =>
    intro P B env _ _
    simp [process_work_items_loop, spec_remaining, spec_consumed, spec_transfers, spec_executed]
  | cons entry D ih =>
    intro P B env hw hop
    have hD : ∀ item, item ∈ D → well_typed item :=
      fun item h => hw item (List.mem_cons_of_mem _ h)
    have hopD : ∀ hdr in_buf inout_buf count datatype op,
        work_item.reduce_item hdr in_buf inout_buf count datatype op ∈ D →
        FI_MIN ≤ op ∧ op ≤ FI_BXOR :=
      fun hdr a b c d op h => hop hdr a b c d op (List.mem_cons_of_mem _ h)
    have he := hw entry (List.mem_cons_self _ _)
    rw [spec_consumed_cons, spec_remaining_cons]
    cases entry with
    | xfer_item hdr buf count rank datatype =>
      obtain ⟨ty, tag, b⟩ := hdr
      have he : ty = .UTIL_COLL_SEND ∨ ty = .UTIL_COLL_RECV := he
      by_cases hb : b = 0
      · rcases he with rfl | rfl <;>
          simp [process_work_items_loop, work_item.hdr, hb, ih _ _ _ hD hopD, spec_transfers,
            spec_executed, is_xfer, List.filter_cons]
      · rcases he with rfl | rfl <;>
          simp [process_work_items_loop, work_item.hdr, hb, spec_transfers,
            spec_executed, is_xfer, List.filter_cons, FI_SUCCESS]
    | copy_item hdr in_buf out_buf count datatype =>
      obtain ⟨ty, tag, b⟩ := hdr
      have he : ty = .UTIL_COLL_COPY := he
      subst he
      by_cases hb : b = 0
      · simp [process_work_items_loop, work_item.hdr, hb, ih _ _ _ hD hopD, spec_transfers,
          spec_executed, is_xfer, List.filter_cons]
      · simp [process_work_items_loop, work_item.hdr, hb, spec_transfers,
          spec_executed, is_xfer, List.filter_cons, FI_SUCCESS]
    | reduce_item hdr in_buf inout_buf count datatype op =>
      obtain ⟨ty, tag, b⟩ := hdr
      have he : ty = .UTIL_COLL_REDUCE := he
      subst he
      have hsup := hop _ _ _ _ _ _ (List.mem_cons_self _ _)
      by_cases hb : b = 0
      · simp [process_work_items_loop, work_item.hdr, hb, ih _ _ _ hD hopD, spec_transfers,
          spec_executed, is_xfer, List.filter_cons, util_coll_proc_reduce_item, hsup,
          FI_SUCCESS]
      · simp [process_work_items_loop, work_item.hdr, hb, spec_transfers,
          spec_executed, is_xfer, List.filter_cons, util_coll_proc_reduce_item, hsup,
          FI_SUCCESS]
    | coll_state hdr type context data comp_fn =>
      obtain ⟨ty, tag, b⟩ := hdr
      have he : ty = .UTIL_COLL_COMP := he
      subst he
      cases comp_fn with
      | none =>
        by_cases hb : b = 0
        · simp [process_work_items_loop, work_item.hdr, hb, ih _ _ _ hD hopD, spec_transfers,
            spec_executed, is_xfer, List.filter_cons]
        · simp [process_work_items_loop, work_item.hdr, hb, spec_transfers,
            spec_executed, is_xfer, List.filter_cons, FI_SUCCESS]
      | some fn =>
        by_cases hb : b = 0
        · simp [process_work_items_loop, work_item.hdr, hb, ih _ _ _ hD hopD, spec_transfers,
            spec_executed, is_xfer, List.filter_cons]
        · simp [process_work_items_loop, work_item.hdr, hb, spec_transfers,
            spec_executed, is_xfer, List.filter_cons, FI_SUCCESS]

end drain

/-- C24: on a deferred list `D` whose items have a `type` that fits their structure and
whose Reduce items have a supported op, one call of `util_coll_process_work_items`
returns success, consumes the prefix of `D` up to and including its first item with
`is_barrier` set, leaves the rest of `D` in the deferred list, appends the Send and
Recv items of the prefix, in order, to the pending-transfer list and to the barrier
list, and executes the other items of the prefix, which go to no list. -/
theorem C24_drain_up_to_first_barrier {α : Type} (handlers : Nat → Nat → Int → α → α → α)
    (mc : util_coll_mc) (env : coll_env α)
    (hw : ∀ item, item ∈ mc.deferred_list → well_typed item)
    (hop : ∀ hdr in_buf inout_buf count datatype op,
      work_item.reduce_item hdr in_buf inout_buf count datatype op ∈ mc.deferred_list →
      FI_MIN ≤ op ∧ op ≤ FI_BXOR) :
    util_coll_process_work_items handlers mc env =
      some (FI_SUCCESS,
        ⟨mc.av_set, mc.barrier_list ++ spec_transfers (spec_consumed mc.deferred_list),
          spec_remaining mc.deferred_list,
          mc.pending_xfer_list ++ spec_transfers (spec_consumed mc.deferred_list),
          mc.my_rank, mc.cid, mc.seq⟩,
        spec_executed handlers (spec_consumed mc.deferred_list) env) ∧
    spec_consumed mc.deferred_list ++ spec_remaining mc.deferred_list = mc.deferred_list ∧
    (∀ item, item ∈ spec_transfers (spec_consumed mc.deferred_list) → is_xfer item) := by
  refine ⟨?_, spec_consumed_append_remaining _, ?_⟩
  · unfold util_coll_process_work_items
    rw [work_items_loop_spec handlers _ _ _ env hw hop]
  · intro item hitem
    unfold spec_transfers at hitem
    simpa using (List.mem_filter.1 hitem).2

/-- C24 on the deferred list Recv (no barrier), Send (barrier), Reduce, Copy: the call
moves the Recv and the Send to the two lists and leaves the Reduce and the Copy. -/
theorem C24_drain_up_to_first_barrier_witness :
    util_coll_process_work_items sum_handlers
        ⟨⟨0, [10, 11], 2⟩, [],
          [recv_item 8 NO_BARRIER 200 1 1 FI_INT32, send_item 9 BARRIER 100 1 1 FI_INT32,
            .reduce_item ⟨.UTIL_COLL_REDUCE, 0, BARRIER⟩ 100 200 1 FI_INT32 FI_SUM,
            .copy_item ⟨.UTIL_COLL_COPY, 0, BARRIER⟩ 200 100 1 FI_INT32],
          [], 0, 1, 1⟩ ⟨fun _ => 0, []⟩ =
      some (FI_SUCCESS,
        ⟨⟨0, [10, 11], 2⟩,
          [recv_item 8 NO_BARRIER 200 1 1 FI_INT32, send_item 9 BARRIER 100 1 1 FI_INT32],
          [.reduce_item ⟨.UTIL_COLL_REDUCE, 0, BARRIER⟩ 100 200 1 FI_INT32 FI_SUM,
            .copy_item ⟨.UTIL_COLL_COPY, 0, BARRIER⟩ 200 100 1 FI_INT32],
          [recv_item 8 NO_BARRIER 200 1 1 FI_INT32, send_item 9 BARRIER 100 1 1 FI_INT32],
          0, 1, 1⟩, ⟨fun _ => 0, []⟩) :=
  (C24_drain_up_to_first_barrier sum_handlers
    ⟨⟨0, [10, 11], 2⟩, [],
      [recv_item 8 NO_BARRIER 200 1 1 FI_INT32, send_item 9 BARRIER 100 1 1 FI_INT32,
        .reduce_item ⟨.UTIL_COLL_REDUCE, 0, BARRIER⟩ 100 200 1 FI_INT32 FI_SUM,
        .copy_item ⟨.UTIL_COLL_COPY, 0, BARRIER⟩ 200 100 1 FI_INT32],
      [], 0, 1, 1⟩ ⟨fun _ => 0, []⟩
    (by simp [well_typed, recv_item, send_item])
    (by
      intro hdr in_buf inout_buf count datatype op h
      simp [recv_item, send_item] at h
      obtain ⟨_, _, _, _, _, h6⟩ := h
      rw [h6]
      decide)).1.trans rfl

/-! ### The pending-transfer list and the barrier list -/

set_option maxRecDepth 100000 in
/-- C25 as stated fails: rank 0 of a group of two issues a barrier and one call of
`util_coll_process_pending` submits the Recv and the Send of the exchange round. Both
items have left the pending-transfer list and both are still in the barrier list,
where they stay until their completions are handled. -/
theorem C25_submitted_items_stay_in_barrier_list :
    ((ofi_ep_barrier band_handlers ⟨⟨0, [10, 11], 2⟩, [], [], [], 0, 1, 0⟩ ⟨fun _ => 1, []⟩ 55
        300).bind (fun r => engine_run band_handlers [.pending (fun _ => 0) (fun _ => 0)]
          ⟨r.2.1, r.2.2, []⟩)).map
      (fun s => (s.mc.pending_xfer_list, s.mc.barrier_list, s.outstanding)) =
      some ([],
        [recv_item 0x8000000100010000 NO_BARRIER 300 1 1 FI_UINT64,
          send_item 0x8000000000010000 BARRIER 300 1 1 FI_UINT64],
        [.trecv ⟨11, 0x8000000100010000, 300, 1, FI_UINT64⟩,
          .tsend ⟨11, 0x8000000000010000, 300, 1, FI_UINT64⟩]) := by
  decide

/-- C25, amended: at a member rank of a group of `n ≥ 1` whose lists are empty, after
`ofi_ep_barrier` and any run of calls of `util_coll_schedule`, of
`util_coll_process_pending` (whatever the transport answers) and of completions of
transfers the transport has accepted, every item of the pending-transfer list is in the
barrier list, and every transfer the transport has accepted and not completed belongs
to an item that is in the barrier list and no longer in the pending-transfer list. -/
theorem C25_pending_items_are_in_barrier_list {α : Type}
    (handlers : Nat → Nat → Int → α → α → α) (n k : Nat) (hn1 : 1 ≤ n) (hn31 : n < 2 ^ 31)
    (hk : k < n) (mc : util_coll_mc) (env : coll_env α) (context data : Ptr)
    (hcount : mc.av_set.fi_addr_count = n) (hmy : mc.my_rank = (k : Int))
    (hD : mc.deferred_list = []) (hP : mc.pending_xfer_list = []) (hB : mc.barrier_list = [])
    (hcalls : env.comp_calls = []) (r : Int × util_coll_mc × coll_env α)
    (hbar : ofi_ep_barrier handlers mc env context data = some r)
    (evs : List (engine_event α)) (s : engine_state α)
    (hrun : engine_run handlers evs ⟨r.2.1, r.2.2, []⟩ = some s) :
    (∀ item, item ∈ s.mc.pending_xfer_list → item ∈ s.mc.barrier_list) ∧
    (∀ m, m ∈ s.outstanding → ∃ item, item ∈ s.mc.barrier_list ∧ item.hdr.tag = m.tag ∧
      item ∉ s.mc.pending_xfer_list) := by
  have hinv := engine_run_inv handlers evs _ s
    (ep_barrier_inv handlers n k hn1 hn31 hk mc env context data hcount hmy hD hP hB hcalls r
      hbar) hrun
  obtain ⟨_, _, _, hPB, _, hO, _⟩ := hinv
  exact ⟨hPB, hO⟩

set_option maxRecDepth 100000 in
theorem barrier_example_refused_some :
    (engine_run band_handlers [.pending (fun _ => -11) (fun _ => 0)]
      ⟨((ofi_ep_barrier band_handlers ⟨⟨0, [10, 11], 2⟩, [], [], [], 0, 1, 0⟩ ⟨fun _ => 1, []⟩
          55 300).get barrier_example_some).2.1,
        ((ofi_ep_barrier band_handlers ⟨⟨0, [10, 11], 2⟩, [], [], [], 0, 1, 0⟩ ⟨fun _ => 1, []⟩
          55 300).get barrier_example_some).2.2, []⟩).isSome = true := by
  decide

set_option maxRecDepth 100000 in
/-- C25, amended, at rank 0 of a group of two when the transport accepts the Recv and
refuses the Send: the Send is in both lists, the Recv in the barrier list only. -/
theorem C25_pending_items_are_in_barrier_list_witness :
    ∃ r s, ofi_ep_barrier band_handlers ⟨⟨0, [10, 11], 2⟩, [], [], [], 0, 1, 0⟩
        ⟨fun _ => 1, []⟩ 55 300 = some r ∧
      engine_run band_handlers [.pending (fun _ => -11) (fun _ => 0)] ⟨r.2.1, r.2.2, []⟩
        = some s ∧
      s.mc.pending_xfer_list = [send_item 0x8000000000010000 BARRIER 300 1 1 FI_UINT64] ∧
      s.mc.barrier_list = [recv_item 0x8000000100010000 NO_BARRIER 300 1 1 FI_UINT64,
        send_item 0x8000000000010000 BARRIER 300 1 1 FI_UINT64] ∧
      (∀ item, item ∈ s.mc.pending_xfer_list → item ∈ s.mc.barrier_list) ∧
      (∀ m, m ∈ s.outstanding → ∃ item, item ∈ s.mc.barrier_list ∧ item.hdr.tag = m.tag ∧
        item ∉ s.mc.pending_xfer_list) :=
  ⟨_, _, (Option.some_get barrier_example_some).symm,
    (Option.some_get barrier_example_refused_some).symm, by decide, by decide,
    C25_pending_items_are_in_barrier_list band_handlers 2 0 (by decide) (by decide) (by decide)
      ⟨⟨0, [10, 11], 2⟩, [], [], [], 0, 1, 0⟩ ⟨fun _ => 1, []⟩ 55 300 rfl rfl rfl rfl rfl rfl _
      (Option.some_get barrier_example_some).symm _ _
      (Option.some_get barrier_example_refused_some).symm⟩

/-! ### Sends and their matching receives -/

theorem is_send_to_send (b tag : Nat) (is_barrier : Int) (buf : Ptr) (count : Int)
    (dest datatype : Nat) :
    is_send_to b (send_item tag is_barrier buf count dest datatype) = decide (dest = b) := by
  simp [is_send_to, send_item]

theorem is_send_to_recv (b tag : Nat) (is_barrier : Int) (buf : Ptr) (count : Int)
    (src datatype : Nat) :
    is_send_to b (recv_item tag is_barrier buf count src datatype) = false := by
  simp [is_send_to, recv_item]

theorem is_recv_from_recv (a tag : Nat) (is_barrier : Int) (buf : Ptr) (count : Int)
    (src datatype : Nat) :
    is_recv_from a (recv_item tag is_barrier buf count src datatype) = decide (src = a) := by
  simp [is_recv_from, recv_item]

theorem is_recv_from_send (a tag : Nat) (is_barrier : Int) (buf : Ptr) (count : Int)
    (dest datatype : Nat) :
    is_recv_from a (send_item tag is_barrier buf count dest datatype) = false := by
  simp [is_recv_from, send_item]

theorem is_send_to_reduce (b : Nat) (hdr : util_coll_hdr) (in_buf inout_buf : Ptr)
    (count : Int) (datatype op : Nat) :
    is_send_to b (.reduce_item hdr in_buf inout_buf count datatype op) = false := rfl

theorem is_send_to_copy (b : Nat) (hdr : util_coll_hdr) (in_buf out_buf : Ptr)
    (count : Int) (datatype : Nat) :
    is_send_to b (.copy_item hdr in_buf out_buf count datatype) = false := rfl

theorem is_recv_from_reduce (a : Nat) (hdr : util_coll_hdr) (in_buf inout_buf : Ptr)
    (count : Int) (datatype op : Nat) :
    is_recv_from a (.reduce_item hdr in_buf inout_buf count datatype op) = false := rfl

theorem is_recv_from_copy (a : Nat) (hdr : util_coll_hdr) (in_buf out_buf : Ptr)
    (count : Int) (datatype : Nat) :
    is_recv_from a (.copy_item hdr in_buf out_buf count datatype) = false := rfl

theorem round_send_count (b coll_id : Nat) (send_buf recv_buf : Ptr) (count : Int)
    (datatype op r k v i : Nat) :
    (round_items coll_id send_buf recv_buf count datatype op r k v i).countP (is_send_to b) =
      if real_rank r (v ^^^ 2 ^ i) = b then 1 else 0 := by
  unfold round_items
  split <;>
    simp [List.countP_cons, is_send_to_send, is_send_to_recv, is_send_to_reduce,
      is_send_to_copy]

theorem round_recv_count (a coll_id : Nat) (send_buf recv_buf : Ptr) (count : Int)
    (datatype op r k v i : Nat) :
    (round_items coll_id send_buf recv_buf count datatype op r k v i).countP (is_recv_from a) =
      if real_rank r (v ^^^ 2 ^ i) = a then 1 else 0 := by
  unfold round_items
  split <;>
    simp [List.countP_cons, is_recv_from_send, is_recv_from_recv, is_recv_from_reduce,
      is_recv_from_copy]

theorem xor_pow_swap (u v i : Nat) : u ^^^ 2 ^ i = v ↔ v ^^^ 2 ^ i = u := by
  constructor
  · rintro rfl
    rw [Nat.xor_assoc, Nat.xor_self, Nat.xor_zero]
  · rintro rfl
    rw [Nat.xor_assoc, Nat.xor_self, Nat.xor_zero]

/-- In the exchange rounds the sends of the rank with virtual rank `va` to the rank with
virtual rank `vb` are as many as the receives of the latter from the former. -/
theorem rounds_send_recv (r va vb a b : Nat) (ha : real_rank r va = a) (hb : real_rank r vb = b)
    (cA cB : Nat) (sA rA sB rB : Ptr) (cntA cntB : Int) (dA dB oA oB kA kB : Nat) :
    ∀ j i, (rounds_items cA sA rA cntA dA oA r kA va i j).countP (is_send_to b) =
      (rounds_items cB sB rB cntB dB oB r kB vb i j).countP (is_recv_from a) := by
  intro j
  induction j with
  | zero => intro i; rfl
  | succ j ih =>
    intro i
    simp only [rounds_items, List.countP_append, ih (i + 1), round_send_count,
      round_recv_count]
    have hiff : real_rank r (va ^^^ 2 ^ i) = b ↔ real_rank r (vb ^^^ 2 ^ i) = a := by
      rw [← ha, ← hb]
      constructor
      · intro h
        rw [(xor_pow_swap va vb i).1 (real_rank_injective r h)]
      · intro h
        rw [(xor_pow_swap vb va i).1 (real_rank_injective r h)]
    by_cases h : real_rank r (va ^^^ 2 ^ i) = b
    · rw [if_pos h, if_pos (hiff.1 h)]
    · rw [if_neg h, if_neg (fun h2 => h (hiff.2 h2))]

/-- No send of the exchange rounds goes to a rank that does not run them, and no receive
comes from one. -/
theorem rounds_none (r b : Nat) (hb : ∀ u, real_rank r u ≠ b)
    (coll_id : Nat) (send_buf recv_buf : Ptr) (count : Int) (datatype op k v : Nat) :
    ∀ j i,
      (rounds_items coll_id send_buf recv_buf count datatype op r k v i j).countP
        (is_send_to b) = 0 ∧
      (rounds_items coll_id send_buf recv_buf count datatype op r k v i j).countP
        (is_recv_from b) = 0 := by
  intro j
  induction j with
  | zero => intro i; exact ⟨rfl, rfl⟩
  | succ j ih =>
    intro i
    obtain ⟨h1, h2⟩ := ih (i + 1)
    simp only [rounds_items, List.countP_append, h1, h2, round_send_count, round_recv_count,
      if_neg (hb _), and_self]

theorem allreduce_send_count (b coll_id : Nat) (send_buf recv_buf : Ptr) (count : Int)
    (datatype op n k : Nat) :
    (allreduce_items coll_id send_buf recv_buf count datatype op n k).countP (is_send_to b) =
      if k < 2 * (n - 2 ^ Nat.log2 n) then
        if k % 2 = 0 then (if k + 1 = b then 1 else 0)
        else (rounds_items coll_id send_buf recv_buf count datatype op (n - 2 ^ Nat.log2 n) k
            (k / 2) 0 (Nat.log2 n)).countP (is_send_to b) + (if k - 1 = b then 1 else 0)
      else (rounds_items coll_id send_buf recv_buf count datatype op (n - 2 ^ Nat.log2 n) k
        (k - (n - 2 ^ Nat.log2 n)) 0 (Nat.log2 n)).countP (is_send_to b) := by
  by_cases hlow : k < 2 * (n - 2 ^ Nat.log2 n)
  · by_cases hev : k % 2 = 0
    · simp [allreduce_items, hlow, hev, List.countP_cons, is_send_to_send, is_send_to_recv]
    · simp [allreduce_items, hlow, hev, List.countP_cons, List.countP_append, is_send_to_send,
        is_send_to_recv, is_send_to_reduce]
  · simp [allreduce_items, hlow]

theorem allreduce_recv_count (a coll_id : Nat) (send_buf recv_buf : Ptr) (count : Int)
    (datatype op n k : Nat) :
    (allreduce_items coll_id send_buf recv_buf count datatype op n k).countP (is_recv_from a) =
      if k < 2 * (n - 2 ^ Nat.log2 n) then
        if k % 2 = 0 then (if k + 1 = a then 1 else 0)
        else (rounds_items coll_id send_buf recv_buf count datatype op (n - 2 ^ Nat.log2 n) k
            (k / 2) 0 (Nat.log2 n)).countP (is_recv_from a) + (if k - 1 = a then 1 else 0)
      else (rounds_items coll_id send_buf recv_buf count datatype op (n - 2 ^ Nat.log2 n) k
        (k - (n - 2 ^ Nat.log2 n)) 0 (Nat.log2 n)).countP (is_recv_from a) := by
  by_cases hlow : k < 2 * (n - 2 ^ Nat.log2 n)
  · by_cases hev : k % 2 = 0
    · simp [allreduce_items, hlow, hev, List.countP_cons, is_recv_from_send, is_recv_from_recv]
    · simp [allreduce_items, hlow, hev, List.countP_cons, List.countP_append,
        is_recv_from_send, is_recv_from_recv, is_recv_from_reduce]
  · simp [allreduce_items, hlow]

/-- The sends of rank `a` to rank `b` in one all-reduce are as many as the receives of
rank `b` from rank `a`. -/
theorem allreduce_send_recv (n a b : Nat) (hn1 : 1 ≤ n)
    (cA cB : Nat) (sA rA sB rB : Ptr) (cntA cntB : Int) (dA dB oA oB : Nat) :
    (allreduce_items cA sA rA cntA dA oA n a).countP (is_send_to b) =
      (allreduce_items cB sB rB cntB dB oB n b).countP (is_recv_from a) := by
  have hple : 2 ^ Nat.log2 n ≤ n := Nat.log2_self_le (by omega)
  have hnlt : n < 2 ^ (Nat.log2 n + 1) := Nat.lt_log2_self
  rw [pow_succ] at hnlt
  rw [allreduce_send_count, allreduce_recv_count]
  generalize hr : n - 2 ^ Nat.log2 n = r at *
  have heven : ∀ k, k < 2 * r → k % 2 = 0 → ∀ u, real_rank r u ≠ k := by
    intro k hk1 hk2 u
    unfold real_rank
    split <;> omega
  have hodd : ∀ k, k < 2 * r → ¬ k % 2 = 0 → real_rank r (k / 2) = k := by
    intro k hk1 hk2
    unfold real_rank
    rw [if_pos (by omega)]
    omega
  have hhigh : ∀ k, ¬ k < 2 * r → real_rank r (k - r) = k := by
    intro k hk1
    unfold real_rank
    rw [if_neg (by omega)]
    omega
  by_cases hla : a < 2 * r
  · by_cases hea : a % 2 = 0
    · simp only [hla, if_true, hea]
      by_cases hlb : b < 2 * r
      · by_cases heb : b % 2 = 0
        · simp only [hlb, if_true, heb]
          split <;> split <;> omega
        · simp only [hlb, if_true, heb, if_false,
            (rounds_none r a (heven a hla hea) cB sB rB cntB dB oB b (b / 2) (Nat.log2 n) 0).2]
          split <;> split <;> omega
      · simp only [hlb, if_false,
          (rounds_none r a (heven a hla hea) cB sB rB cntB dB oB b (b - r) (Nat.log2 n) 0).2]
        split <;> omega
    · simp only [hla, if_true, hea, if_false]
      by_cases hlb : b < 2 * r
      · by_cases heb : b % 2 = 0
        · simp only [hlb, if_true, heb,
            (rounds_none r b (heven b hlb heb) cA sA rA cntA dA oA a (a / 2) (Nat.log2 n) 0).1]
          split <;> split <;> omega
        · simp only [hlb, if_true, heb, if_false,
            rounds_send_recv r (a / 2) (b / 2) a b (hodd a hla hea) (hodd b hlb heb) cA cB sA rA
              sB rB cntA cntB dA dB oA oB a b (Nat.log2 n) 0]
          split <;> split <;> omega
      · simp only [hlb, if_false,
          rounds_send_recv r (a / 2) (b - r) a b (hodd a hla hea) (hhigh b hlb) cA cB sA rA
            sB rB cntA cntB dA dB oA oB a b (Nat.log2 n) 0]
        split <;> omega
  · simp only [hla, if_false]
    by_cases hlb : b < 2 * r
    · by_cases heb : b % 2 = 0
      · simp only [hlb, if_true, heb,
          (rounds_none r b (heven b hlb heb) cA sA rA cntA dA oA a (a - r) (Nat.log2 n) 0).1]
        split <;> omega
      · simp only [hlb, if_true, heb, if_false,
          rounds_send_recv r (a - r) (b / 2) a b (hhigh a hla) (hodd b hlb heb) cA cB sA rA
            sB rB cntA cntB dA dB oA oB a b (Nat.log2 n) 0]
        split <;> omega
    · simp only [hlb, if_false,
        rounds_send_recv r (a - r) (b - r) a b (hhigh a hla) (hhigh b hlb) cA cB sA rA
          sB rB cntA cntB dA dB oA oB a b (Nat.log2 n) 0]

/-- The Send items of the exchange rounds carry the tag of the own rank and go to a
member rank other than the own rank; a Recv item carries the tag of its source. -/
theorem rounds_xfer_props (coll_id : Nat) (send_buf recv_buf : Ptr) (count : Int)
    (datatype op n r L v : Nat) (hL : L = Nat.log2 n) (hr : r = n - 2 ^ L) (hn1 : 1 ≤ n)
    (hv : v < 2 ^ L) :
    ∀ j i, i + j = L →
      ∀ item, item ∈ rounds_items coll_id send_buf recv_buf count datatype op r (real_rank r v)
          v i j →
        (item.hdr.type = .UTIL_COLL_SEND →
          item.hdr.tag = util_coll_form_tag coll_id (real_rank r v) ∧
          ∃ d, is_send_to d item = true ∧ d < n ∧ d ≠ real_rank r v) ∧
        (∀ s, is_recv_from s item = true → item.hdr.tag = util_coll_form_tag coll_id s) := by
  have hple : 2 ^ Nat.log2 n ≤ n := Nat.log2_self_le (by omega)
  have hnr : n = 2 ^ L + r := by subst hL; omega
  intro j
  induction j with
  | zero =>
    intro i _ item hitem
    exact absurd hitem (List.not_mem_nil _)
  | succ j ih =>
    intro i hij item hitem
    have hu : v ^^^ 2 ^ i < 2 ^ L := xor_pow_lt L i v (by omega) hv
    have hd : real_rank r (v ^^^ 2 ^ i) < n := real_rank_lt (2 ^ L) r n _ hnr hu
    have hne : real_rank r (v ^^^ 2 ^ i) ≠ real_rank r v := real_rank_ne r _ _ (xor_pow_ne v i)
    simp only [rounds_items, round_items, List.mem_append, List.mem_cons, List.mem_singleton,
      List.not_mem_nil, or_false] at hitem
    rcases hitem with (hitem | hitem) | hitem
    · rcases hitem with rfl | rfl
      · refine ⟨fun h => absurd h (by simp [recv_item, work_item.hdr]), ?_⟩
        intro s hs
        rw [is_recv_from_recv] at hs
        rw [← of_decide_eq_true hs]
        rfl
      · refine ⟨fun _ => ⟨rfl, real_rank r (v ^^^ 2 ^ i), ?_, hd, hne⟩, ?_⟩
        · rw [is_send_to_send]
          exact decide_eq_true rfl
        · intro s hs
          rw [is_recv_from_send] at hs
          exact absurd hs (by simp)
    · split at hitem
      · simp only [List.mem_singleton] at hitem
        subst hitem
        exact ⟨fun h => absurd h (by simp [work_item.hdr]),
          fun s hs => absurd hs (by simp [is_recv_from_reduce])⟩
      · simp only [List.mem_cons, List.mem_singleton, List.not_mem_nil, or_false] at hitem
        rcases hitem with rfl | rfl
        · exact ⟨fun h => absurd h (by simp [work_item.hdr]),
            fun s hs => absurd hs (by simp [is_recv_from_reduce])⟩
        · exact ⟨fun h => absurd h (by simp [work_item.hdr]),
            fun s hs => absurd hs (by simp [is_recv_from_copy])⟩
    · exact ih (i + 1) (by omega) item hitem

/-- The same for the whole schedule of one all-reduce at rank `k` of `n`. -/
theorem allreduce_xfer_props (coll_id : Nat) (send_buf recv_buf : Ptr) (count : Int)
    (datatype op n k : Nat) (hn1 : 1 ≤ n) (hk : k < n) :
    ∀ item, item ∈ allreduce_items coll_id send_buf recv_buf count datatype op n k →
      (item.hdr.type = .UTIL_COLL_SEND →
        item.hdr.tag = util_coll_form_tag coll_id k ∧
        ∃ d, is_send_to d item = true ∧ d < n ∧ d ≠ k) ∧
      (∀ s, is_recv_from s item = true → item.hdr.tag = util_coll_form_tag coll_id s) := by
  have hple : 2 ^ Nat.log2 n ≤ n := Nat.log2_self_le (by omega)
  have hnlt : n < 2 ^ (Nat.log2 n + 1) := Nat.lt_log2_self
  rw [pow_succ] at hnlt
  have hsend : ∀ (t : Nat) (b : Int) (buf : Ptr) (c : Int) (d dt : Nat), t = util_coll_form_tag
      coll_id k → d < n → d ≠ k →
      (((send_item t b buf c d dt).hdr.type = .UTIL_COLL_SEND →
        (send_item t b buf c d dt).hdr.tag = util_coll_form_tag coll_id k ∧
        ∃ d1, is_send_to d1 (send_item t b buf c d dt) = true ∧ d1 < n ∧ d1 ≠ k) ∧
      (∀ s, is_recv_from s (send_item t b buf c d dt) = true →
        (send_item t b buf c d dt).hdr.tag = util_coll_form_tag coll_id s)) := by
    intro t b buf c d dt ht hd hne
    refine ⟨fun _ => ⟨ht, d, ?_, hd, hne⟩, ?_⟩
    · rw [is_send_to_send]
      exact decide_eq_true rfl
    · intro s hs
      rw [is_recv_from_send] at hs
      exact absurd hs (by simp)
  have hrecv : ∀ (b : Int) (buf : Ptr) (c : Int) (src dt : Nat),
      (((recv_item (util_coll_form_tag coll_id src) b buf c src dt).hdr.type = .UTIL_COLL_SEND →
        (recv_item (util_coll_form_tag coll_id src) b buf c src dt).hdr.tag =
          util_coll_form_tag coll_id k ∧
        ∃ d1, is_send_to d1 (recv_item (util_coll_form_tag coll_id src) b buf c src dt) = true ∧
          d1 < n ∧ d1 ≠ k) ∧
      (∀ s, is_recv_from s (recv_item (util_coll_form_tag coll_id src) b buf c src dt) = true →
        (recv_item (util_coll_form_tag coll_id src) b buf c src dt).hdr.tag =
          util_coll_form_tag coll_id s)) := by
    intro b buf c src dt
    refine ⟨fun h => absurd h (by simp [recv_item, work_item.hdr]), ?_⟩
    intro s hs
    rw [is_recv_from_recv] at hs
    rw [← of_decide_eq_true hs]
    rfl
  intro item hitem
  by_cases hlow : k < 2 * (n - 2 ^ Nat.log2 n)
  · by_cases hev : k % 2 = 0
    · simp only [allreduce_items, hlow, if_true, hev, List.mem_cons, List.mem_singleton,
        List.not_mem_nil, or_false] at hitem
      rcases hitem with rfl | rfl
      · exact hsend _ _ _ _ _ _ rfl (by omega) (by omega)
      · exact hrecv _ _ _ _ _
    · have hkv : real_rank (n - 2 ^ Nat.log2 n) (k / 2) = k := by
        unfold real_rank
        rw [if_pos (by omega)]
        omega
      have hrounds := rounds_xfer_props coll_id send_buf recv_buf count datatype op n
        (n - 2 ^ Nat.log2 n) (Nat.log2 n) (k / 2) rfl rfl hn1 (by omega) (Nat.log2 n) 0
        (by omega)
      rw [hkv] at hrounds
      simp only [allreduce_items, hlow, if_true, hev, if_false, List.mem_append, List.mem_cons,
        List.mem_singleton, List.not_mem_nil, or_false] at hitem
      rcases hitem with ((rfl | rfl) | hitem) | rfl
      · exact hrecv _ _ _ _ _
      · exact ⟨fun h => absurd h (by simp [work_item.hdr]),
          fun s hs => absurd hs (by simp [is_recv_from_reduce])⟩
      · exact hrounds item hitem
      · exact hsend _ _ _ _ _ _ rfl (by omega) (by omega)
  · have hkv : real_rank (n - 2 ^ Nat.log2 n) (k - (n - 2 ^ Nat.log2 n)) = k := by
      unfold real_rank
      rw [if_neg (by omega)]
      omega
    have hrounds := rounds_xfer_props coll_id send_buf recv_buf count datatype op n
      (n - 2 ^ Nat.log2 n) (Nat.log2 n) (k - (n - 2 ^ Nat.log2 n)) rfl rfl hn1 (by omega)
      (Nat.log2 n) 0 (by omega)
    rw [hkv] at hrounds
    simp only [allreduce_items, hlow, if_false] at hitem
    exact hrounds item hitem

theorem is_send_to_type (d : Nat) (item : work_item) (h : is_send_to d item = true) :
    item.hdr.type = .UTIL_COLL_SEND := by
  cases item with
  | xfer_item hdr buf count rank datatype =>
    simp only [is_send_to, decide_eq_true_eq] at h
    exact h.1
  | copy_item hdr in_buf out_buf count datatype => simp [is_send_to] at h
  | reduce_item hdr in_buf inout_buf count datatype op => simp [is_send_to] at h
  | coll_state hdr type context data comp_fn => simp [is_send_to] at h

/-- C21: ranks `a` and `b` of a group of `n` compile one all-reduce with the same context
id and sequence number. The schedule of `a` holds a Send to `b` as many times as the
schedule of `b` holds a Recv from `a`; every Send of `a` goes to a member rank other
than `a`; and a Send of `a` to `b` carries the tag of a Recv of `b` from `a`. -/
theorem C21_sends_match_recvs (n a b : Nat) (hn1 : 1 ≤ n) (hn31 : n < 2 ^ 31) (ha : a < n)
    (hb : b < n) (mcA mcB : util_coll_mc) (hcA : mcA.av_set.fi_addr_count = n)
    (hcB : mcB.av_set.fi_addr_count = n) (hmyA : mcA.my_rank = (a : Int))
    (hmyB : mcB.my_rank = (b : Int)) (hcid : mcA.cid = mcB.cid) (hseq : mcA.seq = mcB.seq)
    (sA rA sB rB : Ptr) (count : Int) (datatype op : Nat) :
    ∃ itemsA itemsB,
      util_coll_allreduce mcA sA rA count datatype op =
        some (FI_SUCCESS, mc_append (util_coll_get_next_id mcA).2 itemsA) ∧
      util_coll_allreduce mcB sB rB count datatype op =
        some (FI_SUCCESS, mc_append (util_coll_get_next_id mcB).2 itemsB) ∧
      itemsA.countP (is_send_to b) = itemsB.countP (is_recv_from a) ∧
      (∀ item, item ∈ itemsA → item.hdr.type = .UTIL_COLL_SEND →
        ∃ d, is_send_to d item = true ∧ d < n ∧ d ≠ a) ∧
      (∀ x y, x ∈ itemsA → y ∈ itemsB → is_send_to b x = true → is_recv_from a y = true →
        x.hdr.tag = y.hdr.tag) := by
  have hid : (util_coll_get_next_id mcA).1 = (util_coll_get_next_id mcB).1 := by
    simp [util_coll_get_next_id, hcid, hseq]
  refine ⟨_, _, allreduce_closed mcA sA rA count datatype op n a hn1 hn31 ha hcA hmyA,
    allreduce_closed mcB sB rB count datatype op n b hn1 hn31 hb hcB hmyB,
    allreduce_send_recv n a b hn1 _ _ _ _ _ _ _ _ _ _ _ _, ?_, ?_⟩
  · intro item hitem hty
    exact ((allreduce_xfer_props _ sA rA count datatype op n a hn1 ha item hitem).1 hty).2
  · intro x y hx hy hsx hry
    rw [((allreduce_xfer_props _ sA rA count datatype op n a hn1 ha x hx).1
        (is_send_to_type b x hsx)).1,
      (allreduce_xfer_props _ sB rB count datatype op n b hn1 hb y hy).2 a hry, hid]

/-- C21 for the ranks 1 and 3 of a group of five: rank 1 sends to rank 3 once and rank 3
receives from rank 1 once (in the round with mask 2). -/
theorem C21_sends_match_recvs_witness :
    (∃ itemsA itemsB,
      util_coll_allreduce ⟨⟨0, [10, 11, 12, 13, 14], 5⟩, [], [], [], 1, 1, 0⟩ 100 200 1 FI_INT32
          FI_SUM =
        some (FI_SUCCESS, mc_append
          (util_coll_get_next_id ⟨⟨0, [10, 11, 12, 13, 14], 5⟩, [], [], [], 1, 1, 0⟩).2
          itemsA) ∧
      util_coll_allreduce ⟨⟨0, [10, 11, 12, 13, 14], 5⟩, [], [], [], 3, 1, 0⟩ 100 200 1 FI_INT32
          FI_SUM =
        some (FI_SUCCESS, mc_append
          (util_coll_get_next_id ⟨⟨0, [10, 11, 12, 13, 14], 5⟩, [], [], [], 3, 1, 0⟩).2
          itemsB) ∧
      itemsA.countP (is_send_to 3) = itemsB.countP (is_recv_from 1) ∧
      (∀ item, item ∈ itemsA → item.hdr.type = .UTIL_COLL_SEND →
        ∃ d, is_send_to d item = true ∧ d < 5 ∧ d ≠ 1) ∧
      (∀ x y, x ∈ itemsA → y ∈ itemsB → is_send_to 3 x = true → is_recv_from 1 y = true →
        x.hdr.tag = y.hdr.tag)) ∧
    (util_coll_allreduce ⟨⟨0, [10, 11, 12, 13, 14], 5⟩, [], [], [], 1, 1, 0⟩ 100 200 1 FI_INT32
        FI_SUM).map (fun r => r.2.deferred_list.countP (is_send_to 3)) = some 1 ∧
    (util_coll_allreduce ⟨⟨0, [10, 11, 12, 13, 14], 5⟩, [], [], [], 3, 1, 0⟩ 100 200 1 FI_INT32
        FI_SUM).map (fun r => r.2.deferred_list.countP (is_recv_from 1)) = some 1 :=
  ⟨C21_sends_match_recvs 5 1 3 (by decide) (by decide) (by decide) (by decide)
    ⟨⟨0, [10, 11, 12, 13, 14], 5⟩, [], [], [], 1, 1, 0⟩
    ⟨⟨0, [10, 11, 12, 13, 14], 5⟩, [], [], [], 3, 1, 0⟩ rfl rfl rfl rfl rfl rfl 100 200 100 200
    1 FI_INT32 FI_SUM, by decide, by decide⟩

end UtilColl
